import Mathlib

/-!
Snaky: a shallow embedding of the game-state engine.

Embedded from `src/snaky/board.go`, `src/snaky/snake.go` and `src/snaky/game.go`.

Conventions of the embedding.

* Go's `int` is `Int`. The only arithmetic the engine performs is `±1` on a head coordinate,
  `+10` on the score and `+1` on the round counter; a coordinate one step beyond the range of
  a machine integer is outside every board, wrapped or not.
* Go's `Event` and `Speed` are string types: they are `String` here, so that a heading which is
  none of the four directions is a state the model can express, as it is in Go.
* A method that mutates its receiver becomes a function that returns the state after the call.
* A call that the Go runtime aborts (index out of range, `make` with a negative length,
  `rand.Intn` with a non-positive bound) is the outcome `Run.panics`.
* The random source of `math/rand` is an explicit list of raw draws; a retry loop that is still
  running when the list is used up is the outcome `Run.spins`.
* The synchronisation fields of `Game` (`mu`, `ui`, `events`, `ctx`, `quit`) are not part of the
  state: the embedding is sequential. The 1-slot channel `hold` is the number of tokens it
  buffers, an argument of `eventHandlerHold`, the event handler with its sends; `eventHandler`
  is the handling of an event that runs to its end, which every send with a free slot allows.
-/

namespace Snaky

/-! ## Outcomes -/

/-- Errors of the package: `ErrSnakeBite`, `ErrSnakeHitWall` (game.go) and `ErrCellOutOfRange`
(board.go). -/
inductive Err where
  | ErrSnakeBite
  | ErrSnakeHitWall
  | ErrCellOutOfRange
  deriving DecidableEq, Repr

/-- The message of an error, `err.Error()`. -/
def Err.Error : Err → String
  | .ErrSnakeBite => "snake bite"
  | .ErrSnakeHitWall => "wall hit"
  | .ErrCellOutOfRange => "cell out of range"

/-- Outcome of running a piece of Go code: it finishes with a value, the runtime aborts it, or it
is still looping when the supplied random draws are used up. -/
inductive Run (α : Type) where
  | done (a : α)
  | panics
  | spins
  deriving DecidableEq, Repr

/-! ## board.go: icons and cells -/

/-- Go `type Icon int`; the zero value marks an empty grid cell. -/
abbrev Icon := Int

def IconSnakeHead : Icon := 1
def IconSnakeBody : Icon := 2
def IconFood : Icon := 3

/-- Go `type Cell struct { i, j int }`: `i` is the column, `j` the row. -/
structure Cell where
  i : Int
  j : Int
  deriving DecidableEq, Repr

def NewCell (i j : Int) : Cell := { i := i, j := j }

/-! ## game.go: events and speeds -/

abbrev Event := String

def EventQuit : Event := "quit"
def EventRestart : Event := "restart"
def EventPause : Event := "pause"
def EventStart : Event := "start"
def EventMoveUp : Event := "up"
def EventMoveDown : Event := "down"
def EventMoveRight : Event := "right"
def EventMoveLeft : Event := "left"

abbrev Speed := String

def Slow : Speed := "slow"
def Medium : Speed := "medium"
def Fast : Speed := "fast"

/-! ## snake.go -/

structure Snake where
  move : Event
  body : List Cell
  deriving DecidableEq, Repr

/-- The loop of `NewSnake`: `for i := 0; i < 4; i++ { body = append(body, Cell{1 + i, 3}) }`,
with `fuel` bounding the number of iterations still allowed. -/
def NewSnake.loop : Nat → Int → List Cell → List Cell
  | 0, _, body => body
  | fuel + 1, i, body =>
    if i < 4 then NewSnake.loop fuel (i + 1) (body ++ [{ i := 1 + i, j := 3 }]) else body

def NewSnake : Snake :=
  { move := EventMoveRight, body := NewSnake.loop 4 0 [] }

def Snake.Length (s : Snake) : Int := s.body.length

/-- Go `s.body[len(s.body)-1]`: index out of range on an empty body. -/
def Snake.Head (s : Snake) : Run Cell :=
  match s.body.getLast? with
  | some c => .done c
  | none => .panics

def Snake.IsOnBody (s : Snake) (c : Cell) : Bool :=
  s.body.any (fun b => c == b)

/-! ## The food (its source file is not part of the sources at hand) -/

structure Food where
  cell : Cell
  deriving DecidableEq, Repr

/-- Modelled from the spec: `NewFood`, whose file is missing from the sources; the spec fixes the
default food cell as column 5, row 4. -/
def NewFood : Food := { cell := { i := 5, j := 4 } }

/-! ## board.go: the board -/

structure Board where
  X : Int
  Y : Int
  Round : Int
  Score : Int
  Speed : Speed
  Head : Cell
  Length : Int
  Food : Cell
  IsPaused : Bool
  Errors : String
  Grid : List (List Icon)
  deriving DecidableEq, Repr

/-- The allocation shared by `NewBoard` and `update`:
`grid := make([][]Icon, width); for i := range grid { grid[i] = make([]Icon, height) }`.
`make` aborts on a negative length; the inner `make` runs only when there is a column. -/
def makeGrid (width height : Int) : Run (List (List Icon)) :=
  if width < 0 then .panics
  else if 0 < width ∧ height < 0 then .panics
  else .done (List.replicate width.toNat (List.replicate height.toNat 0))

/-- Go `NewBoard`. The field `Food` is not set by the constructor and keeps its zero value. -/
def NewBoard (width height : Int) (snake : Snake) (_food : Food) (speed : Speed) : Run Board :=
  match makeGrid width height with
  | .done grid =>
    match snake.Head with
    | .done head =>
      .done
        { X := width, Y := height, Score := 0, Round := 0, Speed := speed, Head := head,
          Length := snake.Length, Food := { i := 0, j := 0 }, IsPaused := true, Errors := "",
          Grid := grid }
    | .panics => .panics
    | .spins => .spins
  | .panics => .panics
  | .spins => .spins

/-- Go `(*Board).update`: a fresh empty grid, then head, length and food are copied. -/
def Board.update (b : Board) (snake : Snake) (food : Snaky.Food) : Run Board :=
  match makeGrid b.X b.Y with
  | .done grid =>
    match snake.Head with
    | .done head =>
      .done { b with Grid := grid, Head := head, Length := snake.Length, Food := food.cell }
    | .panics => .panics
    | .spins => .spins
  | .panics => .panics
  | .spins => .spins

/-- Go `(*Board).mark`: the guard compares the row `c.j` with both `X` and `Y`; the assignment
`b.Grid[c.i][c.j] = i` aborts when either index is out of range. The result pairs the returned
error (`none` for `nil`) with the board after the call. -/
def Board.mark (b : Board) (c : Cell) (i : Icon) : Run (Option Err × Board) :=
  if c.j > b.X ∨ c.j > b.Y then .done (some .ErrCellOutOfRange, b)
  else if 0 ≤ c.i ∧ 0 ≤ c.j then
    match b.Grid[c.i.toNat]? with
    | some col =>
      if c.j.toNat < col.length then
        .done (none, { b with Grid := b.Grid.set c.i.toNat (col.set c.j.toNat i) })
      else .panics
    | none => .panics
  else .panics

/-- The loop of `paint` over the body without the head:
`for _, c := range body { if err := b.mark(c, IconSnakeBody); err != nil { return err } }`. -/
def Board.paint.loop (b : Board) : List Cell → Run (Option Err × Board)
  | [] => .done (none, b)
  | c :: rest =>
    match b.mark c IconSnakeBody with
    | .done (none, b1) => Board.paint.loop b1 rest
    | .done (some err, b1) => .done (some err, b1)
    | .panics => .panics
    | .spins => .spins

/-- Go `(*Board).paint`. `snake.body[:len(snake.body)-1]` aborts on an empty body, as `Head`
does before it. -/
def Board.paint (b : Board) (snake : Snake) (food : Snaky.Food) : Run (Option Err × Board) :=
  match b.update snake food with
  | .done b0 =>
    match snake.Head with
    | .done head =>
      let body := snake.body.dropLast
      match b0.mark food.cell IconFood with
      | .done (none, b1) =>
        match b1.mark head IconSnakeHead with
        | .done (none, b2) => Board.paint.loop b2 body
        | .done (some err, b2) => .done (some err, b2)
        | .panics => .panics
        | .spins => .spins
      | .done (some err, b1) => .done (some err, b1)
      | .panics => .panics
      | .spins => .spins
    | .panics => .panics
    | .spins => .spins
  | .panics => .panics
  | .spins => .spins

/-! ## game.go: the game -/

structure Game where
  board : Board
  food : Food
  snake : Snake
  speed : Speed
  paused : Bool
  deriving DecidableEq, Repr

/-- Go `rand.Intn(n)`: aborts for `n ≤ 0`, otherwise a value of `[0, n)` chosen by the random
source, here the raw draw `r` reduced modulo `n`. -/
def Intn (r : Nat) (n : Int) : Run Int :=
  if n ≤ 0 then .panics else .done ((r : Int) % n)

/-- Go `NewGame`; the renderer, the channels and the context are not part of the state. -/
def NewGame (width height : Int) (speed : Speed) : Run Game :=
  let snake := NewSnake
  let food := NewFood
  match NewBoard width height snake food speed with
  | .done board =>
    .done { board := board, food := food, snake := snake, speed := speed, paused := true }
  | .panics => .panics
  | .spins => .spins

/-- The `switch g.snake.move` of `moveSnake`: the candidate head. A heading that is none of the
four directions leaves the head where it is. -/
def nextHead (move : Event) (head : Cell) : Cell :=
  if move = EventMoveRight then { head with i := head.i + 1 }
  else if move = EventMoveLeft then { head with i := head.i - 1 }
  else if move = EventMoveUp then { head with j := head.j - 1 }
  else if move = EventMoveDown then { head with j := head.j + 1 }
  else head

/-- The food placement loop of `moveSnake`:
`for try { f.i = rand.Intn(X); f.j = rand.Intn(Y); if f != food.cell && !snake.IsOnBody(f) { try = !try } }`.
Each iteration consumes one pair of raw draws. -/
def placeFood (X Y : Int) (food : Food) (snake : Snake) : List (Nat × Nat) → Run Cell
  | [] => .spins
  | (r1, r2) :: rest =>
    match Intn r1 X with
    | .done fi =>
      match Intn r2 Y with
      | .done fj =>
        let f : Cell := { i := fi, j := fj }
        if f ≠ food.cell ∧ ¬ snake.IsOnBody f then .done f
        else placeFood X Y food snake rest
      | .panics => .panics
      | .spins => .spins
    | .panics => .panics
    | .spins => .spins

/-- Go `(*Game).moveSnake`. The result pairs the returned error (`none` for `nil`) with the
game after the call. -/
def moveSnake (g : Game) (draws : List (Nat × Nat)) : Run (Option Err × Game) :=
  match g.snake.Head with
  | .done h =>
    let head := nextHead g.snake.move h
    if (head.i < 0 ∨ head.j < 0) ∨ (head.i ≥ g.board.X ∨ head.j ≥ g.board.Y) then
      .done (some .ErrSnakeHitWall, g)
    else if g.snake.body.dropLast.any (fun cell => head == cell) then
      .done (some .ErrSnakeBite, g)
    else if head = g.food.cell then
      match placeFood g.board.X g.board.Y g.food g.snake draws with
      | .done f =>
        .done (none,
          { g with
            food := { cell := f }
            board := { g.board with Score := g.board.Score + 10 }
            snake := { g.snake with body := g.snake.body ++ [head] } })
      | .panics => .panics
      | .spins => .spins
    else
      .done (none, { g with snake := { g.snake with body := g.snake.body.tail ++ [head] } })
  | .panics => .panics
  | .spins => .spins

/-- Go `(*Game).restart`. -/
def restart (g : Game) : Run Game :=
  let snake := NewSnake
  let food := NewFood
  match NewBoard g.board.X g.board.Y snake food g.speed with
  | .done board => .done { g with snake := snake, food := food, board := board }
  | .panics => .panics
  | .spins => .spins

/-- The body of the `switch event` of `(*Game).eventHandler`: the handling of one event that
runs to its end. The sends on `hold` of the cases Quit, Restart and Start, which block when the
channel holds a token, are in `eventHandlerHold`; the cancelling of the context acts on a field
outside the state. -/
def eventHandler (g : Game) (event : Event) : Run Game :=
  if event = EventQuit then .done { g with paused := false }
  else if event = EventRestart then restart { g with paused := false }
  else if event = EventPause then .done { g with paused := true }
  else if event = EventStart then .done { g with paused := false }
  else if event = EventMoveRight then
    if g.snake.move = EventMoveUp ∨ g.snake.move = EventMoveDown then
      .done { g with
        snake := { g.snake with move := EventMoveRight }
        board := { g.board with Round := g.board.Round + 1 } }
    else .done g
  else if event = EventMoveLeft then
    if g.snake.move = EventMoveUp ∨ g.snake.move = EventMoveDown then
      .done { g with
        snake := { g.snake with move := EventMoveLeft }
        board := { g.board with Round := g.board.Round + 1 } }
    else .done g
  else if event = EventMoveUp then
    if g.snake.move = EventMoveRight ∨ g.snake.move = EventMoveLeft then
      .done { g with
        snake := { g.snake with move := EventMoveUp }
        board := { g.board with Round := g.board.Round + 1 } }
    else .done g
  else if event = EventMoveDown then
    if g.snake.move = EventMoveRight ∨ g.snake.move = EventMoveLeft then
      .done { g with
        snake := { g.snake with move := EventMoveDown }
        board := { g.board with Round := g.board.Round + 1 } }
    else .done g
  else .done g


/-- Where the handling of one event stands: the handler has finished it, or it is blocked in
the send on `hold`; each with the game and the number of tokens buffered in `hold` then. -/
inductive Handled where
  | finished (g : Game) (tokens : Nat)
  | blocked (g : Game) (tokens : Nat)
  deriving DecidableEq, Repr

/-- The send `g.hold <- struct{}{}`. The channel is `make(chan struct{}, 1)`: with no token
buffered the send buffers one (`some`), with one buffered the sender blocks (`none`). -/
def sendHold (tokens : Nat) : Option Nat :=
  if tokens < 1 then some (tokens + 1) else none

/-- The receive `<-g.hold`, which the loop of `Run` makes only inside `if g.paused`: it takes a
buffered token (`some`) or blocks (`none`). -/
def recvHold (tokens : Nat) : Option Nat :=
  if 0 < tokens then some (tokens - 1) else none

/-- The body of the `switch event` of `(*Game).eventHandler` with the channel `hold`, which
buffers `tokens` tokens. In the cases Quit and Start the send follows the assignment of
`paused`; in the case Restart it stands between that assignment and `g.restart()`, so a blocked
send leaves the game not restarted. -/
def eventHandlerHold (g : Game) (tokens : Nat) (event : Event) : Run Handled :=
  if event = EventQuit then
    match sendHold tokens with
    | some t => .done (.finished { g with paused := false } t)
    | none => .done (.blocked { g with paused := false } tokens)
  else if event = EventRestart then
    match sendHold tokens with
    | some t =>
      match restart { g with paused := false } with
      | .done g1 => .done (.finished g1 t)
      | .panics => .panics
      | .spins => .spins
    | none => .done (.blocked { g with paused := false } tokens)
  else if event = EventPause then .done (.finished { g with paused := true } tokens)
  else if event = EventStart then
    match sendHold tokens with
    | some t => .done (.finished { g with paused := false } t)
    | none => .done (.blocked { g with paused := false } tokens)
  else if event = EventMoveRight then
    if g.snake.move = EventMoveUp ∨ g.snake.move = EventMoveDown then
      .done (.finished
        { g with
          snake := { g.snake with move := EventMoveRight }
          board := { g.board with Round := g.board.Round + 1 } } tokens)
    else .done (.finished g tokens)
  else if event = EventMoveLeft then
    if g.snake.move = EventMoveUp ∨ g.snake.move = EventMoveDown then
      .done (.finished
        { g with
          snake := { g.snake with move := EventMoveLeft }
          board := { g.board with Round := g.board.Round + 1 } } tokens)
    else .done (.finished g tokens)
  else if event = EventMoveUp then
    if g.snake.move = EventMoveRight ∨ g.snake.move = EventMoveLeft then
      .done (.finished
        { g with
          snake := { g.snake with move := EventMoveUp }
          board := { g.board with Round := g.board.Round + 1 } } tokens)
    else .done (.finished g tokens)
  else if event = EventMoveDown then
    if g.snake.move = EventMoveRight ∨ g.snake.move = EventMoveLeft then
      .done (.finished
        { g with
          snake := { g.snake with move := EventMoveDown }
          board := { g.board with Round := g.board.Round + 1 } } tokens)
    else .done (.finished g tokens)
  else .done (.finished g tokens)

/-- The branch of `(*Game).Run` taken when `moveSnake` returned the error `err`: the message
is recorded in `Board.Errors` and the board is painted. The result pairs the error of `paint`
with the game; rendering and the queued `EventPause` act outside the state. -/
def runMoveFailed (g : Game) (err : Err) : Run (Option Err × Game) :=
  let b := { g.board with Errors := err.Error }
  match b.paint g.snake g.food with
  | .done (r, b1) => .done (r, { g with board := b1 })
  | .panics => .panics
  | .spins => .spins

/-! ## Reading the grid -/

/-- Reading `grid[i][j]`, with `none` where the Go runtime finds an index out of range. -/
def gridAt (grid : List (List Icon)) (i j : Nat) : Option Icon :=
  match grid[i]? with
  | some col => col[j]?
  | none => none

/-- The number of cells of the grid that hold the icon `x`: what the renderer's double loop
over `b.Grid` meets. -/
def gridCount (grid : List (List Icon)) (x : Icon) : Nat :=
  (grid.map (fun col => col.count x)).sum

/-- Reading `b.Grid[c.i][c.j]`. -/
def Board.iconAt (b : Board) (c : Cell) : Option Icon :=
  if 0 ≤ c.i ∧ 0 ≤ c.j then gridAt b.Grid c.i.toNat c.j.toNat else none

/-- The number of cells of the board's grid that hold the icon `x`. -/
def Board.countIcon (b : Board) (x : Icon) : Nat := gridCount b.Grid x

/-- The cell lies in `[0,X) x [0,Y)`. -/
def Board.inside (b : Board) (c : Cell) : Prop :=
  0 ≤ c.i ∧ c.i < b.X ∧ 0 ≤ c.j ∧ c.j < b.Y

instance (b : Board) (c : Cell) : Decidable (b.inside c) := by
  unfold Board.inside
  infer_instance

/-- The grid has `X` columns of `Y` cells each, as `NewBoard` and `update` allocate it. -/
def Board.rect (b : Board) : Prop :=
  0 ≤ b.X ∧ 0 ≤ b.Y ∧ b.Grid.length = b.X.toNat ∧ ∀ col ∈ b.Grid, col.length = b.Y.toNat

/-- A run of `mark` calls that stops at the first one returning an error: the shape of the
marking steps of `paint`, which marks the food, the head and then the rest of the body. -/
def Board.markAll (b : Board) : List (Cell × Icon) → Run (Option Err × Board)
  | [] => .done (none, b)
  | (c, v) :: rest =>
    match b.mark c v with
    | .done (none, b1) => Board.markAll b1 rest
    | .done (some err, b1) => .done (some err, b1)
    | .panics => .panics
    | .spins => .spins

/-! ## The invariants of the claims -/

/-- Two cells are one unit step apart: same column and rows differing by 1, or same row and
columns differing by 1. -/
def unitStep (a b : Cell) : Prop :=
  (a.i = b.i ∧ (a.j - b.j = 1 ∨ b.j - a.j = 1)) ∨
  (a.j = b.j ∧ (a.i - b.i = 1 ∨ b.i - a.i = 1))

instance (a b : Cell) : Decidable (unitStep a b) :=
  inferInstanceAs (Decidable
    ((a.i = b.i ∧ (a.j - b.j = 1 ∨ b.j - a.j = 1)) ∨
      (a.j = b.j ∧ (a.i - b.i = 1 ∨ b.i - a.i = 1))))

/-- Every two consecutive cells of the body are one unit step apart. -/
def contiguous (body : List Cell) : Prop :=
  ∀ k (hk : k + 1 < body.length),
    unitStep (body.get ⟨k, Nat.lt_of_succ_lt hk⟩) (body.get ⟨k + 1, hk⟩)

/-- The successful branch of the loop of `(*Game).Run` after `moveSnake` returned no error:
`g.board.IsPaused = false`, then the board is painted, and an error of `paint` is returned by
`Run`. The result pairs that error with the game; rendering and the sleep act outside the
state. -/
def runMoveOk (g : Game) : Run (Option Err × Game) :=
  let b := { g.board with IsPaused := false }
  match b.paint g.snake g.food with
  | .done (r, b1) => .done (r, { g with board := b1 })
  | .panics => .panics
  | .spins => .spins

/-- One tick of the loop of `(*Game).Run` on a game that is not paused: `moveSnake`, then the
branch for its error or the branch for its success. The result is the error `Run` returns at
this tick, if any, and the game after the tick. -/
def tick (g : Game) (draws : List (Nat × Nat)) : Run (Option Err × Game) :=
  match moveSnake g draws with
  | .done (some err, g1) =>
    match runMoveFailed g1 err with
    | .done (_, g2) => .done (none, g2)
    | .panics => .panics
    | .spins => .spins
  | .done (none, g1) => runMoveOk g1
  | .panics => .panics
  | .spins => .spins

/-- The first `n` ticks of the loop with the given draws for each tick, stopping at the first
tick at which `Run` returns an error. -/
def ticks : List (List (Nat × Nat)) → Game → Run (Option Err × Game)
  | [], g => .done (none, g)
  | draws :: rest, g =>
    match tick g draws with
    | .done (none, g1) => ticks rest g1
    | .done (some err, g1) => .done (some err, g1)
    | .panics => .panics
    | .spins => .spins

/-- The games reached from a start by events, steps of the snake and paints of the board; a
restart is the event `EventRestart`. -/
inductive Reached : Game → Prop where
  | start (width height : Int) (speed : Speed) (g : Game) :
      NewGame width height speed = .done g → Reached g
  | event (g g' : Game) (ev : Event) :
      Reached g → eventHandler g ev = .done g' → Reached g'
  | step (g g' : Game) (draws : List (Nat × Nat)) (r : Option Err) :
      Reached g → moveSnake g draws = .done (r, g') → Reached g'
  | painted (g : Game) (r : Option Err) (b' : Board) :
      Reached g → g.board.paint g.snake g.food = .done (r, b') →
      Reached { g with board := b' }


/-! ## The marks of `paint` -/

/-- The marks `paint` makes, in order: the food cell, the head, then the body cells below the
head from the oldest on. -/
def paintMarks (snake : Snake) (food : Food) (head : Cell) : List (Cell × Icon) :=
  (food.cell, IconFood) :: (head, IconSnakeHead) ::
    snake.body.dropLast.map (fun c => (c, IconSnakeBody))

/-- The icon of the last mark of the run made on the cell `c`, if any mark was made on it. -/
def lastMark (c : Cell) : List (Cell × Icon) → Option Icon
  | [] => none
  | (c0, v0) :: rest =>
    match lastMark c rest with
    | some v => some v
    | none => if c0 = c then some v0 else none


/-! ## Concrete states used as examples -/

/-- A board of the given size as `NewBoard` builds it for the initial snake. -/
def boardOf (width height : Nat) : Board :=
  { X := width, Y := height, Round := 0, Score := 0, Speed := Fast, Head := ⟨4, 3⟩, Length := 4,
    Food := ⟨0, 0⟩, IsPaused := true, Errors := "",
    Grid := List.replicate width (List.replicate height 0) }

/-- A running game on a board of the given size with the given heading, body and food cell. -/
def gameOf (width height : Nat) (move : Event) (body : List Cell) (food : Cell) : Game :=
  { board := boardOf width height, food := { cell := food },
    snake := { move := move, body := body }, speed := Fast, paused := false }

/-! ## Basic facts about the embedding -/

theorem Head_eq_done (s : Snake) (h : Cell) :
    s.Head = .done h ↔ s.body.getLast? = some h := by
  unfold Snake.Head
  cases s.body.getLast? <;> simp

theorem Head_append (m : Event) (l : List Cell) (c : Cell) :
    Snake.Head { move := m, body := l ++ [c] } = .done c := by
  simp [Snake.Head]

theorem body_ne_nil_of_Head {s : Snake} {h : Cell} (hh : s.Head = .done h) : s.body ≠ [] := by
  intro hnil
  simp [Snake.Head, hnil] at hh

theorem NewSnake_body :
    NewSnake.body = [⟨1, 3⟩, ⟨2, 3⟩, ⟨3, 3⟩, ⟨4, 3⟩] := by
  simp [NewSnake, NewSnake.loop]

/-- What a successful `moveSnake` has done, read off the code path it took. -/
theorem moveSnake_ok_inv {g g' : Game} {draws : List (Nat × Nat)}
    (hok : moveSnake g draws = .done (none, g')) :
    ∃ h, g.snake.Head = .done h ∧
      ¬ ((nextHead g.snake.move h).i < 0 ∨ (nextHead g.snake.move h).j < 0) ∧
      ¬ ((nextHead g.snake.move h).i ≥ g.board.X ∨ (nextHead g.snake.move h).j ≥ g.board.Y) ∧
      nextHead g.snake.move h ∉ g.snake.body.dropLast ∧
      ((nextHead g.snake.move h = g.food.cell ∧
          ∃ f, placeFood g.board.X g.board.Y g.food g.snake draws = .done f ∧
            g' = { g with
              food := { cell := f }
              board := { g.board with Score := g.board.Score + 10 }
              snake := { g.snake with body := g.snake.body ++ [nextHead g.snake.move h] } }) ∨
       (nextHead g.snake.move h ≠ g.food.cell ∧
          g' = { g with
            snake := { g.snake with
              body := g.snake.body.tail ++ [nextHead g.snake.move h] } })) := by
  unfold moveSnake at hok
  cases hH : g.snake.Head with
  | panics => simp [hH] at hok
  | spins => simp [hH] at hok
  | done h =>
    refine ⟨h, rfl, ?_⟩
    simp only [hH] at hok
    split_ifs at hok with hw hb hf
    · simp at hok
    · simp at hok
    · have hb' : nextHead g.snake.move h ∉ g.snake.body.dropLast := by
        intro hmem
        apply hb
        simp only [List.any_eq_true, beq_iff_eq]
        exact ⟨_, hmem, rfl⟩
      refine ⟨fun h1 => hw (Or.inl h1), fun h2 => hw (Or.inr h2), hb', Or.inl ⟨hf, ?_⟩⟩
      cases hp : placeFood g.board.X g.board.Y g.food g.snake draws with
      | panics => simp [hp] at hok
      | spins => simp [hp] at hok
      | done f =>
        simp only [hp, Run.done.injEq, Prod.mk.injEq, true_and] at hok
        exact ⟨f, rfl, hok.symm⟩
    · have hb' : nextHead g.snake.move h ∉ g.snake.body.dropLast := by
        intro hmem
        apply hb
        simp only [List.any_eq_true, beq_iff_eq]
        exact ⟨_, hmem, rfl⟩
      refine ⟨fun h1 => hw (Or.inl h1), fun h2 => hw (Or.inr h2), hb', Or.inr ⟨hf, ?_⟩⟩
      simp only [Run.done.injEq, Prod.mk.injEq, true_and] at hok
      exact hok.symm

theorem NewSnake_Head : NewSnake.Head = .done ⟨4, 3⟩ := by
  simp [Snake.Head, NewSnake_body]

theorem makeGrid_of_nonneg {w h : Int} (hw : 0 ≤ w) (hh : 0 ≤ h) :
    makeGrid w h = .done (List.replicate w.toNat (List.replicate h.toNat 0)) := by
  unfold makeGrid
  rw [if_neg (by omega), if_neg (by omega)]

/-- The board `NewBoard` builds for the initial snake. -/
theorem NewBoard_NewSnake {w h : Int} (hw : 0 ≤ w) (hh : 0 ≤ h) (food : Food) (speed : Speed) :
    NewBoard w h NewSnake food speed = .done
      { X := w, Y := h, Score := 0, Round := 0, Speed := speed, Head := ⟨4, 3⟩, Length := 4,
        Food := ⟨0, 0⟩, IsPaused := true, Errors := "",
        Grid := List.replicate w.toNat (List.replicate h.toNat 0) } := by
  simp [NewBoard, makeGrid_of_nonneg hw hh, NewSnake_Head, Snake.Length, NewSnake_body]

/-- The game `NewGame` builds. -/
theorem NewGame_eq {w h : Int} (hw : 0 ≤ w) (hh : 0 ≤ h) (speed : Speed) :
    NewGame w h speed = .done
      { board :=
          { X := w, Y := h, Score := 0, Round := 0, Speed := speed, Head := ⟨4, 3⟩, Length := 4,
            Food := ⟨0, 0⟩, IsPaused := true, Errors := "",
            Grid := List.replicate w.toNat (List.replicate h.toNat 0) },
        food := NewFood, snake := NewSnake, speed := speed, paused := true } := by
  simp [NewGame, NewBoard_NewSnake hw hh]

/-! ### The four code paths of `moveSnake`, forwards -/

theorem any_eq_iff_mem (c : Cell) (l : List Cell) :
    l.any (fun cell => c == cell) = true ↔ c ∈ l := by
  simp

theorem moveSnake_wall {g : Game} {h : Cell} (draws : List (Nat × Nat))
    (hH : g.snake.Head = .done h)
    (hw : ((nextHead g.snake.move h).i < 0 ∨ (nextHead g.snake.move h).j < 0) ∨
      ((nextHead g.snake.move h).i ≥ g.board.X ∨ (nextHead g.snake.move h).j ≥ g.board.Y)) :
    moveSnake g draws = .done (some .ErrSnakeHitWall, g) := by
  unfold moveSnake
  simp only [hH]
  rw [if_pos hw]

theorem moveSnake_bite {g : Game} {h : Cell} (draws : List (Nat × Nat))
    (hH : g.snake.Head = .done h)
    (hw : ¬ (((nextHead g.snake.move h).i < 0 ∨ (nextHead g.snake.move h).j < 0) ∨
      ((nextHead g.snake.move h).i ≥ g.board.X ∨ (nextHead g.snake.move h).j ≥ g.board.Y)))
    (hb : nextHead g.snake.move h ∈ g.snake.body.dropLast) :
    moveSnake g draws = .done (some .ErrSnakeBite, g) := by
  unfold moveSnake
  simp only [hH]
  rw [if_neg hw, if_pos ((any_eq_iff_mem _ _).mpr hb)]

theorem moveSnake_plain {g : Game} {h : Cell} (draws : List (Nat × Nat))
    (hH : g.snake.Head = .done h)
    (hw : ¬ (((nextHead g.snake.move h).i < 0 ∨ (nextHead g.snake.move h).j < 0) ∨
      ((nextHead g.snake.move h).i ≥ g.board.X ∨ (nextHead g.snake.move h).j ≥ g.board.Y)))
    (hb : nextHead g.snake.move h ∉ g.snake.body.dropLast)
    (hf : nextHead g.snake.move h ≠ g.food.cell) :
    moveSnake g draws = .done (none,
      { g with snake := { g.snake with
          body := g.snake.body.tail ++ [nextHead g.snake.move h] } }) := by
  unfold moveSnake
  simp only [hH]
  rw [if_neg hw, if_neg (fun hc => hb ((any_eq_iff_mem _ _).mp hc)), if_neg hf]

theorem moveSnake_feed {g : Game} {h f : Cell} {draws : List (Nat × Nat)}
    (hH : g.snake.Head = .done h)
    (hw : ¬ (((nextHead g.snake.move h).i < 0 ∨ (nextHead g.snake.move h).j < 0) ∨
      ((nextHead g.snake.move h).i ≥ g.board.X ∨ (nextHead g.snake.move h).j ≥ g.board.Y)))
    (hb : nextHead g.snake.move h ∉ g.snake.body.dropLast)
    (hf : nextHead g.snake.move h = g.food.cell)
    (hp : placeFood g.board.X g.board.Y g.food g.snake draws = .done f) :
    moveSnake g draws = .done (none,
      { g with
        food := { cell := f }
        board := { g.board with Score := g.board.Score + 10 }
        snake := { g.snake with body := g.snake.body ++ [nextHead g.snake.move h] } }) := by
  unfold moveSnake
  simp only [hH]
  rw [if_neg hw, if_neg (fun hc => hb ((any_eq_iff_mem _ _).mp hc)), if_pos hf]
  simp only [hp]

/-! ### The direction events of `eventHandler`, forwards -/

theorem eventHandler_right_accept {g : Game}
    (h : g.snake.move = EventMoveUp ∨ g.snake.move = EventMoveDown) :
    eventHandler g EventMoveRight = .done
      { g with
        snake := { g.snake with move := EventMoveRight }
        board := { g.board with Round := g.board.Round + 1 } } := by
  simp [eventHandler, EventMoveRight, EventQuit, EventRestart, EventPause, EventStart]
  exact fun h1 h2 => absurd h (by simp [h1, h2])

theorem eventHandler_left_accept {g : Game}
    (h : g.snake.move = EventMoveUp ∨ g.snake.move = EventMoveDown) :
    eventHandler g EventMoveLeft = .done
      { g with
        snake := { g.snake with move := EventMoveLeft }
        board := { g.board with Round := g.board.Round + 1 } } := by
  simp [eventHandler, EventMoveRight, EventMoveLeft, EventQuit, EventRestart, EventPause,
    EventStart]
  exact fun h1 h2 => absurd h (by simp [h1, h2])

theorem eventHandler_up_accept {g : Game}
    (h : g.snake.move = EventMoveRight ∨ g.snake.move = EventMoveLeft) :
    eventHandler g EventMoveUp = .done
      { g with
        snake := { g.snake with move := EventMoveUp }
        board := { g.board with Round := g.board.Round + 1 } } := by
  simp [eventHandler, EventMoveRight, EventMoveLeft, EventMoveUp, EventQuit, EventRestart,
    EventPause, EventStart]
  exact fun h1 h2 => absurd h (by simp [EventMoveRight, EventMoveLeft, h1, h2])

theorem eventHandler_down_accept {g : Game}
    (h : g.snake.move = EventMoveRight ∨ g.snake.move = EventMoveLeft) :
    eventHandler g EventMoveDown = .done
      { g with
        snake := { g.snake with move := EventMoveDown }
        board := { g.board with Round := g.board.Round + 1 } } := by
  simp [eventHandler, EventMoveRight, EventMoveLeft, EventMoveUp, EventMoveDown, EventQuit,
    EventRestart, EventPause, EventStart]
  exact fun h1 h2 => absurd h (by simp [EventMoveRight, EventMoveLeft, h1, h2])

/-! ### The candidate head -/

/-- The candidate head is the head moved by the unit offset of the heading, and the head itself
when the heading is none of the four directions. -/
theorem nextHead_offsets (m : Event) (h : Cell) :
    (m = EventMoveRight → nextHead m h = { i := h.i + 1, j := h.j }) ∧
    (m = EventMoveLeft → nextHead m h = { i := h.i - 1, j := h.j }) ∧
    (m = EventMoveUp → nextHead m h = { i := h.i, j := h.j - 1 }) ∧
    (m = EventMoveDown → nextHead m h = { i := h.i, j := h.j + 1 }) ∧
    ((m ≠ EventMoveRight ∧ m ≠ EventMoveLeft ∧ m ≠ EventMoveUp ∧ m ≠ EventMoveDown) →
      nextHead m h = h) := by
  refine ⟨?_, ?_, ?_, ?_, ?_⟩
  · intro hm; simp [nextHead, hm]
  · intro hm; simp [nextHead, hm, EventMoveLeft, EventMoveRight]
  · intro hm; simp [nextHead, hm, EventMoveLeft, EventMoveRight, EventMoveUp]
  · intro hm; simp [nextHead, hm, EventMoveLeft, EventMoveRight, EventMoveUp, EventMoveDown]
  · rintro ⟨h1, h2, h3, h4⟩; simp [nextHead, h1, h2, h3, h4]

/-- A cell that obeys the offset table of the headings is the candidate head. -/
theorem eq_nextHead_of_offsets {m : Event} {h cand : Cell}
    (hr : m = EventMoveRight → cand = { i := h.i + 1, j := h.j })
    (hl : m = EventMoveLeft → cand = { i := h.i - 1, j := h.j })
    (hu : m = EventMoveUp → cand = { i := h.i, j := h.j - 1 })
    (hd : m = EventMoveDown → cand = { i := h.i, j := h.j + 1 })
    (hn : (m ≠ EventMoveRight ∧ m ≠ EventMoveLeft ∧ m ≠ EventMoveUp ∧ m ≠ EventMoveDown) →
      cand = h) :
    cand = nextHead m h := by
  obtain ⟨r, l, u, d, n⟩ := nextHead_offsets m h
  by_cases h1 : m = EventMoveRight
  · rw [hr h1, r h1]
  by_cases h2 : m = EventMoveLeft
  · rw [hl h2, l h2]
  by_cases h3 : m = EventMoveUp
  · rw [hu h3, u h3]
  by_cases h4 : m = EventMoveDown
  · rw [hd h4, d h4]
  rw [hn ⟨h1, h2, h3, h4⟩, n ⟨h1, h2, h3, h4⟩]

/-- What a failed `moveSnake` has done: nothing, and which check failed. -/
theorem moveSnake_err_inv {g g' : Game} {draws : List (Nat × Nat)} {e : Err}
    (herr : moveSnake g draws = .done (some e, g')) :
    g' = g ∧ ∃ h, g.snake.Head = .done h ∧
      ((e = .ErrSnakeHitWall ∧
          (((nextHead g.snake.move h).i < 0 ∨ (nextHead g.snake.move h).j < 0) ∨
            ((nextHead g.snake.move h).i ≥ g.board.X ∨
              (nextHead g.snake.move h).j ≥ g.board.Y))) ∨
       (e = .ErrSnakeBite ∧
          ¬ (((nextHead g.snake.move h).i < 0 ∨ (nextHead g.snake.move h).j < 0) ∨
            ((nextHead g.snake.move h).i ≥ g.board.X ∨
              (nextHead g.snake.move h).j ≥ g.board.Y)) ∧
          nextHead g.snake.move h ∈ g.snake.body.dropLast)) := by
  unfold moveSnake at herr
  cases hH : g.snake.Head with
  | panics => simp [hH] at herr
  | spins => simp [hH] at herr
  | done h =>
    simp only [hH] at herr
    split_ifs at herr with hw hb hf
    · simp only [Run.done.injEq, Prod.mk.injEq, Option.some.injEq] at herr
      exact ⟨herr.2.symm, h, rfl, Or.inl ⟨herr.1.symm, hw⟩⟩
    · simp only [Run.done.injEq, Prod.mk.injEq, Option.some.injEq] at herr
      exact ⟨herr.2.symm, h, rfl, Or.inr ⟨herr.1.symm, hw, (any_eq_iff_mem _ _).mp hb⟩⟩
    · cases hp : placeFood g.board.X g.board.Y g.food g.snake draws <;> simp [hp] at herr
    · simp at herr

/-! ## C1: one successful step -/

/-- C1. For every game whose heading is one of the four directions and on which `moveSnake`
returns no error, the new body is the old body without its oldest cell (the whole old body when
the candidate head is the food cell) followed by the candidate head, the candidate being the
old head moved by the unit offset of the heading; so the head moves by that offset, the length
is kept without feeding and grows by one with feeding. On a 26x14 board the initial snake, after
an accepted `MoveUp`, steps to `[(2,3),(3,3),(4,3),(4,2)]`, and on a fresh 100x100 game the first
`moveSnake` succeeds. -/
theorem moveSnake_step :
    (∀ (g g' : Game) (draws : List (Nat × Nat)),
      (g.snake.move = EventMoveUp ∨ g.snake.move = EventMoveDown ∨
        g.snake.move = EventMoveLeft ∨ g.snake.move = EventMoveRight) →
      moveSnake g draws = .done (none, g') →
      ∃ h cand : Cell, g.snake.Head = .done h ∧
        (g.snake.move = EventMoveRight → cand = { i := h.i + 1, j := h.j }) ∧
        (g.snake.move = EventMoveLeft → cand = { i := h.i - 1, j := h.j }) ∧
        (g.snake.move = EventMoveUp → cand = { i := h.i, j := h.j - 1 }) ∧
        (g.snake.move = EventMoveDown → cand = { i := h.i, j := h.j + 1 }) ∧
        g'.snake.body
          = (if cand = g.food.cell then g.snake.body else g.snake.body.tail) ++ [cand] ∧
        g'.snake.Head = .done cand ∧
        g'.snake.move = g.snake.move ∧
        (cand ≠ g.food.cell → g'.snake.Length = g.snake.Length) ∧
        (cand = g.food.cell → g'.snake.Length = g.snake.Length + 1)) ∧
    (∀ (speed : Speed) (draws : List (Nat × Nat)),
      ∃ g0 g1 g2 : Game, NewGame 26 14 speed = .done g0 ∧
        g0.snake.move = EventMoveRight ∧
        g0.snake.body = [⟨1, 3⟩, ⟨2, 3⟩, ⟨3, 3⟩, ⟨4, 3⟩] ∧
        eventHandler g0 EventMoveUp = .done g1 ∧
        g1.snake.move = EventMoveUp ∧ g1.board.Round = 1 ∧
        moveSnake g1 draws = .done (none, g2) ∧
        g2.snake.body = [⟨2, 3⟩, ⟨3, 3⟩, ⟨4, 3⟩, ⟨4, 2⟩] ∧
        g2.snake.Head = .done ⟨4, 2⟩) ∧
    (∀ (speed : Speed) (draws : List (Nat × Nat)),
      ∃ g0 g1 : Game, NewGame 100 100 speed = .done g0 ∧
        moveSnake g0 draws = .done (none, g1)) := by
  refine ⟨?_, ?_, ?_⟩
  · intro g g' draws hmove hok
    obtain ⟨h, hH, -, -, -, hcase⟩ := moveSnake_ok_inv hok
    have hne := body_ne_nil_of_Head hH
    have hlen : 0 < g.snake.body.length := List.length_pos.mpr hne
    refine ⟨h, nextHead g.snake.move h, hH, ?_, ?_, ?_, ?_, ?_⟩
    · intro hm; simp [nextHead, hm]
    · intro hm; simp [nextHead, hm, EventMoveLeft, EventMoveRight]
    · intro hm; simp [nextHead, hm, EventMoveLeft, EventMoveRight, EventMoveUp]
    · intro hm; simp [nextHead, hm, EventMoveLeft, EventMoveRight, EventMoveUp, EventMoveDown]
    · rcases hcase with ⟨hf, f, -, rfl⟩ | ⟨hf, rfl⟩
      · refine ⟨by simp [hf], Head_append _ _ _, rfl, fun hn => absurd hf hn, fun _ => ?_⟩
        simp [Snake.Length]
      · refine ⟨by simp [hf], Head_append _ _ _, rfl, fun _ => ?_, fun hn => absurd hn hf⟩
        simp only [Snake.Length, List.length_append, List.length_tail, List.length_singleton]
        omega
  · intro speed draws
    refine ⟨_, _, _, NewGame_eq (by decide) (by decide) speed, rfl, NewSnake_body,
      eventHandler_up_accept (Or.inl rfl), rfl, by simp,
      moveSnake_plain draws (h := ⟨4, 3⟩) ?_ ?_ ?_ ?_, ?_, ?_⟩
    · simp [Snake.Head, NewSnake_body]
    · simp [nextHead, EventMoveUp, EventMoveRight, EventMoveLeft]
    · simp [nextHead, EventMoveUp, EventMoveRight, EventMoveLeft, NewSnake_body]
    · simp [nextHead, EventMoveUp, EventMoveRight, EventMoveLeft, NewFood]
    · simp [NewSnake_body, nextHead, EventMoveUp, EventMoveRight, EventMoveLeft]
    · simp [Snake.Head, nextHead, EventMoveUp, EventMoveRight, EventMoveLeft]
  · intro speed draws
    refine ⟨_, _, NewGame_eq (by decide) (by decide) speed,
      moveSnake_plain draws (h := ⟨4, 3⟩) NewSnake_Head ?_ ?_ ?_⟩
    · simp [nextHead, NewSnake]
    · simp [nextHead, NewSnake, NewSnake.loop]
    · simp [nextHead, NewSnake, NewFood]

/-- Witness of C1: on a 26x14 board the initial snake with the food one step ahead of its head
feeds; its new head is the candidate `(5,3)` and its length grows from 4 to 5. -/
theorem moveSnake_step_witness :
    moveSnake (gameOf 26 14 EventMoveRight [⟨1, 3⟩, ⟨2, 3⟩, ⟨3, 3⟩, ⟨4, 3⟩] ⟨5, 3⟩) [(7, 8)]
      = .done (none,
          { gameOf 26 14 EventMoveRight [⟨1, 3⟩, ⟨2, 3⟩, ⟨3, 3⟩, ⟨4, 3⟩, ⟨5, 3⟩] ⟨7, 8⟩ with
            board := { boardOf 26 14 with Score := 10 } }) ∧
    Snake.Head { move := EventMoveRight, body := [⟨1, 3⟩, ⟨2, 3⟩, ⟨3, 3⟩, ⟨4, 3⟩, ⟨5, 3⟩] }
      = .done ⟨5, 3⟩ ∧
    Snake.Length { move := EventMoveRight, body := [⟨1, 3⟩, ⟨2, 3⟩, ⟨3, 3⟩, ⟨4, 3⟩, ⟨5, 3⟩] }
      = Snake.Length { move := EventMoveRight, body := [⟨1, 3⟩, ⟨2, 3⟩, ⟨3, 3⟩, ⟨4, 3⟩] } + 1 := by
  have hok : moveSnake (gameOf 26 14 EventMoveRight [⟨1, 3⟩, ⟨2, 3⟩, ⟨3, 3⟩, ⟨4, 3⟩] ⟨5, 3⟩)
      [(7, 8)] = .done (none,
          { gameOf 26 14 EventMoveRight [⟨1, 3⟩, ⟨2, 3⟩, ⟨3, 3⟩, ⟨4, 3⟩, ⟨5, 3⟩] ⟨7, 8⟩ with
            board := { boardOf 26 14 with Score := 10 } }) := by
    simp [moveSnake, gameOf, boardOf, Snake.Head, nextHead, placeFood, Intn, Snake.IsOnBody]
  obtain ⟨h, cand, hH, hr, -, -, -, -, hhead, -, -, hgrow⟩ :=
    moveSnake_step.1 _ _ _ (Or.inr (Or.inr (Or.inr rfl))) hok
  have hh : h = ⟨4, 3⟩ := by
    simp [gameOf, Snake.Head] at hH
    exact hH.symm
  subst hh
  have hc : cand = ⟨5, 3⟩ := hr rfl
  subst hc
  exact ⟨hok, hhead, hgrow rfl⟩

/-! ## C2: hitting the wall -/

/-- C2. On every game, `moveSnake` returns `ErrSnakeHitWall` exactly when the snake has a head
whose candidate (the head moved by the unit offset of the heading) lies outside
`[0,width) x [0,height)`, and then the game is unchanged: body, heading, food cell and score
included. A 4-cell snake in a corridor one cell wide, heading for the wall one step away, hits
the wall and stays as it was. -/
theorem moveSnake_wall_iff :
    (∀ (g : Game) (draws : List (Nat × Nat)),
      ((∃ g', moveSnake g draws = .done (some .ErrSnakeHitWall, g')) ↔
        ∃ h cand : Cell, g.snake.Head = .done h ∧
          (g.snake.move = EventMoveRight → cand = { i := h.i + 1, j := h.j }) ∧
          (g.snake.move = EventMoveLeft → cand = { i := h.i - 1, j := h.j }) ∧
          (g.snake.move = EventMoveUp → cand = { i := h.i, j := h.j - 1 }) ∧
          (g.snake.move = EventMoveDown → cand = { i := h.i, j := h.j + 1 }) ∧
          ((g.snake.move ≠ EventMoveRight ∧ g.snake.move ≠ EventMoveLeft ∧
            g.snake.move ≠ EventMoveUp ∧ g.snake.move ≠ EventMoveDown) → cand = h) ∧
          ¬ (0 ≤ cand.i ∧ cand.i < g.board.X ∧ 0 ≤ cand.j ∧ cand.j < g.board.Y)) ∧
      (∀ g', moveSnake g draws = .done (some .ErrSnakeHitWall, g') →
        g' = g ∧ g'.snake.body = g.snake.body ∧ g'.snake.move = g.snake.move ∧
          g'.food.cell = g.food.cell ∧ g'.board.Score = g.board.Score)) ∧
    (∀ draws : List (Nat × Nat),
      moveSnake (gameOf 5 1 EventMoveRight [⟨1, 0⟩, ⟨2, 0⟩, ⟨3, 0⟩, ⟨4, 0⟩] ⟨0, 0⟩) draws
        = .done (some .ErrSnakeHitWall,
            gameOf 5 1 EventMoveRight [⟨1, 0⟩, ⟨2, 0⟩, ⟨3, 0⟩, ⟨4, 0⟩] ⟨0, 0⟩)) := by
  refine ⟨fun g draws => ⟨⟨?_, ?_⟩, ?_⟩, ?_⟩
  · rintro ⟨g', hg'⟩
    obtain ⟨-, h, hH, ⟨-, hw⟩ | ⟨he, -⟩⟩ := moveSnake_err_inv hg'
    · obtain ⟨r, l, u, d, n⟩ := nextHead_offsets g.snake.move h
      refine ⟨h, nextHead g.snake.move h, hH, r, l, u, d, n, ?_⟩
      omega
    · cases he
  · rintro ⟨h, cand, hH, hr, hl, hu, hd, hn, hout⟩
    have hc := eq_nextHead_of_offsets hr hl hu hd hn
    subst hc
    exact ⟨g, moveSnake_wall draws hH (by omega)⟩
  · intro g' hg'
    obtain ⟨rfl, -⟩ := moveSnake_err_inv hg'
    exact ⟨rfl, rfl, rfl, rfl, rfl⟩
  · intro draws
    refine moveSnake_wall draws (h := ⟨4, 0⟩) ?_ ?_
    · simp [gameOf, Snake.Head]
    · simp [gameOf, boardOf, nextHead]

/-! ## C3: biting itself -/

/-- C3. On every game whose candidate head lies inside the board and equals a body cell at an
index below the head's, index 0 included, `moveSnake` returns `ErrSnakeBite` and the game is
unchanged: body, heading, food cell and score included. -/
theorem moveSnake_bite_body_cell (g : Game) (draws : List (Nat × Nat)) (h : Cell) (k : Nat)
    (hH : g.snake.Head = .done h)
    (hin : 0 ≤ (nextHead g.snake.move h).i ∧ (nextHead g.snake.move h).i < g.board.X ∧
      0 ≤ (nextHead g.snake.move h).j ∧ (nextHead g.snake.move h).j < g.board.Y)
    (hk : k + 1 < g.snake.body.length)
    (hc : g.snake.body[k]? = some (nextHead g.snake.move h)) :
    ∃ g', moveSnake g draws = .done (some .ErrSnakeBite, g') ∧
      g' = g ∧ g'.snake.body = g.snake.body ∧ g'.snake.move = g.snake.move ∧
      g'.food.cell = g.food.cell ∧ g'.board.Score = g.board.Score := by
  refine ⟨g, moveSnake_bite draws hH (by omega) ?_, rfl, rfl, rfl, rfl, rfl⟩
  apply List.getElem?_mem (n := k)
  rw [List.getElem?_dropLast, if_pos (by omega), hc]

/-- Witness of C3: a snake curled on itself, heading Up, whose candidate head `(1,1)` is its
oldest cell. -/
theorem moveSnake_bite_body_cell_witness :
    ∃ g', moveSnake (gameOf 26 14 EventMoveUp [⟨1, 1⟩, ⟨2, 1⟩, ⟨2, 2⟩, ⟨1, 2⟩] ⟨5, 4⟩) []
        = .done (some .ErrSnakeBite, g') ∧
      g' = gameOf 26 14 EventMoveUp [⟨1, 1⟩, ⟨2, 1⟩, ⟨2, 2⟩, ⟨1, 2⟩] ⟨5, 4⟩ ∧
      g'.snake.body = [⟨1, 1⟩, ⟨2, 1⟩, ⟨2, 2⟩, ⟨1, 2⟩] ∧ g'.snake.move = EventMoveUp ∧
      g'.food.cell = ⟨5, 4⟩ ∧ g'.board.Score = 0 :=
  moveSnake_bite_body_cell (gameOf 26 14 EventMoveUp [⟨1, 1⟩, ⟨2, 1⟩, ⟨2, 2⟩, ⟨1, 2⟩] ⟨5, 4⟩)
    [] ⟨1, 2⟩ 0 (by simp [gameOf, Snake.Head])
    (by simp [gameOf, boardOf, nextHead, EventMoveUp, EventMoveRight, EventMoveLeft])
    (by simp [gameOf])
    (by simp [gameOf, nextHead, EventMoveUp, EventMoveRight, EventMoveLeft])

/-! ## C4: where the new food goes -/

/-- A food cell the placement loop returns is on the board, is not the old food cell and is on
no body cell. -/
theorem placeFood_done {X Y : Int} {food : Food} {snake : Snake} {f : Cell} :
    ∀ {draws : List (Nat × Nat)}, placeFood X Y food snake draws = .done f →
      (0 ≤ f.i ∧ f.i < X ∧ 0 ≤ f.j ∧ f.j < Y) ∧ f ≠ food.cell ∧ f ∉ snake.body := by
  intro draws
  induction draws with
  | nil => intro h; simp [placeFood] at h
  | cons d rest ih =>
    obtain ⟨r1, r2⟩ := d
    intro h
    unfold placeFood at h
    by_cases hX : X ≤ 0
    · simp [Intn, hX] at h
    by_cases hY : Y ≤ 0
    · simp [Intn, hX, hY] at h
    simp only [Intn, if_neg hX, if_neg hY] at h
    split_ifs at h with hc
    · simp only [Run.done.injEq] at h
      subst h
      refine ⟨⟨Int.emod_nonneg _ (by omega), Int.emod_lt_of_pos _ (by omega),
        Int.emod_nonneg _ (by omega), Int.emod_lt_of_pos _ (by omega)⟩, hc.1, ?_⟩
      intro hmem
      apply hc.2
      simp only [Snake.IsOnBody, List.any_eq_true, beq_iff_eq]
      exact ⟨_, hmem, rfl⟩
    · exact ih h

/-- C4. When `moveSnake` succeeds with the candidate head on the food cell, the new food cell
lies inside `[0,width) x [0,height)`, differs from the food cell just eaten, and is on no cell
of the snake, neither of the body before the move nor of the body after it. -/
theorem moveSnake_new_food (g g' : Game) (draws : List (Nat × Nat)) (h : Cell)
    (hH : g.snake.Head = .done h)
    (hfeed : nextHead g.snake.move h = g.food.cell)
    (hok : moveSnake g draws = .done (none, g')) :
    (0 ≤ g'.food.cell.i ∧ g'.food.cell.i < g.board.X ∧
      0 ≤ g'.food.cell.j ∧ g'.food.cell.j < g.board.Y) ∧
    g'.food.cell ≠ g.food.cell ∧
    (∀ c ∈ g.snake.body, g'.food.cell ≠ c) ∧
    (∀ c ∈ g'.snake.body, g'.food.cell ≠ c) ∧
    g'.board.X = g.board.X ∧ g'.board.Y = g.board.Y := by
  obtain ⟨h', hH', -, -, -, hcase⟩ := moveSnake_ok_inv hok
  have hh : h' = h := by
    rw [hH] at hH'
    simp only [Run.done.injEq] at hH'
    exact hH'.symm
  subst hh
  rcases hcase with ⟨-, f, hp, rfl⟩ | ⟨hne, -⟩
  · obtain ⟨hin, hne, hbody⟩ := placeFood_done hp
    have hfc : ∀ c : Cell, f = c → c ∈ g.snake.body → False := fun c heq hc => hbody (heq ▸ hc)
    refine ⟨hin, hne, fun c hc heq => hfc c heq hc, ?_, rfl, rfl⟩
    intro c hc heq
    simp only [List.mem_append, List.mem_singleton] at hc
    rcases hc with hc | hc
    · exact hfc c heq hc
    · apply hne
      rw [← hfeed, ← hc]
      exact heq
  · exact absurd hfeed hne

/-- Witness of C4: the initial snake eats the food at `(5,3)`; the draws `(4,3)` (on the body)
and `(5,3)` (the food just eaten) are rejected and `(7,8)` is taken. -/
theorem moveSnake_new_food_witness :
    moveSnake (gameOf 26 14 EventMoveRight [⟨1, 3⟩, ⟨2, 3⟩, ⟨3, 3⟩, ⟨4, 3⟩] ⟨5, 3⟩)
        [(4, 3), (5, 3), (7, 8)]
      = .done (none,
          { gameOf 26 14 EventMoveRight [⟨1, 3⟩, ⟨2, 3⟩, ⟨3, 3⟩, ⟨4, 3⟩, ⟨5, 3⟩] ⟨7, 8⟩ with
            board := { boardOf 26 14 with Score := 10 } }) ∧
    ((0 : Int) ≤ 7 ∧ (7 : Int) < (26 : Nat) ∧ (0 : Int) ≤ 8 ∧ (8 : Int) < (14 : Nat)) ∧
    (⟨7, 8⟩ : Cell) ≠ ⟨5, 3⟩ ∧
    (∀ c ∈ [(⟨1, 3⟩ : Cell), ⟨2, 3⟩, ⟨3, 3⟩, ⟨4, 3⟩], (⟨7, 8⟩ : Cell) ≠ c) ∧
    (∀ c ∈ [(⟨1, 3⟩ : Cell), ⟨2, 3⟩, ⟨3, 3⟩, ⟨4, 3⟩, ⟨5, 3⟩], (⟨7, 8⟩ : Cell) ≠ c) := by
  have hok : moveSnake (gameOf 26 14 EventMoveRight [⟨1, 3⟩, ⟨2, 3⟩, ⟨3, 3⟩, ⟨4, 3⟩] ⟨5, 3⟩)
      [(4, 3), (5, 3), (7, 8)] = .done (none,
          { gameOf 26 14 EventMoveRight [⟨1, 3⟩, ⟨2, 3⟩, ⟨3, 3⟩, ⟨4, 3⟩, ⟨5, 3⟩] ⟨7, 8⟩ with
            board := { boardOf 26 14 with Score := 10 } }) := by
    simp [moveSnake, gameOf, boardOf, Snake.Head, nextHead, placeFood, Intn, Snake.IsOnBody]
  have key := moveSnake_new_food _ _ _ ⟨4, 3⟩ (by simp [gameOf, Snake.Head])
    (by simp [gameOf, nextHead]) hok
  exact ⟨hok, key.1, key.2.1, key.2.2.1, key.2.2.2.1⟩

/-! ## C5: direction events -/

theorem eventHandler_right (g : Game) :
    eventHandler g EventMoveRight =
      if g.snake.move = EventMoveUp ∨ g.snake.move = EventMoveDown then
        .done { g with
          snake := { g.snake with move := EventMoveRight }
          board := { g.board with Round := g.board.Round + 1 } }
      else .done g := by
  unfold eventHandler
  rw [if_neg (by decide), if_neg (by decide), if_neg (by decide), if_neg (by decide), if_pos rfl]

theorem eventHandler_left (g : Game) :
    eventHandler g EventMoveLeft =
      if g.snake.move = EventMoveUp ∨ g.snake.move = EventMoveDown then
        .done { g with
          snake := { g.snake with move := EventMoveLeft }
          board := { g.board with Round := g.board.Round + 1 } }
      else .done g := by
  unfold eventHandler
  rw [if_neg (by decide), if_neg (by decide), if_neg (by decide), if_neg (by decide),
    if_neg (by decide), if_pos rfl]

theorem eventHandler_up (g : Game) :
    eventHandler g EventMoveUp =
      if g.snake.move = EventMoveRight ∨ g.snake.move = EventMoveLeft then
        .done { g with
          snake := { g.snake with move := EventMoveUp }
          board := { g.board with Round := g.board.Round + 1 } }
      else .done g := by
  unfold eventHandler
  rw [if_neg (by decide), if_neg (by decide), if_neg (by decide), if_neg (by decide),
    if_neg (by decide), if_neg (by decide), if_pos rfl]

theorem eventHandler_down (g : Game) :
    eventHandler g EventMoveDown =
      if g.snake.move = EventMoveRight ∨ g.snake.move = EventMoveLeft then
        .done { g with
          snake := { g.snake with move := EventMoveDown }
          board := { g.board with Round := g.board.Round + 1 } }
      else .done g := by
  unfold eventHandler
  rw [if_neg (by decide), if_neg (by decide), if_neg (by decide), if_neg (by decide),
    if_neg (by decide), if_neg (by decide), if_neg (by decide), if_pos rfl]

/-- C5. A direction event is accepted exactly when it is orthogonal to the heading: `MoveLeft`
and `MoveRight` when the heading is Up or Down, `MoveUp` and `MoveDown` when it is Left or
Right. An accepted event sets the heading to its direction and adds 1 to `Board.Round`,
changing nothing else; a rejected event changes nothing at all. In both cases body, food cell
and score are kept. With heading Right, `MoveUp` and `MoveDown` are accepted, `MoveRight` and
`MoveLeft` are ignored. -/
theorem eventHandler_direction :
    (∀ (g : Game) (ev : Event),
      (ev = EventMoveLeft ∨ ev = EventMoveRight ∨ ev = EventMoveUp ∨ ev = EventMoveDown) →
      ∃ g', eventHandler g ev = .done g' ∧
        g'.snake.body = g.snake.body ∧ g'.food.cell = g.food.cell ∧
        g'.board.Score = g.board.Score ∧
        ((((ev = EventMoveLeft ∨ ev = EventMoveRight) ∧
              (g.snake.move = EventMoveUp ∨ g.snake.move = EventMoveDown)) ∨
            ((ev = EventMoveUp ∨ ev = EventMoveDown) ∧
              (g.snake.move = EventMoveLeft ∨ g.snake.move = EventMoveRight))) →
          g'.snake.move = ev ∧ g'.board.Round = g.board.Round + 1 ∧
          g' = { g with
            snake := { g.snake with move := ev }
            board := { g.board with Round := g.board.Round + 1 } }) ∧
        (¬ (((ev = EventMoveLeft ∨ ev = EventMoveRight) ∧
              (g.snake.move = EventMoveUp ∨ g.snake.move = EventMoveDown)) ∨
            ((ev = EventMoveUp ∨ ev = EventMoveDown) ∧
              (g.snake.move = EventMoveLeft ∨ g.snake.move = EventMoveRight))) →
          g'.snake.move = g.snake.move ∧ g'.board.Round = g.board.Round ∧ g' = g)) ∧
    (∀ g : Game, g.snake.move = EventMoveRight →
      eventHandler g EventMoveUp = .done
        { g with
          snake := { g.snake with move := EventMoveUp }
          board := { g.board with Round := g.board.Round + 1 } } ∧
      eventHandler g EventMoveDown = .done
        { g with
          snake := { g.snake with move := EventMoveDown }
          board := { g.board with Round := g.board.Round + 1 } } ∧
      eventHandler g EventMoveRight = .done g ∧
      eventHandler g EventMoveLeft = .done g) := by
  have hLU : EventMoveLeft ≠ EventMoveUp := by decide
  have hLD : EventMoveLeft ≠ EventMoveDown := by decide
  have hRU : EventMoveRight ≠ EventMoveUp := by decide
  have hRD : EventMoveRight ≠ EventMoveDown := by decide
  refine ⟨?_, ?_⟩
  · intro g ev hev
    rcases hev with rfl | rfl | rfl | rfl
    · rw [eventHandler_left]
      by_cases hc : g.snake.move = EventMoveUp ∨ g.snake.move = EventMoveDown
      · rw [if_pos hc]
        refine ⟨_, rfl, rfl, rfl, rfl, fun _ => ⟨rfl, rfl, rfl⟩, fun hn => ?_⟩
        exact absurd (Or.inl ⟨Or.inl rfl, hc⟩) hn
      · rw [if_neg hc]
        refine ⟨_, rfl, rfl, rfl, rfl, fun ha => ?_, fun _ => ⟨rfl, rfl, rfl⟩⟩
        rcases ha with ⟨-, ha⟩ | ⟨ha, -⟩
        · exact absurd ha hc
        · rcases ha with ha | ha
          · exact absurd ha hLU
          · exact absurd ha hLD
    · rw [eventHandler_right]
      by_cases hc : g.snake.move = EventMoveUp ∨ g.snake.move = EventMoveDown
      · rw [if_pos hc]
        refine ⟨_, rfl, rfl, rfl, rfl, fun _ => ⟨rfl, rfl, rfl⟩, fun hn => ?_⟩
        exact absurd (Or.inl ⟨Or.inr rfl, hc⟩) hn
      · rw [if_neg hc]
        refine ⟨_, rfl, rfl, rfl, rfl, fun ha => ?_, fun _ => ⟨rfl, rfl, rfl⟩⟩
        rcases ha with ⟨-, ha⟩ | ⟨ha, -⟩
        · exact absurd ha hc
        · rcases ha with ha | ha
          · exact absurd ha hRU
          · exact absurd ha hRD
    · rw [eventHandler_up]
      by_cases hc : g.snake.move = EventMoveRight ∨ g.snake.move = EventMoveLeft
      · rw [if_pos hc]
        refine ⟨_, rfl, rfl, rfl, rfl, fun _ => ⟨rfl, rfl, rfl⟩, fun hn => ?_⟩
        exact absurd (Or.inr ⟨Or.inl rfl, hc.symm⟩) hn
      · rw [if_neg hc]
        refine ⟨_, rfl, rfl, rfl, rfl, fun ha => ?_, fun _ => ⟨rfl, rfl, rfl⟩⟩
        rcases ha with ⟨ha, -⟩ | ⟨-, ha⟩
        · rcases ha with ha | ha
          · exact absurd ha.symm hLU
          · exact absurd ha.symm hRU
        · exact absurd ha.symm hc
    · rw [eventHandler_down]
      by_cases hc : g.snake.move = EventMoveRight ∨ g.snake.move = EventMoveLeft
      · rw [if_pos hc]
        refine ⟨_, rfl, rfl, rfl, rfl, fun _ => ⟨rfl, rfl, rfl⟩, fun hn => ?_⟩
        exact absurd (Or.inr ⟨Or.inr rfl, hc.symm⟩) hn
      · rw [if_neg hc]
        refine ⟨_, rfl, rfl, rfl, rfl, fun ha => ?_, fun _ => ⟨rfl, rfl, rfl⟩⟩
        rcases ha with ⟨ha, -⟩ | ⟨-, ha⟩
        · rcases ha with ha | ha
          · exact absurd ha.symm hLD
          · exact absurd ha.symm hRD
        · exact absurd ha.symm hc
  · intro g hg
    refine ⟨eventHandler_up_accept (Or.inl hg), eventHandler_down_accept (Or.inl hg), ?_, ?_⟩
    · rw [eventHandler_right, if_neg]
      rw [hg]
      exact fun hc => hc.elim hRU hRD
    · rw [eventHandler_left, if_neg]
      rw [hg]
      exact fun hc => hc.elim hRU hRD

/-! ## The grid after marking -/

theorem sum_set_nat (l : List Nat) (i : Nat) (a : Nat) (h : i < l.length) :
    (l.set i a).sum + l[i] = l.sum + a := by
  induction l generalizing i with
  | nil => simp at h
  | cons x xs ih =>
    cases i with
    | zero => simp; omega
    | succ k =>
      simp only [List.length_cons, Nat.add_lt_add_iff_right] at h
      simp only [List.set_cons_succ, List.sum_cons, List.getElem_cons_succ]
      have := ih k h
      omega

theorem gridAt_set {grid : List (List Icon)} {i j : Nat} {col : List Icon} (v : Icon)
    (hcol : grid[i]? = some col) (hj : j < col.length) (a b : Nat) :
    gridAt (grid.set i (col.set j v)) a b
      = if a = i ∧ b = j then some v else gridAt grid a b := by
  have hi : i < grid.length := by
    rcases Nat.lt_or_ge i grid.length with h | h
    · exact h
    · rw [List.getElem?_eq_none h] at hcol
      cases hcol
  unfold gridAt
  by_cases hai : a = i
  · subst hai
    rw [List.getElem?_set_self hi]
    simp only [hcol, true_and]
    rw [List.getElem?_set]
    by_cases hbj : b = j
    · subst hbj
      simp [hj]
    · rw [if_neg (Ne.symm hbj), if_neg hbj]
  · rw [List.getElem?_set_ne (Ne.symm hai)]
    simp [hai]

theorem gridCount_set {grid : List (List Icon)} {i j : Nat} {col : List Icon} (v x : Icon)
    (hcol : grid[i]? = some col) (hj : j < col.length) (hold : col[j]? = some 0)
    (hx : x ≠ 0) :
    gridCount (grid.set i (col.set j v)) x = gridCount grid x + if v = x then 1 else 0 := by
  have hi : i < grid.length := by
    rcases Nat.lt_or_ge i grid.length with h | h
    · exact h
    · rw [List.getElem?_eq_none h] at hcol
      cases hcol
  have hgi : grid[i] = col := by
    rw [List.getElem?_eq_getElem hi] at hcol
    exact Option.some.inj hcol
  have hcj : col[j] = 0 := by
    rw [List.getElem?_eq_getElem hj] at hold
    exact Option.some.inj hold
  unfold gridCount
  rw [List.map_set]
  have hlen : i < (grid.map (fun col => col.count x)).length := by simpa using hi
  have key := sum_set_nat (grid.map (fun col => col.count x)) i ((col.set j v).count x) hlen
  rw [List.getElem_map, hgi] at key
  rw [List.count_set _ _ _ _ hj, hcj] at key
  simp only [beq_iff_eq] at key
  rw [if_neg (fun h => hx h.symm)] at key
  rw [List.count_set _ _ _ _ hj, hcj]
  simp only [beq_iff_eq]
  rw [if_neg (fun h => hx h.symm)]
  omega

/-- What a call of `mark` that returned has done. -/
theorem mark_inv {b b' : Board} {c : Cell} {v : Icon} {r : Option Err}
    (h : b.mark c v = .done (r, b')) :
    (r = some .ErrCellOutOfRange ∧ b' = b ∧ (c.j > b.X ∨ c.j > b.Y)) ∨
    (r = none ∧ ¬ (c.j > b.X ∨ c.j > b.Y) ∧ 0 ≤ c.i ∧ 0 ≤ c.j ∧
      ∃ col, b.Grid[c.i.toNat]? = some col ∧ c.j.toNat < col.length ∧
        b' = { b with Grid := b.Grid.set c.i.toNat (col.set c.j.toNat v) }) := by
  unfold Board.mark at h
  split_ifs at h with h1 h2
  · simp only [Run.done.injEq, Prod.mk.injEq] at h
    exact Or.inl ⟨h.1.symm, h.2.symm, h1⟩
  · cases hcol : b.Grid[c.i.toNat]? with
    | none => simp [hcol] at h
    | some col =>
      simp only [hcol] at h
      split_ifs at h with h3
      simp only [Run.done.injEq, Prod.mk.injEq] at h
      exact Or.inr ⟨h.1.symm, h1, h2.1, h2.2, col, rfl, h3, h.2.symm⟩

theorem toNat_pair_ne {c c' : Cell} (hc : 0 ≤ c.i ∧ 0 ≤ c.j) (hc' : 0 ≤ c'.i ∧ 0 ≤ c'.j)
    (hne : c' ≠ c) : ¬ (c'.i.toNat = c.i.toNat ∧ c'.j.toNat = c.j.toNat) := by
  rintro ⟨h1, h2⟩
  apply hne
  cases c
  cases c'
  simp only [Cell.mk.injEq]
  simp only at hc hc' h1 h2
  omega

/-- A call of `mark` that returned changed no field but the grid, and no grid cell but `c`. -/
theorem mark_frame {b b' : Board} {c : Cell} {v : Icon} {r : Option Err}
    (h : b.mark c v = .done (r, b')) :
    b' = { b with Grid := b'.Grid } ∧ ∀ c', c' ≠ c → b'.iconAt c' = b.iconAt c' := by
  rcases mark_inv h with ⟨-, rfl, -⟩ | ⟨-, -, hi, hj, col, hcol, hlt, rfl⟩
  · exact ⟨rfl, fun _ _ => rfl⟩
  · refine ⟨rfl, fun c' hne => ?_⟩
    unfold Board.iconAt
    by_cases hc' : 0 ≤ c'.i ∧ 0 ≤ c'.j
    · rw [if_pos hc', if_pos hc']
      simp only
      rw [gridAt_set v hcol hlt, if_neg (toNat_pair_ne ⟨hi, hj⟩ hc' hne)]
    · rw [if_neg hc', if_neg hc']

/-- A call of `mark` that returned no error wrote the icon at `c`. -/
theorem mark_at {b b' : Board} {c : Cell} {v : Icon}
    (h : b.mark c v = .done (none, b')) : b'.iconAt c = some v := by
  rcases mark_inv h with ⟨hr, -, -⟩ | ⟨-, -, hi, hj, col, hcol, hlt, rfl⟩
  · cases hr
  · unfold Board.iconAt
    rw [if_pos ⟨hi, hj⟩]
    simp only
    rw [gridAt_set v hcol hlt, if_pos ⟨rfl, rfl⟩]

/-- A call of `mark` that returned no error on an empty cell adds one to the count of its icon
and keeps the count of every other icon. -/
theorem mark_count {b b' : Board} {c : Cell} {v : Icon}
    (h : b.mark c v = .done (none, b')) (hold : b.iconAt c = some 0) (x : Icon) (hx : x ≠ 0) :
    b'.countIcon x = b.countIcon x + if v = x then 1 else 0 := by
  rcases mark_inv h with ⟨hr, -, -⟩ | ⟨-, -, hi, hj, col, hcol, hlt, rfl⟩
  · cases hr
  · unfold Board.iconAt at hold
    rw [if_pos ⟨hi, hj⟩] at hold
    unfold gridAt at hold
    simp only [hcol] at hold
    exact gridCount_set v x hcol hlt hold hx

/-- On a well-shaped grid, `mark` of a cell inside the board returns: with `ErrCellOutOfRange`
and the board untouched when the row exceeds the width, with no error otherwise. -/
theorem mark_of_inside {b : Board} {c : Cell} (v : Icon) (hr : b.rect) (hin : b.inside c) :
    (c.j > b.X ∧ b.mark c v = .done (some .ErrCellOutOfRange, b)) ∨
    (c.j ≤ b.X ∧ ∃ b', b.mark c v = .done (none, b') ∧ b'.rect) := by
  obtain ⟨hX, hY, hlen, hcols⟩ := hr
  obtain ⟨hi0, hi1, hj0, hj1⟩ := hin
  by_cases hgt : c.j > b.X
  · left
    refine ⟨hgt, ?_⟩
    unfold Board.mark
    rw [if_pos (Or.inl hgt)]
  · right
    refine ⟨by omega, ?_⟩
    have hilt : c.i.toNat < b.Grid.length := by omega
    have hcol : b.Grid[c.i.toNat]? = some b.Grid[c.i.toNat] := List.getElem?_eq_getElem hilt
    have hcl : (b.Grid[c.i.toNat]).length = b.Y.toNat :=
      hcols _ (List.getElem_mem hilt)
    have hjlt : c.j.toNat < (b.Grid[c.i.toNat]).length := by omega
    refine ⟨{ b with Grid := b.Grid.set c.i.toNat ((b.Grid[c.i.toNat]).set c.j.toNat v) },
      ?_, hX, hY, ?_, ?_⟩
    · unfold Board.mark
      rw [if_neg (by omega), if_pos ⟨hi0, hj0⟩]
      simp only [hcol]
      rw [if_pos hjlt]
    · simpa using hlen
    · intro col hmem
      simp only at hmem
      rcases List.mem_or_eq_of_mem_set hmem with hm | hm
      · exact hcols col hm
      · rw [hm, List.length_set]
        exact hcl

/-! ### Runs of marks -/

theorem markAll_cons_inv {b b' : Board} {c : Cell} {v : Icon} {rest : List (Cell × Icon)}
    {r : Option Err} (h : b.markAll ((c, v) :: rest) = .done (r, b')) :
    (∃ e, b.mark c v = .done (some e, b') ∧ r = some e) ∨
    (∃ b1, b.mark c v = .done (none, b1) ∧ b1.markAll rest = .done (r, b')) := by
  unfold Board.markAll at h
  cases hm : b.mark c v with
  | panics => simp [hm] at h
  | spins => simp [hm] at h
  | done p =>
    obtain ⟨r1, b1⟩ := p
    cases r1 with
    | none =>
      simp only [hm] at h
      exact Or.inr ⟨b1, rfl, h⟩
    | some e =>
      simp only [hm, Run.done.injEq, Prod.mk.injEq] at h
      obtain ⟨h1, h2⟩ := h
      subst h1 h2
      exact Or.inl ⟨e, rfl, rfl⟩

/-- A run of marks that returned changed no field but the grid, and no grid cell outside the
cells it was given. -/
theorem markAll_frame {L : List (Cell × Icon)} :
    ∀ {b b' : Board} {r : Option Err}, b.markAll L = .done (r, b') →
      b' = { b with Grid := b'.Grid } ∧
      ∀ c', c' ∉ L.map Prod.fst → b'.iconAt c' = b.iconAt c' := by
  induction L with
  | nil =>
    intro b b' r h
    simp only [Board.markAll, Run.done.injEq, Prod.mk.injEq] at h
    obtain ⟨-, rfl⟩ := h
    exact ⟨rfl, fun _ _ => rfl⟩
  | cons p rest ih =>
    obtain ⟨c, v⟩ := p
    intro b b' r h
    rcases markAll_cons_inv h with ⟨e, hm, -⟩ | ⟨b1, hm, hrest⟩
    · obtain ⟨h1, h2⟩ := mark_frame hm
      refine ⟨h1, fun c' hc' => h2 c' ?_⟩
      intro heq
      exact hc' (by simp [heq])
    · obtain ⟨h1, h2⟩ := mark_frame hm
      obtain ⟨h3, h4⟩ := ih hrest
      refine ⟨?_, fun c' hc' => ?_⟩
      · rw [h3, h1]
      · simp only [List.map_cons, List.mem_cons, not_or] at hc'
        rw [h4 c' hc'.2, h2 c' hc'.1]

/-- A run of marks over distinct cells that returned no error left each cell with its icon. -/
theorem markAll_ok_at {L : List (Cell × Icon)} :
    ∀ {b b' : Board}, b.markAll L = .done (none, b') → (L.map Prod.fst).Nodup →
      ∀ p ∈ L, b'.iconAt p.1 = some p.2 := by
  induction L with
  | nil => intro b b' _ _ p hp; simp at hp
  | cons q rest ih =>
    obtain ⟨c, v⟩ := q
    intro b b' h hnd p hp
    simp only [List.map_cons, List.nodup_cons] at hnd
    rcases markAll_cons_inv h with ⟨e, -, he⟩ | ⟨b1, hm, hrest⟩
    · cases he
    · rcases List.mem_cons.mp hp with rfl | hp
      · rw [(markAll_frame hrest).2 c hnd.1]
        exact mark_at hm
      · exact ih hrest hnd.2 p hp

/-- A run of marks over distinct empty cells that returned no error added, for each icon, the
number of its occurrences in the run. -/
theorem markAll_ok_count {L : List (Cell × Icon)} (x : Icon) (hx : x ≠ 0) :
    ∀ {b b' : Board}, b.markAll L = .done (none, b') → (L.map Prod.fst).Nodup →
      (∀ p ∈ L, b.iconAt p.1 = some 0) →
      b'.countIcon x = b.countIcon x + (L.map Prod.snd).count x := by
  induction L with
  | nil =>
    intro b b' h _ _
    simp only [Board.markAll, Run.done.injEq, Prod.mk.injEq, true_and] at h
    subst h
    simp
  | cons q rest ih =>
    obtain ⟨c, v⟩ := q
    intro b b' h hnd hempty
    simp only [List.map_cons, List.nodup_cons] at hnd
    rcases markAll_cons_inv h with ⟨e, -, he⟩ | ⟨b1, hm, hrest⟩
    · cases he
    · have h1 := mark_count hm (hempty (c, v) (List.mem_cons_self _ _)) x hx
      have hempty1 : ∀ p ∈ rest, b1.iconAt p.1 = some 0 := by
        intro p hp
        have hne : p.1 ≠ c := by
          intro heq
          exact hnd.1 (heq ▸ List.mem_map_of_mem Prod.fst hp)
        rw [(mark_frame hm).2 p.1 hne]
        exact hempty p (List.mem_cons_of_mem _ hp)
      rw [ih hrest hnd.2 hempty1, h1, List.map_cons, List.count_cons]
      simp only [beq_iff_eq]
      omega

/-- On a well-shaped grid a run of marks over cells inside the board returns; its only error is
`ErrCellOutOfRange`, and it returns none when no row exceeds the width. -/
theorem markAll_of_inside {L : List (Cell × Icon)} :
    ∀ {b : Board}, b.rect → (∀ p ∈ L, b.inside p.1) →
      ∃ r b', b.markAll L = .done (r, b') ∧ b'.rect ∧
        (r = none ∨ r = some .ErrCellOutOfRange) ∧
        ((∀ p ∈ L, p.1.j ≤ b.X) → r = none) := by
  induction L with
  | nil => intro b hr _; exact ⟨none, b, rfl, hr, Or.inl rfl, fun _ => rfl⟩
  | cons q rest ih =>
    obtain ⟨c, v⟩ := q
    intro b hr hin
    rcases mark_of_inside v hr (hin (c, v) (List.mem_cons_self _ _)) with
      ⟨hgt, hm⟩ | ⟨hle, b1, hm, hr1⟩
    · refine ⟨some .ErrCellOutOfRange, b, ?_, hr, Or.inr rfl, fun hall => ?_⟩
      · unfold Board.markAll
        simp only [hm]
      · have hle : c.j ≤ b.X := hall (c, v) (List.mem_cons_self _ _)
        have hgt' : c.j > b.X := hgt
        omega
    · obtain ⟨hsame, -⟩ := mark_frame hm
      have hX : b1.X = b.X := by rw [hsame]
      have hY : b1.Y = b.Y := by rw [hsame]
      have hin1 : ∀ p ∈ rest, b1.inside p.1 := by
        intro p hp
        have := hin p (List.mem_cons_of_mem _ hp)
        unfold Board.inside at this ⊢
        rw [hX, hY]
        exact this
      obtain ⟨r, b', hrest, hr', hcases, hnone⟩ := ih hr1 hin1
      refine ⟨r, b', ?_, hr', hcases, fun hall => hnone fun p hp => ?_⟩
      · unfold Board.markAll
        simp only [hm]
        exact hrest
      · rw [hX]
        exact hall p (List.mem_cons_of_mem _ hp)

/-! ### `update` and `paint` -/

theorem paint_loop_eq_markAll (body : List Cell) :
    ∀ b : Board, Board.paint.loop b body
      = b.markAll (body.map (fun c => (c, IconSnakeBody))) := by
  induction body with
  | nil => intro b; rfl
  | cons c rest ih =>
    intro b
    simp only [Board.paint.loop, List.map_cons, Board.markAll]
    cases hm : b.mark c IconSnakeBody with
    | panics => rfl
    | spins => rfl
    | done p =>
      obtain ⟨r, b1⟩ := p
      cases r with
      | none => exact ih b1
      | some e => rfl

/-- The marks of `paint`, in order: the food, the head, the rest of the body. -/
theorem paint_eq_markAll {b b0 : Board} {s : Snake} {f : Food} {h : Cell}
    (hu : b.update s f = .done b0) (hH : s.Head = .done h) :
    b.paint s f = b0.markAll
      ((f.cell, IconFood) :: (h, IconSnakeHead) ::
        s.body.dropLast.map (fun c => (c, IconSnakeBody))) := by
  unfold Board.paint
  simp only [hu, hH, Board.markAll]
  cases hm : b0.mark f.cell IconFood with
  | panics => rfl
  | spins => rfl
  | done p =>
    obtain ⟨r, b1⟩ := p
    cases r with
    | some e => rfl
    | none =>
      simp only
      cases hm2 : b1.mark h IconSnakeHead with
      | panics => rfl
      | spins => rfl
      | done q =>
        obtain ⟨r2, b2⟩ := q
        cases r2 with
        | some e => rfl
        | none => exact paint_loop_eq_markAll _ b2

/-- What a returning `paint` started from: the board `update` left. -/
theorem paint_inv {b b' : Board} {s : Snake} {f : Food} {r : Option Err}
    (hp : b.paint s f = .done (r, b')) :
    ∃ h b0, s.Head = .done h ∧ b.update s f = .done b0 ∧
      b0 = { b with
        Grid := List.replicate b.X.toNat (List.replicate b.Y.toNat 0)
        Head := h, Length := s.Length, Food := f.cell } := by
  unfold Board.paint at hp
  cases hu : b.update s f with
  | panics => simp [hu] at hp
  | spins => simp [hu] at hp
  | done b0 =>
    cases hH : s.Head with
    | panics => simp [hu, hH] at hp
    | spins => simp [hu, hH] at hp
    | done h =>
      refine ⟨h, b0, rfl, rfl, ?_⟩
      unfold Board.update at hu
      unfold makeGrid at hu
      split_ifs at hu with h1 h2
      simp only [hH, Run.done.injEq] at hu
      exact hu.symm

theorem update_of_nonneg {b : Board} {s : Snake} (f : Food) {h : Cell}
    (hX : 0 ≤ b.X) (hY : 0 ≤ b.Y) (hH : s.Head = .done h) :
    b.update s f = .done { b with
        Grid := List.replicate b.X.toNat (List.replicate b.Y.toNat 0)
        Head := h, Length := s.Length, Food := f.cell } := by
  unfold Board.update
  rw [makeGrid_of_nonneg hX hY]
  simp only [hH]

theorem gridAt_replicate {w h i j : Nat} {v : Icon}
    (hv : gridAt (List.replicate w (List.replicate h 0)) i j = some v) : v = 0 := by
  unfold gridAt at hv
  rw [List.getElem?_replicate] at hv
  split_ifs at hv
  simp only at hv
  rw [List.getElem?_replicate] at hv
  split_ifs at hv
  exact (Option.some.inj hv).symm

theorem gridAt_replicate_of_lt {w h i j : Nat} (hi : i < w) (hj : j < h) :
    gridAt (List.replicate w (List.replicate h 0)) i j = some 0 := by
  unfold gridAt
  rw [List.getElem?_replicate_of_lt hi]
  simp only
  rw [List.getElem?_replicate_of_lt hj]

theorem gridCount_replicate (w h : Nat) (x : Icon) (hx : x ≠ 0) :
    gridCount (List.replicate w (List.replicate h 0)) x = 0 := by
  unfold gridCount
  rw [List.map_replicate, List.count_replicate]
  have : ((0 : Icon) == x) = false := by
    simp only [beq_eq_false_iff_ne, ne_eq]
    exact fun h0 => hx h0.symm
  simp [this]

/-- The icons of the marks of `paint`, in order. -/
theorem paint_marks_icons (fc h : Cell) (rest : List Cell) :
    (((fc, IconFood) :: (h, IconSnakeHead) ::
        rest.map (fun c => (c, IconSnakeBody))).map Prod.snd)
      = IconFood :: IconSnakeHead :: List.replicate rest.length IconSnakeBody := by
  simp only [List.map_cons, List.map_map]
  congr 2
  exact List.map_const' rest IconSnakeBody

/-- The cells of the marks of `paint`, in order. -/
theorem paint_marks_cells (fc h : Cell) (rest : List Cell) :
    (((fc, IconFood) :: (h, IconSnakeHead) ::
        rest.map (fun c => (c, IconSnakeBody))).map Prod.fst)
      = fc :: h :: rest := by
  simp only [List.map_cons, List.map_map]
  congr 2
  exact List.map_id rest

/-- After a `paint` that returned no error on a snake with distinct cells and a food off the
snake, all inside the board, every grid cell holds the icon of what lies on it, and nothing
where nothing lies. -/
theorem paint_ok_cells {b b' : Board} {s : Snake} {f : Food} {h : Cell}
    (hH : s.Head = .done h) (hnd : s.body.Nodup) (hoff : f.cell ∉ s.body)
    (hp : b.paint s f = .done (none, b')) :
    b'.iconAt f.cell = some IconFood ∧ b'.iconAt h = some IconSnakeHead ∧
    (∀ c ∈ s.body.dropLast, b'.iconAt c = some IconSnakeBody) ∧
    (∀ c v, b'.iconAt c = some v → c ≠ f.cell → c ≠ h → c ∉ s.body.dropLast → v = 0) ∧
    f.cell ≠ h ∧ f.cell ∉ s.body.dropLast ∧ h ∉ s.body.dropLast := by
  obtain ⟨h', b0, hH', hu, hb0⟩ := paint_inv hp
  have hh : h' = h := by
    rw [hH] at hH'
    exact (Run.done.inj hH').symm
  subst hh
  have hsplit : s.body.dropLast ++ [h'] = s.body :=
    List.dropLast_append_getLast? h' ((Head_eq_done s h').1 hH)
  have hnd' : (s.body.dropLast ++ [h']).Nodup := by rw [hsplit]; exact hnd
  have hhd : h' ∉ s.body.dropLast := by
    intro hmem
    have := (List.nodup_append.1 hnd').2.2
    exact this hmem (List.mem_singleton_self h')
  have hfh : f.cell ≠ h' := by
    intro heq
    apply hoff
    rw [← hsplit, heq]
    simp
  have hfd : f.cell ∉ s.body.dropLast := by
    intro hmem
    apply hoff
    rw [← hsplit]
    exact List.mem_append_left _ hmem
  rw [paint_eq_markAll hu hH] at hp
  have hndL : (((f.cell, IconFood) :: (h', IconSnakeHead) ::
      s.body.dropLast.map (fun c => (c, IconSnakeBody))).map Prod.fst).Nodup := by
    rw [paint_marks_cells]
    refine List.nodup_cons.2 ⟨?_, List.nodup_cons.2 ⟨hhd, (List.nodup_append.1 hnd').1⟩⟩
    simp only [List.mem_cons, not_or]
    exact ⟨hfh, hfd⟩
  have hat := markAll_ok_at hp hndL
  have hfr := (markAll_frame hp).2
  refine ⟨hat (f.cell, IconFood) (by simp), hat (h', IconSnakeHead) (by simp), ?_, ?_,
    hfh, hfd, hhd⟩
  · intro c hc
    exact hat (c, IconSnakeBody)
      (List.mem_cons_of_mem _ (List.mem_cons_of_mem _
        (List.mem_map_of_mem (fun c => (c, IconSnakeBody)) hc)))
  · intro c v hv h1 h2 h3
    have hnot : c ∉ ((f.cell, IconFood) :: (h', IconSnakeHead) ::
        s.body.dropLast.map (fun c => (c, IconSnakeBody))).map Prod.fst := by
      rw [paint_marks_cells]
      simp only [List.mem_cons, not_or]
      exact ⟨h1, h2, h3⟩
    rw [hfr c hnot, hb0] at hv
    unfold Board.iconAt at hv
    split_ifs at hv
    exact gridAt_replicate hv

/-- After a `paint` that returned no error on a snake with distinct cells and a food off the
snake, all inside the board, the grid counts one food icon, one head icon, one body icon for
each body cell but the head, and no other icon. -/
theorem paint_ok_counts {b b' : Board} {s : Snake} {f : Food} {h : Cell}
    (hH : s.Head = .done h) (hbody : ∀ c ∈ s.body, b.inside c) (hfood : b.inside f.cell)
    (hnd : s.body.Nodup) (hoff : f.cell ∉ s.body)
    (hp : b.paint s f = .done (none, b')) (x : Icon) (hx : x ≠ 0) :
    b'.countIcon x = (IconFood :: IconSnakeHead ::
      List.replicate s.body.dropLast.length IconSnakeBody).count x := by
  obtain ⟨h', b0, hH', hu, hb0⟩ := paint_inv hp
  have hh : h' = h := by
    rw [hH] at hH'
    exact (Run.done.inj hH').symm
  subst hh
  have hsplit : s.body.dropLast ++ [h'] = s.body :=
    List.dropLast_append_getLast? h' ((Head_eq_done s h').1 hH)
  have hnd' : (s.body.dropLast ++ [h']).Nodup := by rw [hsplit]; exact hnd
  obtain ⟨-, -, -, -, hfh, hfd, hhd⟩ := paint_ok_cells hH hnd hoff hp
  rw [paint_eq_markAll hu hH] at hp
  have hndL : (((f.cell, IconFood) :: (h', IconSnakeHead) ::
      s.body.dropLast.map (fun c => (c, IconSnakeBody))).map Prod.fst).Nodup := by
    rw [paint_marks_cells]
    refine List.nodup_cons.2 ⟨?_, List.nodup_cons.2 ⟨hhd, (List.nodup_append.1 hnd').1⟩⟩
    simp only [List.mem_cons, not_or]
    exact ⟨hfh, hfd⟩
  have hempty0 : ∀ c, b.inside c → b0.iconAt c = some 0 := by
    rintro c ⟨h1, h2, h3, h4⟩
    rw [hb0]
    unfold Board.iconAt
    rw [if_pos ⟨h1, h3⟩]
    exact gridAt_replicate_of_lt (by omega) (by omega)
  have hempty : ∀ p ∈ ((f.cell, IconFood) :: (h', IconSnakeHead) ::
      s.body.dropLast.map (fun c => (c, IconSnakeBody))), b0.iconAt p.1 = some 0 := by
    intro p hp'
    apply hempty0
    have hmem : p.1 ∈ f.cell :: h' :: s.body.dropLast := by
      rw [← paint_marks_cells]
      exact List.mem_map_of_mem Prod.fst hp'
    rcases List.mem_cons.1 hmem with h1 | h1
    · rw [h1]; exact hfood
    · apply hbody
      rw [← hsplit]
      rcases List.mem_cons.1 h1 with h2 | h2
      · rw [h2]; simp
      · exact List.mem_append_left _ h2
  rw [markAll_ok_count x hx hp hndL hempty, paint_marks_icons]
  have h0 : b0.countIcon x = 0 := by
    rw [hb0]
    exact gridCount_replicate _ _ x hx
  rw [h0, Nat.zero_add]

/-! ## C6: the grid after a successful paint -/

/-- C6. For a snake with a head and pairwise distinct cells and a food cell off the snake, all
inside the board, `paint` returns; and when it returns no error the grid holds `IconSnakeHead`
exactly at the head cell (one cell), `IconFood` exactly at the food cell (one cell),
`IconSnakeBody` exactly at the body cells other than the head (`Length - 1` cells), no icon on
any other cell, and `Board.Head`, `Board.Length` and `Board.Food` are the snake's head, the
snake's length and the food cell. -/
theorem paint_grid (b : Board) (s : Snake) (f : Food) (h : Cell)
    (hH : s.Head = .done h)
    (hbody : ∀ c ∈ s.body, b.inside c) (hfood : b.inside f.cell)
    (hnd : s.body.Nodup) (hoff : f.cell ∉ s.body) :
    ∃ r b', b.paint s f = .done (r, b') ∧
      ((∀ c ∈ f.cell :: s.body, c.j ≤ b.X) → r = none) ∧
      (r = none →
        (∀ c, b'.iconAt c = some IconSnakeHead ↔ c = h) ∧
        b'.countIcon IconSnakeHead = 1 ∧
        (∀ c, b'.iconAt c = some IconFood ↔ c = f.cell) ∧
        b'.countIcon IconFood = 1 ∧
        (∀ c, b'.iconAt c = some IconSnakeBody ↔ c ∈ s.body.dropLast) ∧
        (b'.countIcon IconSnakeBody : Int) = b'.Length - 1 ∧
        (∀ c v, b'.iconAt c = some v → c ≠ h → c ≠ f.cell → c ∉ s.body.dropLast → v = 0) ∧
        (∀ x : Icon, x ≠ 0 → x ≠ IconSnakeHead → x ≠ IconFood → x ≠ IconSnakeBody →
          b'.countIcon x = 0) ∧
        b'.Head = h ∧ b'.Length = s.Length ∧ b'.Food = f.cell ∧
        b'.X = b.X ∧ b'.Y = b.Y ∧ b'.rect ∧ b'.inside h ∧ b'.inside f.cell ∧
        (∀ c ∈ s.body, b'.inside c)) := by
  have hX : 0 ≤ b.X := by have := hfood.1; have := hfood.2.1; omega
  have hY : 0 ≤ b.Y := by have := hfood.2.2.1; have := hfood.2.2.2; omega
  have hu := update_of_nonneg f hX hY hH
  have hsplit : s.body.dropLast ++ [h] = s.body :=
    List.dropLast_append_getLast? h ((Head_eq_done s h).1 hH)
  have hcells : ∀ c ∈ f.cell :: h :: s.body.dropLast, c ∈ f.cell :: s.body := by
    intro c hc
    rcases List.mem_cons.1 hc with h1 | h1
    · rw [h1]; exact List.mem_cons_self _ _
    · apply List.mem_cons_of_mem
      rw [← hsplit]
      rcases List.mem_cons.1 h1 with h2 | h2
      · rw [h2]; simp
      · exact List.mem_append_left _ h2
  have hinside : ∀ c ∈ f.cell :: s.body, b.inside c := by
    intro c hc
    rcases List.mem_cons.1 hc with h1 | h1
    · rw [h1]; exact hfood
    · exact hbody c h1
  have hrect0 : Board.rect { b with
      Grid := List.replicate b.X.toNat (List.replicate b.Y.toNat 0)
      Head := h, Length := s.Length, Food := f.cell } := by
    refine ⟨hX, hY, by simp, ?_⟩
    intro col hmem
    rw [(List.mem_replicate.1 hmem).2]
    simp
  obtain ⟨r, b', hm, hrect', -, hnone⟩ := markAll_of_inside
    (L := (f.cell, IconFood) :: (h, IconSnakeHead) ::
      s.body.dropLast.map (fun c => (c, IconSnakeBody))) hrect0
    (by
      intro p hp
      have hmem : p.1 ∈ f.cell :: h :: s.body.dropLast := by
        rw [← paint_marks_cells]
        exact List.mem_map_of_mem Prod.fst hp
      exact hinside _ (hcells _ hmem))
  have hp : b.paint s f = .done (r, b') := by rw [paint_eq_markAll hu hH]; exact hm
  refine ⟨r, b', hp, ?_, ?_⟩
  · intro hall
    apply hnone
    intro p hp'
    have hmem : p.1 ∈ f.cell :: h :: s.body.dropLast := by
      rw [← paint_marks_cells]
      exact List.mem_map_of_mem Prod.fst hp'
    exact hall _ (hcells _ hmem)
  · intro hr
    subst hr
    obtain ⟨hcf, hch, hcb, hcz, hfh, hfd, hhd⟩ := paint_ok_cells hH hnd hoff hp
    have hcount := paint_ok_counts hH hbody hfood hnd hoff hp
    have hsame := (markAll_frame hm).1
    have hHd : b'.Head = h := by rw [hsame]
    have hLen : b'.Length = s.Length := by rw [hsame]
    have hFd : b'.Food = f.cell := by rw [hsame]
    have hX' : b'.X = b.X := by rw [hsame]
    have hY' : b'.Y = b.Y := by rw [hsame]
    have hin' : ∀ c, b.inside c → b'.inside c := by
      intro c hc
      unfold Board.inside at hc ⊢
      rw [hX', hY']
      exact hc
    have hchar : ∀ c v, b'.iconAt c = some v →
        (c = f.cell ∧ v = IconFood) ∨ (c = h ∧ v = IconSnakeHead) ∨
        (c ∈ s.body.dropLast ∧ v = IconSnakeBody) ∨
        (c ≠ f.cell ∧ c ≠ h ∧ c ∉ s.body.dropLast ∧ v = 0) := by
      intro c v hv
      by_cases h1 : c = f.cell
      · left
        subst h1
        rw [hcf] at hv
        exact ⟨rfl, (Option.some.inj hv).symm⟩
      by_cases h2 : c = h
      · right; left
        subst h2
        rw [hch] at hv
        exact ⟨rfl, (Option.some.inj hv).symm⟩
      by_cases h3 : c ∈ s.body.dropLast
      · right; right; left
        rw [hcb c h3] at hv
        exact ⟨h3, (Option.some.inj hv).symm⟩
      · exact Or.inr (Or.inr (Or.inr ⟨h1, h2, h3, hcz c v hv h1 h2 h3⟩))
    have hlenD : (s.body.dropLast.length : Int) = s.Length - 1 := by
      have : s.body.length = s.body.dropLast.length + 1 := by
        conv_lhs => rw [← hsplit]
        simp
      unfold Snake.Length
      omega
    refine ⟨?_, ?_, ?_, ?_, ?_, ?_, ?_, ?_, hHd, hLen, hFd, hX', hY', hrect', ?_, hin' _ hfood,
      fun c hc => hin' _ (hbody c hc)⟩
    · intro c
      refine ⟨fun hv => ?_, fun hc => hc ▸ hch⟩
      rcases hchar c _ hv with ⟨-, hv⟩ | ⟨hc, -⟩ | ⟨-, hv⟩ | ⟨-, -, -, hv⟩
      · exact absurd hv (by decide)
      · exact hc
      · exact absurd hv (by decide)
      · exact absurd hv (by decide)
    · rw [hcount IconSnakeHead (by decide)]
      simp [List.count_cons, List.count_replicate, IconFood, IconSnakeHead, IconSnakeBody]
    · intro c
      refine ⟨fun hv => ?_, fun hc => hc ▸ hcf⟩
      rcases hchar c _ hv with ⟨hc, -⟩ | ⟨-, hv⟩ | ⟨-, hv⟩ | ⟨-, -, -, hv⟩
      · exact hc
      · exact absurd hv (by decide)
      · exact absurd hv (by decide)
      · exact absurd hv (by decide)
    · rw [hcount IconFood (by decide)]
      simp [List.count_cons, List.count_replicate, IconFood, IconSnakeHead, IconSnakeBody]
    · intro c
      refine ⟨fun hv => ?_, fun hc => hcb c hc⟩
      rcases hchar c _ hv with ⟨-, hv⟩ | ⟨-, hv⟩ | ⟨hc, -⟩ | ⟨-, -, -, hv⟩
      · exact absurd hv (by decide)
      · exact absurd hv (by decide)
      · exact hc
      · exact absurd hv (by decide)
    · rw [hcount IconSnakeBody (by decide), hLen, ← hlenD]
      simp [List.count_cons, List.count_replicate, IconFood, IconSnakeHead, IconSnakeBody]
    · intro c v hv h1 h2 h3
      exact hcz c v hv h2 h1 h3
    · intro x hx h1 h2 h3
      rw [hcount x hx]
      simp [List.count_cons, List.count_replicate, Ne.symm h1, Ne.symm h2, Ne.symm h3]
    · apply hin'
      apply hbody
      rw [← hsplit]
      simp

/-- Witness of C6: the first paint of a 26x14 game, with the initial snake and the default
food, returns no error and leaves one head icon at `(4,3)`, one food icon at `(5,4)` and three
body icons. -/
theorem paint_grid_witness :
    ∃ b', (boardOf 26 14).paint NewSnake NewFood = .done (none, b') ∧
      b'.iconAt ⟨4, 3⟩ = some IconSnakeHead ∧ b'.countIcon IconSnakeHead = 1 ∧
      b'.iconAt ⟨5, 4⟩ = some IconFood ∧ b'.countIcon IconFood = 1 ∧
      (b'.countIcon IconSnakeBody : Int) = 3 ∧
      b'.Head = ⟨4, 3⟩ ∧ b'.Length = 4 ∧ b'.Food = ⟨5, 4⟩ := by
  obtain ⟨r, b', hp, hnone, hprops⟩ := paint_grid (boardOf 26 14) NewSnake NewFood ⟨4, 3⟩
    NewSnake_Head
    (by
      intro c hc
      rw [NewSnake_body] at hc
      simp only [List.mem_cons, List.mem_singleton, List.not_mem_nil, or_false] at hc
      rcases hc with rfl | rfl | rfl | rfl <;> simp [Board.inside, boardOf])
    (by simp [Board.inside, boardOf, NewFood])
    (by rw [NewSnake_body]; decide)
    (by rw [NewSnake_body]; simp [NewFood])
  have hr : r = none := by
    apply hnone
    intro c hc
    rw [NewSnake_body] at hc
    simp only [List.mem_cons, List.mem_singleton, List.not_mem_nil, or_false] at hc
    rcases hc with rfl | rfl | rfl | rfl | rfl <;> simp [boardOf, NewFood]
  subst hr
  obtain ⟨h1, h2, h3, h4, -, h6, -, -, h9, h10, h11, -⟩ := hprops rfl
  refine ⟨b', hp, (h1 _).2 rfl, h2, (h3 _).2 rfl, h4, ?_, h9, ?_, h11⟩
  · rw [h6, h10]
    simp [Snake.Length, NewSnake_body]
  · rw [h10]
    simp [Snake.Length, NewSnake_body]

/-! ## C8: the grid after a failed paint -/

/-- The only error of a run of marks is `ErrCellOutOfRange`. -/
theorem markAll_err {L : List (Cell × Icon)} :
    ∀ {b b' : Board} {e : Err}, b.markAll L = .done (some e, b') →
      e = .ErrCellOutOfRange := by
  induction L with
  | nil => intro b b' e h; simp [Board.markAll] at h
  | cons q rest ih =>
    obtain ⟨c, v⟩ := q
    intro b b' e h
    rcases markAll_cons_inv h with ⟨e', hm, he⟩ | ⟨b1, -, hrest⟩
    · rcases mark_inv hm with ⟨hr, -, -⟩ | ⟨hr, -⟩
      · exact Option.some.inj (he.trans hr)
      · cases hr
    · exact ih hrest

/-- Counterexample to C8: on a 26x28 board with the default food and a snake in column 4 whose
head is in row 27, `paint` marks the food, then returns `ErrCellOutOfRange` at the head (row 27
exceeds the width 26), and the grid still holds the food icon at `(5,4)`. -/
theorem paint_error_keeps_food_icon :
    ∃ b', (boardOf 26 28).paint
        { move := EventMoveDown, body := [⟨4, 24⟩, ⟨4, 25⟩, ⟨4, 26⟩, ⟨4, 27⟩] } NewFood
        = .done (some .ErrCellOutOfRange, b') ∧
      b'.iconAt ⟨5, 4⟩ = some IconFood ∧ IconFood ≠ 0 ∧
      ¬ (∀ c v, b'.iconAt c = some v → v = 0) := by
  have hH : Snake.Head { move := EventMoveDown, body := [⟨4, 24⟩, ⟨4, 25⟩, ⟨4, 26⟩, ⟨4, 27⟩] }
      = .done ⟨4, 27⟩ := by simp [Snake.Head]
  have hu := update_of_nonneg (b := boardOf 26 28) NewFood (by simp [boardOf])
    (by simp [boardOf]) hH
  have hrect0 : Board.rect { boardOf 26 28 with
      Grid := List.replicate (boardOf 26 28).X.toNat (List.replicate (boardOf 26 28).Y.toNat 0)
      Head := ⟨4, 27⟩
      Length := Snake.Length
        { move := EventMoveDown, body := [⟨4, 24⟩, ⟨4, 25⟩, ⟨4, 26⟩, ⟨4, 27⟩] }
      Food := NewFood.cell } := by
    refine ⟨by simp [boardOf], by simp [boardOf], by simp, ?_⟩
    intro col hmem
    rw [(List.mem_replicate.1 hmem).2]
    simp
  rcases mark_of_inside (c := NewFood.cell) IconFood hrect0
      (by simp [Board.inside, boardOf, NewFood]) with ⟨hgt, -⟩ | ⟨-, b1, hm1, -⟩
  · simp [boardOf, NewFood] at hgt
  · have hX1 : b1.X = 26 := by rw [(mark_frame hm1).1]; rfl
    have hm2 : b1.mark ⟨4, 27⟩ IconSnakeHead = .done (some .ErrCellOutOfRange, b1) := by
      unfold Board.mark
      rw [if_pos (Or.inl (by rw [hX1]; decide))]
    have hfood : b1.iconAt ⟨5, 4⟩ = some IconFood := mark_at hm1
    refine ⟨b1, ?_, hfood, by decide, fun hall => ?_⟩
    · rw [paint_eq_markAll hu hH]
      simp only [Board.markAll, hm1, hm2]
    · exact absurd (hall _ _ hfood) (by decide)

theorem lastMark_none {c : Cell} {L : List (Cell × Icon)} :
    lastMark c L = none ↔ c ∉ L.map Prod.fst := by
  induction L with
  | nil => simp [lastMark]
  | cons q rest ih =>
    obtain ⟨c0, v0⟩ := q
    unfold lastMark
    cases hl : lastMark c rest with
    | some v =>
      have : ¬ c ∉ rest.map Prod.fst := by
        intro hn
        rw [ih.2 hn] at hl
        cases hl
      simp only [List.map_cons, List.mem_cons, not_or]
      constructor
      · intro h; cases h
      · intro h; exact absurd h.2 this
    | none =>
      have hn := ih.1 hl
      simp only [List.map_cons, List.mem_cons, not_or]
      by_cases h0 : c0 = c
      · rw [if_pos h0]
        constructor
        · intro h; cases h
        · intro h; exact absurd h0.symm h.1
      · rw [if_neg h0]
        exact ⟨fun _ => ⟨fun h => h0 h.symm, hn⟩, fun _ => rfl⟩

theorem lastMark_mem {c : Cell} {v : Icon} {L : List (Cell × Icon)}
    (h : lastMark c L = some v) : (c, v) ∈ L := by
  induction L with
  | nil => simp [lastMark] at h
  | cons q rest ih =>
    obtain ⟨c0, v0⟩ := q
    unfold lastMark at h
    cases hl : lastMark c rest with
    | some v' =>
      simp only [hl, Option.some.injEq] at h
      subst h
      exact List.mem_cons_of_mem _ (ih hl)
    | none =>
      simp only [hl] at h
      split_ifs at h with h0
      simp only [Option.some.injEq] at h
      subst h0 h
      exact List.mem_cons_self _ _

theorem lastMark_nodup {L : List (Cell × Icon)} (hnd : (L.map Prod.fst).Nodup)
    {q : Cell × Icon} (hq : q ∈ L) : lastMark q.1 L = some q.2 := by
  cases hl : lastMark q.1 L with
  | none => exact absurd (List.mem_map_of_mem Prod.fst hq) (lastMark_none.1 hl)
  | some v =>
    have hmem := lastMark_mem hl
    have hinj := List.inj_on_of_nodup_map hnd hmem hq rfl
    rw [← hinj]

/-- A run of marks that returned no error left on each cell the icon of the last mark made on
it. -/
theorem markAll_ok_lastMark {L : List (Cell × Icon)} {c : Cell} {v : Icon} :
    ∀ {b b' : Board}, b.markAll L = .done (none, b') → lastMark c L = some v →
      b'.iconAt c = some v := by
  induction L with
  | nil => intro b b' _ h; simp [lastMark] at h
  | cons q rest ih =>
    obtain ⟨c0, v0⟩ := q
    intro b b' hm hl
    rcases markAll_cons_inv hm with ⟨e, -, he⟩ | ⟨b1, hm1, hrest⟩
    · cases he
    · unfold lastMark at hl
      cases hr : lastMark c rest with
      | some v' =>
        simp only [hr, Option.some.injEq] at hl
        subst hl
        exact ih hrest hr
      | none =>
        simp only [hr] at hl
        split_ifs at hl with h0
        simp only [Option.some.injEq] at hl
        subst h0 hl
        rw [(markAll_frame hrest).2 c0 (lastMark_none.1 hr)]
        exact mark_at hm1

/-- A run of marks that returned an error made the marks before the failing one, and the
failing one is the first whose row exceeds the width or the height. -/
theorem markAll_err_split {L : List (Cell × Icon)} :
    ∀ {b b' : Board} {e : Err}, b.markAll L = .done (some e, b') →
      ∃ (k : Nat) (p : Cell × Icon), L[k]? = some p ∧ (p.1.j > b.X ∨ p.1.j > b.Y) ∧
        (∀ m q, m < k → L[m]? = some q → ¬ (q.1.j > b.X ∨ q.1.j > b.Y)) ∧
        b.markAll (L.take k) = .done (none, b') := by
  induction L with
  | nil => intro b b' e h; simp [Board.markAll] at h
  | cons q rest ih =>
    obtain ⟨c0, v0⟩ := q
    intro b b' e h
    rcases markAll_cons_inv h with ⟨e', hm, -⟩ | ⟨b1, hm, hrest⟩
    · rcases mark_inv hm with ⟨-, hb, hgt⟩ | ⟨hr, -⟩
      · refine ⟨0, (c0, v0), by simp, hgt, fun m q hmk => absurd hmk (Nat.not_lt_zero m), ?_⟩
        rw [hb]
        rfl
      · cases hr
    · obtain ⟨k, p, hp, hgt, hbefore, htake⟩ := ih hrest
      have hsame := (mark_frame hm).1
      have hX : b1.X = b.X := by rw [hsame]
      have hY : b1.Y = b.Y := by rw [hsame]
      rw [hX, hY] at hgt
      refine ⟨k + 1, p, by simpa using hp, hgt, ?_, ?_⟩
      · intro m q hmk hq
        cases m with
        | zero =>
          simp only [List.getElem?_cons_zero, Option.some.injEq] at hq
          subst hq
          rcases mark_inv hm with ⟨hr, -⟩ | ⟨-, hle, -⟩
          · cases hr
          · exact hle
        | succ m' =>
          simp only [List.getElem?_cons_succ] at hq
          have := hbefore m' q (by omega) hq
          rw [hX, hY] at this
          exact this
      · simp only [List.take_succ_cons, Board.markAll, hm]
        exact htake

theorem paintMarks_icon_ne_zero {s : Snake} {f : Food} {h : Cell} {q : Cell × Icon}
    (hq : q ∈ paintMarks s f h) : q.2 ≠ 0 := by
  unfold paintMarks at hq
  simp only [List.mem_cons, List.mem_map] at hq
  rcases hq with rfl | rfl | ⟨c, -, rfl⟩
  · show IconFood ≠ 0
    decide
  · show IconSnakeHead ≠ 0
    decide
  · show IconSnakeBody ≠ 0
    decide

/-- C8, amended. If `paint` returns an error, the error is `ErrCellOutOfRange`, raised by the
first of the marks (food, head, then the other body cells) whose row exceeds the width or the
height. Afterwards the grid holds the marks made before that one: every cell marked before the
failing mark keeps the icon of the last mark made on it (its own icon when the marked cells are
distinct), and every other cell, so every cell off food and snake, is empty. The grid is
entirely empty when the failing mark is the first one, that of the food cell; otherwise the
food cell is not empty. -/
theorem paint_error_grid (b b' : Board) (s : Snake) (f : Food) (e : Err)
    (hp : b.paint s f = .done (some e, b')) :
    e = .ErrCellOutOfRange ∧
    (∀ c v, b'.iconAt c = some v → c ≠ f.cell → c ∉ s.body → v = 0) ∧
    ((f.cell.j > b.X ∨ f.cell.j > b.Y) → ∀ c v, b'.iconAt c = some v → v = 0) ∧
    (∃ (h : Cell) (k : Nat) (p : Cell × Icon), s.Head = .done h ∧
      (paintMarks s f h)[k]? = some p ∧ (p.1.j > b.X ∨ p.1.j > b.Y) ∧
      (∀ m q, m < k → (paintMarks s f h)[m]? = some q → ¬ (q.1.j > b.X ∨ q.1.j > b.Y)) ∧
      (∀ c v, lastMark c ((paintMarks s f h).take k) = some v →
        b'.iconAt c = some v ∧ v ≠ 0) ∧
      (∀ c, lastMark c ((paintMarks s f h).take k) = none →
        ∀ v, b'.iconAt c = some v → v = 0) ∧
      (∀ q ∈ (paintMarks s f h).take k,
        ∃ v, lastMark q.1 ((paintMarks s f h).take k) = some v ∧
          b'.iconAt q.1 = some v ∧ v ≠ 0) ∧
      ((((paintMarks s f h).take k).map Prod.fst).Nodup →
        ∀ q ∈ (paintMarks s f h).take k, b'.iconAt q.1 = some q.2) ∧
      (0 < k → ∃ v, b'.iconAt f.cell = some v ∧ v ≠ 0)) := by
  obtain ⟨h, b0, hH, hu, hb0⟩ := paint_inv hp
  have hsplit : s.body.dropLast ++ [h] = s.body :=
    List.dropLast_append_getLast? h ((Head_eq_done s h).1 hH)
  rw [paint_eq_markAll hu hH] at hp
  have hzero : ∀ c v, b0.iconAt c = some v → v = 0 := by
    intro c v hv
    rw [hb0] at hv
    unfold Board.iconAt at hv
    split_ifs at hv
    exact gridAt_replicate hv
  refine ⟨markAll_err hp, ?_, ?_, ?_⟩
  · intro c v hv h1 h2
    have hnot : c ∉ ((f.cell, IconFood) :: (h, IconSnakeHead) ::
        s.body.dropLast.map (fun c => (c, IconSnakeBody))).map Prod.fst := by
      rw [paint_marks_cells]
      simp only [List.mem_cons, not_or]
      refine ⟨h1, ?_, ?_⟩
      · intro hc
        apply h2
        rw [← hsplit, hc]
        simp
      · intro hc
        apply h2
        rw [← hsplit]
        exact List.mem_append_left _ hc
    rw [(markAll_frame hp).2 c hnot] at hv
    exact hzero c v hv
  · intro hgt c v hv
    rcases markAll_cons_inv hp with ⟨e', hm, -⟩ | ⟨b1, hm, -⟩
    · rcases mark_inv hm with ⟨-, hb', -⟩ | ⟨hr, -⟩
      · rw [hb'] at hv
        exact hzero c v hv
      · cases hr
    · rcases mark_inv hm with ⟨hr, -⟩ | ⟨-, hle, -⟩
      · cases hr
      · rw [hb0] at hle
        exact absurd hgt hle
  · have hp' : b0.markAll (paintMarks s f h) = .done (some e, b') := hp
    obtain ⟨k, p, hk, hgt, hbefore, htake⟩ := markAll_err_split hp'
    have hX : b0.X = b.X := by rw [hb0]
    have hY : b0.Y = b.Y := by rw [hb0]
    rw [hX, hY] at hgt
    have hkept : ∀ c v, lastMark c ((paintMarks s f h).take k) = some v →
        b'.iconAt c = some v ∧ v ≠ 0 := by
      intro c v hl
      exact ⟨markAll_ok_lastMark htake hl,
        paintMarks_icon_ne_zero (List.mem_of_mem_take (lastMark_mem hl))⟩
    have hall : ∀ q ∈ (paintMarks s f h).take k,
        ∃ v, lastMark q.1 ((paintMarks s f h).take k) = some v ∧
          b'.iconAt q.1 = some v ∧ v ≠ 0 := by
      intro q hq
      cases hl : lastMark q.1 ((paintMarks s f h).take k) with
      | none => exact absurd (List.mem_map_of_mem Prod.fst hq) (lastMark_none.1 hl)
      | some v => exact ⟨v, rfl, hkept _ _ hl⟩
    refine ⟨h, k, p, hH, hk, hgt, ?_, hkept, ?_, hall, ?_, ?_⟩
    · intro m q hmk hq
      have := hbefore m q hmk hq
      rw [hX, hY] at this
      exact this
    · intro c hl v hv
      rw [(markAll_frame htake).2 c (lastMark_none.1 hl)] at hv
      exact hzero c v hv
    · intro hnd q hq
      exact markAll_ok_lastMark htake (lastMark_nodup hnd hq)
    · intro hk0
      have hmem : (f.cell, IconFood) ∈ (paintMarks s f h).take k := by
        cases k with
        | zero => exact absurd hk0 (Nat.lt_irrefl 0)
        | succ k' =>
          unfold paintMarks
          rw [List.take_succ_cons]
          exact List.mem_cons_self _ _
      obtain ⟨v, -, hv, hv0⟩ := hall _ hmem
      exact ⟨v, hv, hv0⟩

/-- Witness of C8, amended: on a 26x28 board with the food at `(5,4)` and a snake heading Up in
column 4 from row 27 to its head in row 24, the marks of the food and of the head are made, the
mark of the oldest body cell `(4,27)` fails, and afterwards the food cell and the head cell keep
their icons and every other cell is empty. -/
theorem paint_error_grid_witness :
    ∃ b', (boardOf 26 28).paint
        { move := EventMoveUp, body := [⟨4, 27⟩, ⟨4, 26⟩, ⟨4, 25⟩, ⟨4, 24⟩] }
        { cell := ⟨5, 4⟩ } = .done (some .ErrCellOutOfRange, b') ∧
      b'.iconAt ⟨5, 4⟩ = some IconFood ∧ b'.iconAt ⟨4, 24⟩ = some IconSnakeHead ∧
      (∀ c v, b'.iconAt c = some v → c ≠ ⟨5, 4⟩ → c ≠ ⟨4, 24⟩ → v = 0) := by
  obtain ⟨b', hp⟩ : ∃ b', (boardOf 26 28).paint
      { move := EventMoveUp, body := [⟨4, 27⟩, ⟨4, 26⟩, ⟨4, 25⟩, ⟨4, 24⟩] }
      { cell := ⟨5, 4⟩ } = .done (some .ErrCellOutOfRange, b') := ⟨_, rfl⟩
  obtain ⟨-, -, -, h, k, p, hH, hk, hgt, -, hkept, hnone, -, -, -⟩ :=
    paint_error_grid _ _ _ _ _ hp
  have hh : h = ⟨4, 24⟩ := by
    simp [Snake.Head] at hH
    exact hH.symm
  subst hh
  have hk2 : k = 2 := by
    rcases k with _ | _ | _ | _ | _ | k <;>
      simp [paintMarks, boardOf] at hk <;> subst hk <;> simp [boardOf] at hgt
    rfl
  subst hk2
  refine ⟨b', hp, (hkept _ _ ?_).1, (hkept _ _ ?_).1, ?_⟩
  · simp [paintMarks, lastMark]
  · simp [paintMarks, lastMark]
  · intro c v hv h1 h2
    refine hnone c ?_ v hv
    rw [lastMark_none]
    simp [paintMarks]
    exact ⟨h1, h2⟩

/-! ## Restart handled to its end -/

theorem eventHandler_restart_eq (g : Game) :
    eventHandler g EventRestart = restart { g with paused := false } := by
  unfold eventHandler
  rw [if_neg (by decide), if_pos rfl]

/-- A `Restart` event handled to its end, on a game whose board has non-negative dimensions
(as every board `NewBoard` has built), yields the canonical initial snake (heading Right, body
`[(1,3),(2,3),(3,3),(4,3)]`), the default food, score 0, round 0, no error message, and the
width, height and speed of before. -/
theorem eventHandler_restart (g : Game) (hX : 0 ≤ g.board.X) (hY : 0 ≤ g.board.Y) :
    ∃ g', eventHandler g EventRestart = .done g' ∧
      g'.snake.move = EventMoveRight ∧
      g'.snake.body = [⟨1, 3⟩, ⟨2, 3⟩, ⟨3, 3⟩, ⟨4, 3⟩] ∧
      g'.snake = NewSnake ∧ g'.food = NewFood ∧
      g'.board.Score = 0 ∧ g'.board.Round = 0 ∧ g'.board.Errors = "" ∧
      g'.board.X = g.board.X ∧ g'.board.Y = g.board.Y ∧
      g'.speed = g.speed ∧ g'.board.Speed = g.speed ∧
      (g.board.Speed = g.speed → g'.board.Speed = g.board.Speed) := by
  rw [eventHandler_restart_eq]
  unfold restart
  simp only [NewBoard_NewSnake hX hY]
  exact ⟨_, rfl, rfl, NewSnake_body, rfl, rfl, rfl, rfl, rfl, rfl, rfl, rfl, rfl,
    fun h => h.symm⟩

/-- An instance: a paused game with score 30, round 5, the message of a wall hit, a snake
heading Up by the top wall and the food elsewhere, whose `Restart` event is handled to its end,
is back in the initial configuration. -/
theorem eventHandler_restart_example :
    ∃ g', eventHandler
        { board := { boardOf 26 14 with Score := 30, Round := 5, Errors := "wall hit" },
          food := { cell := ⟨9, 9⟩ },
          snake := { move := EventMoveUp, body := [⟨7, 2⟩, ⟨7, 1⟩, ⟨7, 0⟩] },
          speed := Fast, paused := true } EventRestart = .done g' ∧
      g'.snake.move = EventMoveRight ∧
      g'.snake.body = [⟨1, 3⟩, ⟨2, 3⟩, ⟨3, 3⟩, ⟨4, 3⟩] ∧
      g'.snake = NewSnake ∧ g'.food = NewFood ∧
      g'.board.Score = 0 ∧ g'.board.Round = 0 ∧ g'.board.Errors = "" ∧
      g'.board.X = 26 ∧ g'.board.Y = 14 ∧
      g'.speed = Fast ∧ g'.board.Speed = Fast ∧
      (Fast = Fast → g'.board.Speed = Fast) :=
  eventHandler_restart
    { board := { boardOf 26 14 with Score := 30, Round := 5, Errors := "wall hit" },
      food := { cell := ⟨9, 9⟩ },
      snake := { move := EventMoveUp, body := [⟨7, 2⟩, ⟨7, 1⟩, ⟨7, 0⟩] },
      speed := Fast, paused := true } (by simp [boardOf]) (by simp [boardOf])

/-! ## C9: a failed move stays failed -/

theorem eventHandler_start (g : Game) :
    eventHandler g EventStart = .done { g with paused := false } := by
  unfold eventHandler
  rw [if_neg (by decide), if_neg (by decide), if_neg (by decide), if_pos rfl]

theorem eventHandler_pause (g : Game) :
    eventHandler g EventPause = .done { g with paused := true } := by
  unfold eventHandler
  rw [if_neg (by decide), if_neg (by decide), if_pos rfl]

/-- A failure of `moveSnake` depends only on the snake and on the board's width and height. -/
theorem moveSnake_err_congr {g g1 g2 : Game} {draws : List (Nat × Nat)} {e : Err}
    (draws' : List (Nat × Nat))
    (herr : moveSnake g draws = .done (some e, g1))
    (hs : g2.snake = g.snake) (hX : g2.board.X = g.board.X) (hY : g2.board.Y = g.board.Y) :
    moveSnake g2 draws' = .done (some e, g2) := by
  obtain ⟨-, h, hH, ⟨rfl, hw⟩ | ⟨rfl, hw, hb⟩⟩ := moveSnake_err_inv herr
  · exact moveSnake_wall draws' (h := h) (by rw [hs]; exact hH) (by rw [hs, hX, hY]; exact hw)
  · exact moveSnake_bite draws' (h := h) (by rw [hs]; exact hH) (by rw [hs, hX, hY]; exact hw)
      (by rw [hs]; exact hb)

/-- A `paint` that returned changed none of width, height, score, round, speed, paused flag
and error message. -/
theorem paint_frame {b b' : Board} {s : Snake} {f : Food} {r : Option Err}
    (hp : b.paint s f = .done (r, b')) :
    b'.X = b.X ∧ b'.Y = b.Y ∧ b'.Score = b.Score ∧ b'.Round = b.Round ∧
    b'.Speed = b.Speed ∧ b'.IsPaused = b.IsPaused ∧ b'.Errors = b.Errors := by
  obtain ⟨h, b0, hH, hu, hb0⟩ := paint_inv hp
  rw [paint_eq_markAll hu hH] at hp
  have hsame := (markAll_frame hp).1
  rw [hsame, hb0]
  exact ⟨rfl, rfl, rfl, rfl, rfl, rfl, rfl⟩

/-- C9. When `moveSnake` fails (wall hit or snake bite), handling a `Start` or a `Pause` event
and calling `moveSnake` again fails again with the same error, and snake, food and score are
still those of the original state. The same holds when, in between, the run loop has recorded
the error message and painted the board. -/
theorem moveSnake_refails (g g1 : Game) (draws draws' : List (Nat × Nat)) (e : Err)
    (ev : Event) (hev : ev = EventStart ∨ ev = EventPause)
    (herr : moveSnake g draws = .done (some e, g1)) :
    (e = .ErrSnakeHitWall ∨ e = .ErrSnakeBite) ∧
    (∃ g2 g3, eventHandler g1 ev = .done g2 ∧
      moveSnake g2 draws' = .done (some e, g3) ∧
      g3.snake = g.snake ∧ g3.food = g.food ∧ g3.board.Score = g.board.Score) ∧
    (∀ r g1', runMoveFailed g1 e = .done (r, g1') →
      ∃ g2 g3, eventHandler g1' ev = .done g2 ∧
        moveSnake g2 draws' = .done (some e, g3) ∧
        g3.snake = g.snake ∧ g3.food = g.food ∧ g3.board.Score = g.board.Score ∧
        g3.board.Errors = e.Error) := by
  have hg1 : g1 = g := (moveSnake_err_inv herr).1
  subst hg1
  refine ⟨?_, ?_, ?_⟩
  · obtain ⟨-, h, -, ⟨he, -⟩ | ⟨he, -⟩⟩ := moveSnake_err_inv herr
    · exact Or.inl he
    · exact Or.inr he
  · rcases hev with rfl | rfl
    · exact ⟨_, _, eventHandler_start g1,
        moveSnake_err_congr draws' herr rfl rfl rfl, rfl, rfl, rfl⟩
    · exact ⟨_, _, eventHandler_pause g1,
        moveSnake_err_congr draws' herr rfl rfl rfl, rfl, rfl, rfl⟩
  · intro r g1' hrun
    unfold runMoveFailed at hrun
    simp only at hrun
    cases hp : Board.paint { g1.board with Errors := e.Error } g1.snake g1.food with
    | panics => simp [hp] at hrun
    | spins => simp [hp] at hrun
    | done q =>
      obtain ⟨r', b1⟩ := q
      simp only [hp, Run.done.injEq, Prod.mk.injEq] at hrun
      obtain ⟨-, rfl⟩ := hrun
      obtain ⟨hX, hY, hS, -, -, -, hE⟩ := paint_frame hp
      rcases hev with rfl | rfl
      · exact ⟨_, _, eventHandler_start _,
          moveSnake_err_congr draws' herr rfl hX hY, rfl, rfl, hS, hE⟩
      · exact ⟨_, _, eventHandler_pause _,
          moveSnake_err_congr draws' herr rfl hX hY, rfl, rfl, hS, hE⟩

/-- Witness of C9: on a 26x14 board a snake heading Right with its head in the last column
hits the wall, and hits it again after a `Start` event. -/
theorem moveSnake_refails_witness :
    moveSnake (gameOf 26 14 EventMoveRight [⟨22, 3⟩, ⟨23, 3⟩, ⟨24, 3⟩, ⟨25, 3⟩] ⟨5, 4⟩) []
      = .done (some .ErrSnakeHitWall,
          gameOf 26 14 EventMoveRight [⟨22, 3⟩, ⟨23, 3⟩, ⟨24, 3⟩, ⟨25, 3⟩] ⟨5, 4⟩) ∧
    ∃ g2 g3,
      eventHandler (gameOf 26 14 EventMoveRight [⟨22, 3⟩, ⟨23, 3⟩, ⟨24, 3⟩, ⟨25, 3⟩] ⟨5, 4⟩)
        EventStart = .done g2 ∧
      moveSnake g2 [(1, 1)] = .done (some .ErrSnakeHitWall, g3) ∧
      g3.snake = (gameOf 26 14 EventMoveRight [⟨22, 3⟩, ⟨23, 3⟩, ⟨24, 3⟩, ⟨25, 3⟩] ⟨5, 4⟩).snake ∧
      g3.food = (gameOf 26 14 EventMoveRight [⟨22, 3⟩, ⟨23, 3⟩, ⟨24, 3⟩, ⟨25, 3⟩] ⟨5, 4⟩).food ∧
      g3.board.Score
        = (gameOf 26 14 EventMoveRight [⟨22, 3⟩, ⟨23, 3⟩, ⟨24, 3⟩, ⟨25, 3⟩] ⟨5, 4⟩).board.Score := by
  have herr : moveSnake
      (gameOf 26 14 EventMoveRight [⟨22, 3⟩, ⟨23, 3⟩, ⟨24, 3⟩, ⟨25, 3⟩] ⟨5, 4⟩) []
      = .done (some .ErrSnakeHitWall,
          gameOf 26 14 EventMoveRight [⟨22, 3⟩, ⟨23, 3⟩, ⟨24, 3⟩, ⟨25, 3⟩] ⟨5, 4⟩) := by
    refine moveSnake_wall [] (h := ⟨25, 3⟩) ?_ ?_
    · simp [gameOf, Snake.Head]
    · simp [gameOf, boardOf, nextHead]
  exact ⟨herr, (moveSnake_refails _ _ [] [(1, 1)] _ EventStart (Or.inl rfl) herr).2.1⟩

/-! ## C10: the score -/

/-- C10. Whenever `moveSnake` returns, `Board.Round` is unchanged, and `Board.Score` has grown
by exactly 10 when the call succeeded with the candidate head on the food cell and is unchanged
in every other case: a successful step without feeding, a wall hit, a snake bite. -/
theorem moveSnake_score (g g' : Game) (draws : List (Nat × Nat)) (r : Option Err)
    (hrun : moveSnake g draws = .done (r, g')) :
    ∃ h, g.snake.Head = .done h ∧
      g'.board.Round = g.board.Round ∧
      ((r = none ∧ nextHead g.snake.move h = g.food.cell) →
        g'.board.Score = g.board.Score + 10) ∧
      (¬ (r = none ∧ nextHead g.snake.move h = g.food.cell) →
        g'.board.Score = g.board.Score) ∧
      (r = none ∨ r = some .ErrSnakeHitWall ∨ r = some .ErrSnakeBite) := by
  cases r with
  | some e =>
    obtain ⟨rfl, h, hH, hcase⟩ := moveSnake_err_inv hrun
    refine ⟨h, hH, rfl, fun hc => ?_, fun _ => rfl, Or.inr ?_⟩
    · cases hc.1
    · rcases hcase with ⟨he, -⟩ | ⟨he, -⟩
      · exact Or.inl (by rw [he])
      · exact Or.inr (by rw [he])
  | none =>
    obtain ⟨h, hH, -, -, -, hcase⟩ := moveSnake_ok_inv hrun
    refine ⟨h, hH, ?_, ?_, ?_, Or.inl rfl⟩
    · rcases hcase with ⟨-, f, -, rfl⟩ | ⟨-, rfl⟩ <;> rfl
    · rintro ⟨-, hf⟩
      rcases hcase with ⟨-, f, -, rfl⟩ | ⟨hne, -⟩
      · rfl
      · exact absurd hf hne
    · intro hn
      rcases hcase with ⟨hf, -⟩ | ⟨-, rfl⟩
      · exact absurd ⟨rfl, hf⟩ hn
      · rfl

/-- Witness of C10: the initial snake eating the food at `(5,3)` takes the score from 0 to
10 and keeps the round. -/
theorem moveSnake_score_witness :
    ∃ g', moveSnake (gameOf 26 14 EventMoveRight [⟨1, 3⟩, ⟨2, 3⟩, ⟨3, 3⟩, ⟨4, 3⟩] ⟨5, 3⟩)
        [(0, 0)] = .done (none, g') ∧
      g'.food.cell = ⟨0, 0⟩ ∧
      g'.board.Score
        = (gameOf 26 14 EventMoveRight [⟨1, 3⟩, ⟨2, 3⟩, ⟨3, 3⟩, ⟨4, 3⟩] ⟨5, 3⟩).board.Score
          + 10 ∧
      g'.board.Round
        = (gameOf 26 14 EventMoveRight [⟨1, 3⟩, ⟨2, 3⟩, ⟨3, 3⟩, ⟨4, 3⟩] ⟨5, 3⟩).board.Round := by
  have hok : moveSnake (gameOf 26 14 EventMoveRight [⟨1, 3⟩, ⟨2, 3⟩, ⟨3, 3⟩, ⟨4, 3⟩] ⟨5, 3⟩)
      [(0, 0)] = .done (none,
          { gameOf 26 14 EventMoveRight [⟨1, 3⟩, ⟨2, 3⟩, ⟨3, 3⟩, ⟨4, 3⟩, ⟨5, 3⟩] ⟨0, 0⟩ with
            board := { boardOf 26 14 with Score := 10 } }) := by
    simp [moveSnake, gameOf, boardOf, Snake.Head, nextHead, placeFood, Intn, Snake.IsOnBody]
  obtain ⟨h, hH, hround, hfeed, -, -⟩ := moveSnake_score _ _ _ _ hok
  have hh : h = ⟨4, 3⟩ := by
    simp [gameOf, Snake.Head] at hH
    exact hH.symm
  subst hh
  exact ⟨_, hok, rfl, hfeed ⟨rfl, by simp [gameOf, nextHead]⟩, hround⟩

/-! ## C11: the initial snake -/

/-- C11. `NewSnake` returns a snake heading Right whose body is exactly
`[(1,3),(2,3),(3,3),(4,3)]`, row 3 and columns 1 to 4 in ascending order, so that `Length()` is
4 and `Head()` is the last cell `(4,3)`. -/
theorem NewSnake_initial :
    NewSnake.move = EventMoveRight ∧
    NewSnake.body = [⟨1, 3⟩, ⟨2, 3⟩, ⟨3, 3⟩, ⟨4, 3⟩] ∧
    NewSnake.Length = 4 ∧
    NewSnake.Head = .done ⟨4, 3⟩ ∧
    NewSnake.body.getLast? = some ⟨4, 3⟩ ∧
    (∀ c ∈ NewSnake.body, c.j = 3) ∧
    NewSnake.body.map Cell.i = [1, 2, 3, 4] := by
  refine ⟨rfl, NewSnake_body, ?_, NewSnake_Head, ?_, ?_, ?_⟩
  · simp [Snake.Length, NewSnake_body]
  · simp [NewSnake_body]
  · intro c hc
    rw [NewSnake_body] at hc
    simp only [List.mem_cons, List.mem_singleton, List.not_mem_nil, or_false] at hc
    rcases hc with rfl | rfl | rfl | rfl <;> rfl
  · simp [NewSnake_body]

/-! ## C17: pause and start -/

/-- C17. Handling a `Pause` event sets the paused flag to true and handling a `Start` event
sets it to false, and neither changes anything else: heading, body, food cell and every board
field (score, round, error message, head, length, grid and the rest) are as before, so a
recorded error message is not cleared. -/
theorem eventHandler_pause_start (g : Game) :
    (∃ g', eventHandler g EventPause = .done g' ∧ g'.paused = true ∧
      g'.snake.move = g.snake.move ∧ g'.snake.body = g.snake.body ∧
      g'.food.cell = g.food.cell ∧ g'.board = g.board ∧
      g'.board.Score = g.board.Score ∧ g'.board.Round = g.board.Round ∧
      g'.board.Errors = g.board.Errors ∧ g'.board.Head = g.board.Head ∧
      g'.board.Length = g.board.Length ∧ g'.board.Grid = g.board.Grid ∧
      g' = { g with paused := true }) ∧
    (∃ g', eventHandler g EventStart = .done g' ∧ g'.paused = false ∧
      g'.snake.move = g.snake.move ∧ g'.snake.body = g.snake.body ∧
      g'.food.cell = g.food.cell ∧ g'.board = g.board ∧
      g'.board.Score = g.board.Score ∧ g'.board.Round = g.board.Round ∧
      g'.board.Errors = g.board.Errors ∧ g'.board.Head = g.board.Head ∧
      g'.board.Length = g.board.Length ∧ g'.board.Grid = g.board.Grid ∧
      g' = { g with paused := false }) :=
  ⟨⟨_, eventHandler_pause g, rfl, rfl, rfl, rfl, rfl, rfl, rfl, rfl, rfl, rfl, rfl, rfl⟩,
    ⟨_, eventHandler_start g, rfl, rfl, rfl, rfl, rfl, rfl, rfl, rfl, rfl, rfl, rfl, rfl⟩⟩

/-! ## C20: a reversal in two events -/

/-- C20. On a fresh 26x14 game (the initial snake, heading Right) the events `MoveUp` and then
`MoveLeft`, handled with no step in between, are both accepted: the heading ends up Left, the
opposite of the original, `Round` has grown by 2, and the next `moveSnake` returns
`ErrSnakeBite` with the body unchanged. -/
theorem reversal_in_two_events (speed : Speed) (draws : List (Nat × Nat)) :
    ∃ g0 g1 g2 g3 : Game, NewGame 26 14 speed = .done g0 ∧
      g0.snake.move = EventMoveRight ∧
      g0.snake.body = [⟨1, 3⟩, ⟨2, 3⟩, ⟨3, 3⟩, ⟨4, 3⟩] ∧
      eventHandler g0 EventMoveUp = .done g1 ∧
      g1.snake.move = EventMoveUp ∧ g1.board.Round = g0.board.Round + 1 ∧
      eventHandler g1 EventMoveLeft = .done g2 ∧
      g2.snake.move = EventMoveLeft ∧ g2.board.Round = g0.board.Round + 2 ∧
      g2.snake.body = g0.snake.body ∧
      moveSnake g2 draws = .done (some .ErrSnakeBite, g3) ∧
      g3.snake.body = g0.snake.body ∧ g3 = g2 := by
  refine ⟨_, _, _, _, NewGame_eq (by decide) (by decide) speed, rfl, NewSnake_body,
    eventHandler_up_accept (Or.inl rfl), rfl, rfl,
    eventHandler_left_accept (Or.inl rfl), rfl, by simp, rfl,
    moveSnake_bite draws (h := ⟨4, 3⟩) ?_ ?_ ?_, rfl, rfl⟩
  · simp [Snake.Head, NewSnake_body]
  · simp [nextHead, EventMoveLeft, EventMoveRight]
  · simp [nextHead, EventMoveLeft, EventMoveRight, NewSnake_body]

/-! ## C14: the guard of `mark` -/

/-- C14. On every board, cell `c` and icon, `mark` returns `ErrCellOutOfRange` exactly when the
row `c.j` is greater than the width `X` or greater than the height `Y`, whatever the column
`c.i`, and then the board, its grid included, is unchanged. Otherwise, when `(c.i, c.j)` is a
valid index of the grid, it returns no error, sets `Grid[c.i][c.j]` to the icon and changes no
other grid cell and no other field; when it is not a valid index the runtime aborts the call. -/
theorem mark_guard (b : Board) (c : Cell) (v : Icon) :
    ((∃ b', b.mark c v = .done (some .ErrCellOutOfRange, b')) ↔ (c.j > b.X ∨ c.j > b.Y)) ∧
    (∀ e b', b.mark c v = .done (some e, b') →
      e = .ErrCellOutOfRange ∧ b' = b ∧ b'.Grid = b.Grid) ∧
    (∀ i' : Int, (∃ e b', b.mark { i := i', j := c.j } v = .done (some e, b')) ↔
      (∃ e b', b.mark c v = .done (some e, b'))) ∧
    (¬ (c.j > b.X ∨ c.j > b.Y) →
      ∀ col : List Icon, 0 ≤ c.i → 0 ≤ c.j → b.Grid[c.i.toNat]? = some col →
        c.j.toNat < col.length →
        ∃ b', b.mark c v = .done (none, b') ∧
          gridAt b'.Grid c.i.toNat c.j.toNat = some v ∧
          (∀ a k : Nat, ¬ (a = c.i.toNat ∧ k = c.j.toNat) →
            gridAt b'.Grid a k = gridAt b.Grid a k) ∧
          b'.iconAt c = some v ∧ (∀ c', c' ≠ c → b'.iconAt c' = b.iconAt c') ∧
          b' = { b with Grid := b'.Grid }) ∧
    (¬ (c.j > b.X ∨ c.j > b.Y) →
      ¬ (0 ≤ c.i ∧ 0 ≤ c.j ∧ ∃ col, b.Grid[c.i.toNat]? = some col ∧ c.j.toNat < col.length) →
      b.mark c v = .panics) := by
  have herr : ∀ c' : Cell, (∃ e b', b.mark c' v = .done (some e, b')) ↔
      (c'.j > b.X ∨ c'.j > b.Y) := by
    intro c'
    constructor
    · rintro ⟨e, b', h⟩
      rcases mark_inv h with ⟨-, -, hgt⟩ | ⟨hr, -⟩
      · exact hgt
      · cases hr
    · intro hgt
      refine ⟨.ErrCellOutOfRange, b, ?_⟩
      unfold Board.mark
      rw [if_pos hgt]
  refine ⟨⟨?_, ?_⟩, ?_, ?_, ?_, ?_⟩
  · rintro ⟨b', h⟩
    exact (herr c).1 ⟨_, _, h⟩
  · intro hgt
    refine ⟨b, ?_⟩
    unfold Board.mark
    rw [if_pos hgt]
  · intro e b' h
    rcases mark_inv h with ⟨hr, hb, -⟩ | ⟨hr, -⟩
    · exact ⟨Option.some.inj hr, hb, by rw [hb]⟩
    · cases hr
  · intro i'
    rw [herr, herr]
  · intro hle col hi hj hcol hlt
    have hm : b.mark c v
        = .done (none, { b with Grid := b.Grid.set c.i.toNat (col.set c.j.toNat v) }) := by
      unfold Board.mark
      rw [if_neg hle, if_pos ⟨hi, hj⟩]
      simp only [hcol]
      rw [if_pos hlt]
    refine ⟨_, hm, ?_, ?_, mark_at hm, (mark_frame hm).2, rfl⟩
    · simp only
      rw [gridAt_set v hcol hlt, if_pos ⟨rfl, rfl⟩]
    · intro a k hne
      simp only
      rw [gridAt_set v hcol hlt, if_neg hne]
  · intro hle hbad
    unfold Board.mark
    rw [if_neg hle]
    by_cases hnn : 0 ≤ c.i ∧ 0 ≤ c.j
    · rw [if_pos hnn]
      cases hcol : b.Grid[c.i.toNat]? with
      | none => rfl
      | some col =>
        simp only
        rw [if_neg]
        intro hlt
        exact hbad ⟨hnn.1, hnn.2, col, hcol, hlt⟩
    · rw [if_neg hnn]

/-! ## C12: the guard of `mark` in normal play -/

/-- C12, the code at a failing input. A fresh 26x28 game (both dimensions accepted by the
constructor), the events `Start` and `MoveDown`, then 24 ticks of the run loop: the snake has
gone down column 4 to `[(4,24),(4,25),(4,26),(4,27)]`, every cell of snake and food lies inside
the board, and at the 24th tick `paint` returns `ErrCellOutOfRange`, because `mark` compares
the row 27 of the head with the width 26; `Run` returns that error. -/
theorem paint_error_in_play :
    ∃ g0 g1 g2 g3 : Game, NewGame 26 28 Fast = .done g0 ∧
      eventHandler g0 EventStart = .done g1 ∧
      eventHandler g1 EventMoveDown = .done g2 ∧
      ticks (List.replicate 24 []) g2 = .done (some .ErrCellOutOfRange, g3) ∧
      (26 ≤ g3.board.X ∧ 14 ≤ g3.board.Y) ∧
      g3.snake.body = [⟨4, 24⟩, ⟨4, 25⟩, ⟨4, 26⟩, ⟨4, 27⟩] ∧
      g3.food.cell = ⟨5, 4⟩ ∧
      (∀ c ∈ g3.food.cell :: g3.snake.body, g3.board.inside c) ∧
      (∃ b', g3.board.paint g3.snake g3.food = .done (some .ErrCellOutOfRange, b')) := by
  refine ⟨_, _, _,
    { board := { boardOf 26 28 with
        Round := 1, IsPaused := false, Head := ⟨4, 27⟩, Food := ⟨5, 4⟩,
        Grid := (List.replicate 26 (List.replicate 28 0)).set 5
          ((List.replicate 28 0).set 4 IconFood) },
      food := NewFood,
      snake := { move := EventMoveDown, body := [⟨4, 24⟩, ⟨4, 25⟩, ⟨4, 26⟩, ⟨4, 27⟩] },
      speed := Fast, paused := false },
    NewGame_eq (by decide) (by decide) Fast, eventHandler_start _,
    eventHandler_down_accept (Or.inl rfl), ?_, ?_, rfl, rfl, ?_, ?_⟩
  · rfl
  · exact ⟨by decide, by decide⟩
  · intro c hc
    simp only [List.mem_cons, List.mem_singleton, List.not_mem_nil, or_false] at hc
    rcases hc with rfl | rfl | rfl | rfl | rfl <;> simp [Board.inside, boardOf, NewFood]
  · exact ⟨_, rfl⟩

/-! ## C18: the snake never overlaps itself -/

/-- With a heading among the four directions the candidate head is not the head. -/
theorem nextHead_ne_self {m : Event} (h : Cell)
    (hm : m = EventMoveUp ∨ m = EventMoveDown ∨ m = EventMoveLeft ∨ m = EventMoveRight) :
    nextHead m h ≠ h := by
  obtain ⟨r, l, u, d, -⟩ := nextHead_offsets m h
  intro heq
  have hi := congrArg Cell.i heq
  have hj := congrArg Cell.j heq
  rcases hm with hm | hm | hm | hm
  · rw [u hm] at hj; simp only at hj; omega
  · rw [d hm] at hj; simp only at hj; omega
  · rw [l hm] at hi; simp only at hi; omega
  · rw [r hm] at hi; simp only at hi; omega

/-- The body is its cells below the head followed by the head. -/
theorem body_split {s : Snake} {h : Cell} (hH : s.Head = .done h) :
    s.body.dropLast ++ [h] = s.body :=
  List.dropLast_append_getLast? h ((Head_eq_done s h).1 hH)

/-- C18. If no two body cells are equal and the heading is one of the four directions, then
after a successful `moveSnake`, with or without feeding, no two body cells are equal. -/
theorem moveSnake_nodup (g g' : Game) (draws : List (Nat × Nat))
    (hmove : g.snake.move = EventMoveUp ∨ g.snake.move = EventMoveDown ∨
      g.snake.move = EventMoveLeft ∨ g.snake.move = EventMoveRight)
    (hnd : g.snake.body.Nodup)
    (hok : moveSnake g draws = .done (none, g')) :
    g'.snake.body.Nodup ∧
    (∀ (a b : Nat) (ha : a < g'.snake.body.length) (hb : b < g'.snake.body.length),
      a ≠ b → g'.snake.body.get ⟨a, ha⟩ ≠ g'.snake.body.get ⟨b, hb⟩) := by
  have key : g'.snake.body.Nodup := by
    obtain ⟨h, hH, -, -, hbite, hcase⟩ := moveSnake_ok_inv hok
    have hsplit := body_split hH
    have hnot : nextHead g.snake.move h ∉ g.snake.body := by
      rw [← hsplit]
      simp only [List.mem_append, List.mem_singleton, not_or]
      exact ⟨hbite, nextHead_ne_self h hmove⟩
    rcases hcase with ⟨-, f, -, rfl⟩ | ⟨-, rfl⟩
    · simp only
      refine List.nodup_append.2 ⟨hnd, List.nodup_singleton _, ?_⟩
      intro c hc hc'
      rw [List.mem_singleton] at hc'
      exact hnot (hc' ▸ hc)
    · simp only
      refine List.nodup_append.2 ⟨hnd.sublist (List.tail_sublist _), List.nodup_singleton _, ?_⟩
      intro c hc hc'
      rw [List.mem_singleton] at hc'
      exact hnot (hc' ▸ List.mem_of_mem_tail hc)
  refine ⟨key, fun a b ha hb hab heq => hab ?_⟩
  have := (List.Nodup.get_inj_iff key).1 heq
  exact Fin.mk.inj_iff.1 this

/-- Witness of C18: the initial snake on a 26x14 board steps to the right without feeding and
its four cells stay distinct. -/
theorem moveSnake_nodup_witness :
    moveSnake (gameOf 26 14 EventMoveRight [⟨1, 3⟩, ⟨2, 3⟩, ⟨3, 3⟩, ⟨4, 3⟩] ⟨5, 4⟩) []
      = .done (none, gameOf 26 14 EventMoveRight [⟨2, 3⟩, ⟨3, 3⟩, ⟨4, 3⟩, ⟨5, 3⟩] ⟨5, 4⟩) ∧
    ([⟨2, 3⟩, ⟨3, 3⟩, ⟨4, 3⟩, ⟨5, 3⟩] : List Cell).Nodup := by
  have hok : moveSnake (gameOf 26 14 EventMoveRight [⟨1, 3⟩, ⟨2, 3⟩, ⟨3, 3⟩, ⟨4, 3⟩] ⟨5, 4⟩) []
      = .done (none,
          gameOf 26 14 EventMoveRight [⟨2, 3⟩, ⟨3, 3⟩, ⟨4, 3⟩, ⟨5, 3⟩] ⟨5, 4⟩) := by
    simp [moveSnake, gameOf, boardOf, Snake.Head, nextHead]
  exact ⟨hok, (moveSnake_nodup _ _ _ (Or.inr (Or.inr (Or.inr rfl))) (by decide) hok).1⟩

/-! ## C19: everything stays on the board -/

/-- The board `update` leaves is well shaped. -/
theorem update_rect {b : Board} {s : Snake} (f : Food) {h : Cell}
    (hX : 0 ≤ b.X) (hY : 0 ≤ b.Y) (hH : s.Head = .done h) :
    ∃ b0, b.update s f = .done b0 ∧ b0.rect ∧ b0.X = b.X ∧ b0.Y = b.Y := by
  refine ⟨_, update_of_nonneg f hX hY hH, ⟨hX, hY, by simp, ?_⟩, rfl, rfl⟩
  intro col hmem
  rw [(List.mem_replicate.1 hmem).2]
  simp

/-- A cell inside a well-shaped board is a valid index of its grid. -/
theorem valid_index_of_inside {b : Board} {c : Cell} (hr : b.rect) (hin : b.inside c) :
    0 ≤ c.i ∧ 0 ≤ c.j ∧ ∃ col, b.Grid[c.i.toNat]? = some col ∧ c.j.toNat < col.length := by
  obtain ⟨hX, hY, hlen, hcols⟩ := hr
  obtain ⟨hi0, hi1, hj0, hj1⟩ := hin
  have hilt : c.i.toNat < b.Grid.length := by omega
  refine ⟨hi0, hj0, b.Grid[c.i.toNat], List.getElem?_eq_getElem hilt, ?_⟩
  rw [hcols _ (List.getElem_mem hilt)]
  omega

/-- C19. If every body cell and the food cell lie inside `[0,width) x [0,height)`, then after
a successful `moveSnake` every body cell, the new head included, and the food cell, relocated
or not, lie inside it; so `paint` then works on a grid of which each of these cells is a valid
index, and the runtime never aborts it. -/
theorem moveSnake_inside (g g' : Game) (draws : List (Nat × Nat))
    (hbody : ∀ c ∈ g.snake.body, g.board.inside c)
    (hfood : g.board.inside g.food.cell)
    (hok : moveSnake g draws = .done (none, g')) :
    g'.board.X = g.board.X ∧ g'.board.Y = g.board.Y ∧
    (∀ c ∈ g'.snake.body, g'.board.inside c) ∧
    (∃ h', g'.snake.Head = .done h' ∧ g'.board.inside h') ∧
    g'.board.inside g'.food.cell ∧
    (∃ b0, g'.board.update g'.snake g'.food = .done b0 ∧
      ∀ c ∈ g'.food.cell :: g'.snake.body,
        0 ≤ c.i ∧ 0 ≤ c.j ∧ ∃ col, b0.Grid[c.i.toNat]? = some col ∧ c.j.toNat < col.length) ∧
    (∃ r b', g'.board.paint g'.snake g'.food = .done (r, b')) := by
  obtain ⟨h, hH, hw1, hw2, -, hcase⟩ := moveSnake_ok_inv hok
  have hcand : g.board.inside (nextHead g.snake.move h) := by
    unfold Board.inside
    omega
  have hXY : g'.board.X = g.board.X ∧ g'.board.Y = g.board.Y := by
    rcases hcase with ⟨-, f, -, rfl⟩ | ⟨-, rfl⟩ <;> exact ⟨rfl, rfl⟩
  have hin' : ∀ c, g.board.inside c → g'.board.inside c := by
    intro c hc
    unfold Board.inside at hc ⊢
    rw [hXY.1, hXY.2]
    exact hc
  have hbody' : ∀ c ∈ g'.snake.body, g.board.inside c := by
    intro c hc
    rcases hcase with ⟨-, f, -, rfl⟩ | ⟨-, rfl⟩
    · simp only [List.mem_append, List.mem_singleton] at hc
      rcases hc with hc | hc
      · exact hbody c hc
      · rw [hc]; exact hcand
    · simp only [List.mem_append, List.mem_singleton] at hc
      rcases hc with hc | hc
      · exact hbody c (List.mem_of_mem_tail hc)
      · rw [hc]; exact hcand
  have hhead' : g'.snake.Head = .done (nextHead g.snake.move h) := by
    rcases hcase with ⟨-, f, -, rfl⟩ | ⟨-, rfl⟩ <;> exact Head_append _ _ _
  have hfood' : g.board.inside g'.food.cell := by
    rcases hcase with ⟨-, f, hp, rfl⟩ | ⟨-, rfl⟩
    · exact (placeFood_done hp).1
    · exact hfood
  have hX : 0 ≤ g'.board.X := by
    have := hcand.1; have := hcand.2.1; rw [hXY.1]; omega
  have hY : 0 ≤ g'.board.Y := by
    have := hcand.2.2.1; have := hcand.2.2.2; rw [hXY.2]; omega
  obtain ⟨b0, hu, hr0, hX0, hY0⟩ := update_rect g'.food hX hY hhead'
  have hin0 : ∀ c ∈ g'.food.cell :: g'.snake.body, b0.inside c := by
    intro c hc
    have hc' : g'.board.inside c := by
      rcases List.mem_cons.1 hc with h1 | h1
      · rw [h1]; exact hin' _ hfood'
      · exact hin' _ (hbody' c h1)
    unfold Board.inside at hc' ⊢
    rw [hX0, hY0]
    exact hc'
  refine ⟨hXY.1, hXY.2, fun c hc => hin' _ (hbody' c hc), ⟨_, hhead', hin' _ hcand⟩,
    hin' _ hfood', ⟨b0, hu, fun c hc => valid_index_of_inside hr0 (hin0 c hc)⟩, ?_⟩
  have hsplit := body_split hhead'
  obtain ⟨r, b', hm, -⟩ := markAll_of_inside
    (L := (g'.food.cell, IconFood) :: (nextHead g.snake.move h, IconSnakeHead) ::
      g'.snake.body.dropLast.map (fun c => (c, IconSnakeBody))) hr0
    (by
      intro p hp
      have hmem : p.1 ∈ g'.food.cell :: nextHead g.snake.move h :: g'.snake.body.dropLast := by
        rw [← paint_marks_cells]
        exact List.mem_map_of_mem Prod.fst hp
      apply hin0
      rcases List.mem_cons.1 hmem with h1 | h1
      · rw [h1]; exact List.mem_cons_self _ _
      · apply List.mem_cons_of_mem
        rw [← hsplit]
        rcases List.mem_cons.1 h1 with h2 | h2
        · rw [h2]; simp
        · exact List.mem_append_left _ h2)
  exact ⟨r, b', by rw [paint_eq_markAll hu hhead']; exact hm⟩

/-- Witness of C19: the initial snake on a 26x14 board eats the food at `(5,3)`; its five cells
and the new food cell `(7,8)` lie inside the board. -/
theorem moveSnake_inside_witness :
    moveSnake (gameOf 26 14 EventMoveRight [⟨1, 3⟩, ⟨2, 3⟩, ⟨3, 3⟩, ⟨4, 3⟩] ⟨5, 3⟩) [(7, 8)]
      = .done (none,
          { gameOf 26 14 EventMoveRight [⟨1, 3⟩, ⟨2, 3⟩, ⟨3, 3⟩, ⟨4, 3⟩, ⟨5, 3⟩] ⟨7, 8⟩ with
            board := { boardOf 26 14 with Score := 10 } }) ∧
    (∀ c ∈ [(⟨1, 3⟩ : Cell), ⟨2, 3⟩, ⟨3, 3⟩, ⟨4, 3⟩, ⟨5, 3⟩],
      Board.inside { boardOf 26 14 with Score := 10 } c) ∧
    Board.inside { boardOf 26 14 with Score := 10 } ⟨7, 8⟩ := by
  have hok : moveSnake (gameOf 26 14 EventMoveRight [⟨1, 3⟩, ⟨2, 3⟩, ⟨3, 3⟩, ⟨4, 3⟩] ⟨5, 3⟩)
      [(7, 8)] = .done (none,
          { gameOf 26 14 EventMoveRight [⟨1, 3⟩, ⟨2, 3⟩, ⟨3, 3⟩, ⟨4, 3⟩, ⟨5, 3⟩] ⟨7, 8⟩ with
            board := { boardOf 26 14 with Score := 10 } }) := by
    simp [moveSnake, gameOf, boardOf, Snake.Head, nextHead, placeFood, Intn, Snake.IsOnBody]
  have key := moveSnake_inside _ _ _
    (by
      intro c hc
      simp only [gameOf, List.mem_cons, List.mem_singleton, List.not_mem_nil, or_false] at hc
      rcases hc with rfl | rfl | rfl | rfl <;> simp [Board.inside, gameOf, boardOf])
    (by simp [Board.inside, gameOf, boardOf]) hok
  exact ⟨hok, key.2.2.1, key.2.2.2.2.1⟩

/-! ## Contiguous bodies -/

theorem contiguous_iff_chain (l : List Cell) : contiguous l ↔ List.Chain' unitStep l := by
  rw [List.chain'_iff_get]
  unfold contiguous
  constructor
  · intro h k hk
    exact h k (by omega)
  · intro h k hk
    exact h k (by omega)

/-- With a heading among the four directions the candidate head is one unit step from the
head. -/
theorem unitStep_nextHead {m : Event} (h : Cell)
    (hm : m = EventMoveUp ∨ m = EventMoveDown ∨ m = EventMoveLeft ∨ m = EventMoveRight) :
    unitStep h (nextHead m h) := by
  obtain ⟨r, l, u, d, -⟩ := nextHead_offsets m h
  unfold unitStep
  rcases hm with hm | hm | hm | hm
  · rw [u hm]; left; simp
  · rw [d hm]; left; simp
  · rw [l hm]; right; simp
  · rw [r hm]; right; simp

/-- Appending a cell one unit step from the last cell keeps a body contiguous. -/
theorem contiguous_append {l : List Cell} {c : Cell} (hl : contiguous l)
    (hlast : ∀ x, l.getLast? = some x → unitStep x c) : contiguous (l ++ [c]) := by
  rw [contiguous_iff_chain] at hl ⊢
  refine List.Chain'.append hl (List.chain'_singleton c) ?_
  intro x hx y hy
  simp only [List.head?_cons, Option.mem_def, Option.some.injEq] at hy
  subst hy
  exact hlast x hx

theorem getLast?_tail_eq {l : List Cell} {x : Cell} (hx : l.tail.getLast? = some x) :
    l.getLast? = some x := by
  cases l with
  | nil => simp at hx
  | cons a t =>
    cases t with
    | nil => simp at hx
    | cons b t' =>
      simp only [List.tail_cons] at hx
      rw [List.getLast?_cons_cons]
      exact hx

/-- With a heading among the four directions a call of `moveSnake` that returns keeps the body
non-empty, ending in its head, and contiguous. -/
theorem moveSnake_keeps_contiguous {g g' : Game} {draws : List (Nat × Nat)} {r : Option Err}
    (hmove : g.snake.move = EventMoveUp ∨ g.snake.move = EventMoveDown ∨
      g.snake.move = EventMoveLeft ∨ g.snake.move = EventMoveRight)
    (hne : g.snake.body ≠ []) (hc : contiguous g.snake.body)
    (hrun : moveSnake g draws = .done (r, g')) :
    g'.snake.body ≠ [] ∧
    (∃ last, g'.snake.Head = .done last ∧ g'.snake.body.getLast? = some last) ∧
    contiguous g'.snake.body := by
  cases r with
  | some e =>
    obtain ⟨rfl, h, hH, -⟩ := moveSnake_err_inv hrun
    exact ⟨hne, ⟨h, hH, (Head_eq_done _ h).1 hH⟩, hc⟩
  | none =>
    obtain ⟨h, hH, -, -, -, hcase⟩ := moveSnake_ok_inv hrun
    have hlast := (Head_eq_done _ h).1 hH
    have hstep := unitStep_nextHead h hmove
    rcases hcase with ⟨-, f, -, rfl⟩ | ⟨-, rfl⟩
    · refine ⟨by simp, ⟨_, Head_append _ _ _, by simp⟩, contiguous_append hc ?_⟩
      intro x hx
      rw [hlast] at hx
      rw [← Option.some.inj hx]
      exact hstep
    · refine ⟨by simp, ⟨_, Head_append _ _ _, by simp⟩, contiguous_append ?_ ?_⟩
      · rw [contiguous_iff_chain] at hc ⊢
        exact hc.tail
      · intro x hx
        have := getLast?_tail_eq hx
        rw [hlast] at this
        rw [← Option.some.inj this]
        exact hstep

/-- The body `NewSnake` builds is contiguous. -/
theorem NewSnake_contiguous : contiguous NewSnake.body := by
  rw [contiguous_iff_chain, NewSnake_body]
  simp only [List.chain'_cons, List.chain'_singleton]
  decide

/-! ## C16: the food is never on the snake -/

/-- An event either keeps body and food or, for a restart, resets them to the initial ones. -/
theorem eventHandler_body_food {g g' : Game} {ev : Event}
    (h : eventHandler g ev = .done g') :
    (g'.snake.body = g.snake.body ∧ g'.food = g.food) ∨
    (g'.snake = NewSnake ∧ g'.food = NewFood) := by
  have hkeep : ∀ g1 : Game, Run.done g1 = Run.done g' →
      g1.snake.body = g.snake.body → g1.food = g.food →
      (g'.snake.body = g.snake.body ∧ g'.food = g.food) ∨
      (g'.snake = NewSnake ∧ g'.food = NewFood) := by
    intro g1 heq hb hf
    rw [← Run.done.inj heq]
    exact Or.inl ⟨hb, hf⟩
  unfold eventHandler at h
  by_cases h1 : ev = EventQuit
  · rw [if_pos h1] at h
    exact hkeep _ h rfl rfl
  rw [if_neg h1] at h
  by_cases h2 : ev = EventRestart
  · rw [if_pos h2] at h
    right
    unfold restart at h
    simp only at h
    cases hb : NewBoard g.board.X g.board.Y NewSnake NewFood g.speed with
    | panics => simp [hb] at h
    | spins => simp [hb] at h
    | done board =>
      simp only [hb, Run.done.injEq] at h
      rw [← h]
      exact ⟨rfl, rfl⟩
  rw [if_neg h2] at h
  split_ifs at h <;> exact hkeep _ h rfl rfl

/-- The food of the initial configuration is off the initial snake. -/
theorem NewFood_off_NewSnake : ∀ c ∈ NewSnake.body, NewFood.cell ≠ c := by
  intro c hc
  rw [NewSnake_body] at hc
  simp only [List.mem_cons, List.mem_singleton, List.not_mem_nil, or_false] at hc
  rcases hc with rfl | rfl | rfl | rfl <;> simp [NewFood]

/-- A call of `moveSnake` that returns keeps the food off the snake. -/
theorem moveSnake_food_off {g g' : Game} {draws : List (Nat × Nat)} {r : Option Err}
    (hoff : ∀ c ∈ g.snake.body, g.food.cell ≠ c)
    (hrun : moveSnake g draws = .done (r, g')) :
    ∀ c ∈ g'.snake.body, g'.food.cell ≠ c := by
  cases r with
  | some e =>
    obtain ⟨rfl, -⟩ := moveSnake_err_inv hrun
    exact hoff
  | none =>
    obtain ⟨h, hH, -, -, -, hcase⟩ := moveSnake_ok_inv hrun
    rcases hcase with ⟨hf, f, hp, rfl⟩ | ⟨hf, rfl⟩
    · obtain ⟨-, hne, hbody⟩ := placeFood_done hp
      intro c hc heq
      simp only [List.mem_append, List.mem_singleton] at hc
      simp only at heq
      rcases hc with hc | hc
      · exact hbody (heq ▸ hc)
      · apply hne
        rw [heq, hc, hf]
    · intro c hc heq
      simp only [List.mem_append, List.mem_singleton] at hc
      simp only at heq
      rcases hc with hc | hc
      · exact hoff c (List.mem_of_mem_tail hc) heq
      · apply hf
        rw [← hc, ← heq]

/-- C16. If the food cell equals no body cell before `moveSnake`, it equals none after it,
whether the move fails, succeeds without feeding, or succeeds with feeding and relocates the
food. The initial configuration (snake in row 3, columns 1 to 4; food at column 5, row 4) has
the food off the snake, so the food is off the snake in every game reached from a start by
events (a restart among them), steps and paints. -/
theorem food_off_snake :
    (∀ (g g' : Game) (draws : List (Nat × Nat)) (r : Option Err),
      (∀ c ∈ g.snake.body, g.food.cell ≠ c) →
      moveSnake g draws = .done (r, g') →
      ∀ c ∈ g'.snake.body, g'.food.cell ≠ c) ∧
    (NewSnake.body = [⟨1, 3⟩, ⟨2, 3⟩, ⟨3, 3⟩, ⟨4, 3⟩] ∧ NewFood.cell = ⟨5, 4⟩ ∧
      ∀ c ∈ NewSnake.body, NewFood.cell ≠ c) ∧
    (∀ g : Game, Reached g → ∀ c ∈ g.snake.body, g.food.cell ≠ c) := by
  refine ⟨fun g g' draws r hoff hrun => moveSnake_food_off hoff hrun,
    ⟨NewSnake_body, rfl, NewFood_off_NewSnake⟩, ?_⟩
  intro g hg
  induction hg with
  | start w h speed g hnew =>
    unfold NewGame at hnew
    simp only at hnew
    cases hb : NewBoard w h NewSnake NewFood speed with
    | panics => simp [hb] at hnew
    | spins => simp [hb] at hnew
    | done board =>
      simp only [hb, Run.done.injEq] at hnew
      subst hnew
      exact NewFood_off_NewSnake
  | event g g' ev _ hev ih =>
    rcases eventHandler_body_food hev with ⟨hb, hf⟩ | ⟨hs, hf⟩
    · rw [hb, hf]
      exact ih
    · rw [hs, hf]
      exact NewFood_off_NewSnake
  | step g g' draws r _ hrun ih => exact moveSnake_food_off ih hrun
  | painted g r b' _ _ ih => exact ih

/-- Witness of C16: the initial snake on a 26x14 board eats the food at `(5,3)`; the new food
at `(7,8)` is on none of the five cells of the grown snake. -/
theorem food_off_snake_witness :
    moveSnake (gameOf 26 14 EventMoveRight [⟨1, 3⟩, ⟨2, 3⟩, ⟨3, 3⟩, ⟨4, 3⟩] ⟨5, 3⟩)
        [(3, 3), (7, 8)]
      = .done (none,
          { gameOf 26 14 EventMoveRight [⟨1, 3⟩, ⟨2, 3⟩, ⟨3, 3⟩, ⟨4, 3⟩, ⟨5, 3⟩] ⟨7, 8⟩ with
            board := { boardOf 26 14 with Score := 10 } }) ∧
    (∀ c ∈ [(⟨1, 3⟩ : Cell), ⟨2, 3⟩, ⟨3, 3⟩, ⟨4, 3⟩, ⟨5, 3⟩], (⟨7, 8⟩ : Cell) ≠ c) := by
  have hok : moveSnake (gameOf 26 14 EventMoveRight [⟨1, 3⟩, ⟨2, 3⟩, ⟨3, 3⟩, ⟨4, 3⟩] ⟨5, 3⟩)
      [(3, 3), (7, 8)] = .done (none,
          { gameOf 26 14 EventMoveRight [⟨1, 3⟩, ⟨2, 3⟩, ⟨3, 3⟩, ⟨4, 3⟩, ⟨5, 3⟩] ⟨7, 8⟩ with
            board := { boardOf 26 14 with Score := 10 } }) := by
    simp [moveSnake, gameOf, boardOf, Snake.Head, nextHead, placeFood, Intn, Snake.IsOnBody]
  exact ⟨hok, food_off_snake.1 _ _ _ _
    (by
      intro c hc
      simp only [gameOf, List.mem_cons, List.mem_singleton, List.not_mem_nil, or_false] at hc
      rcases hc with rfl | rfl | rfl | rfl <;> simp [gameOf])
    hok⟩

/-! ## C13: room for the new food -/

/-- When every cell of the board is the old food cell or on the body, the placement loop stops
on no draw. -/
theorem placeFood_spins {X Y : Int} {food : Food} {snake : Snake} (hX : 0 < X) (hY : 0 < Y)
    (hfull : ∀ c : Cell, (0 ≤ c.i ∧ c.i < X ∧ 0 ≤ c.j ∧ c.j < Y) →
      c = food.cell ∨ c ∈ snake.body) :
    ∀ draws : List (Nat × Nat), placeFood X Y food snake draws = .spins := by
  intro draws
  induction draws with
  | nil => rfl
  | cons d rest ih =>
    obtain ⟨r1, r2⟩ := d
    unfold placeFood
    simp only [Intn, if_neg (not_le.2 hX), if_neg (not_le.2 hY)]
    rw [if_neg]
    · exact ih
    · rintro ⟨hne, hoff⟩
      rcases hfull ⟨(r1 : Int) % X, (r2 : Int) % Y⟩
        ⟨Int.emod_nonneg _ (by omega), Int.emod_lt_of_pos _ hX,
          Int.emod_nonneg _ (by omega), Int.emod_lt_of_pos _ hY⟩ with h1 | h1
      · exact hne h1
      · apply hoff
        simp only [Snake.IsOnBody, List.any_eq_true, beq_iff_eq]
        exact ⟨_, h1, rfl⟩

/-- The placement loop stops at once on the draw of a cell of the board that is neither the
old food cell nor on the body. -/
theorem placeFood_hit {X Y : Int} {food : Food} {snake : Snake} {c : Cell}
    (hin : 0 ≤ c.i ∧ c.i < X ∧ 0 ≤ c.j ∧ c.j < Y) (hne : c ≠ food.cell)
    (hoff : c ∉ snake.body) (rest : List (Nat × Nat)) :
    placeFood X Y food snake ((c.i.toNat, c.j.toNat) :: rest) = .done c := by
  obtain ⟨h1, h2, h3, h4⟩ := hin
  have hi : ((c.i.toNat : Nat) : Int) % X = c.i := by
    rw [Int.toNat_of_nonneg h1]
    exact Int.emod_eq_of_lt h1 h2
  have hj : ((c.j.toNat : Nat) : Int) % Y = c.j := by
    rw [Int.toNat_of_nonneg h3]
    exact Int.emod_eq_of_lt h3 h4
  unfold placeFood
  simp only [Intn, if_neg (show ¬ X ≤ 0 by omega), if_neg (show ¬ Y ≤ 0 by omega), hi, hj]
  rw [if_pos]
  refine ⟨hne, ?_⟩
  intro hon
  apply hoff
  simp only [Snake.IsOnBody, List.any_eq_true, beq_iff_eq] at hon
  obtain ⟨x, hx, hcx⟩ := hon
  have hcx' : c = x := hcx
  rw [hcx']
  exact hx

/-- A feeding step whose placement loop does not stop within the draws does not return. -/
theorem moveSnake_spins {g : Game} {h : Cell} {draws : List (Nat × Nat)}
    (hH : g.snake.Head = .done h)
    (hw : ¬ (((nextHead g.snake.move h).i < 0 ∨ (nextHead g.snake.move h).j < 0) ∨
      ((nextHead g.snake.move h).i ≥ g.board.X ∨ (nextHead g.snake.move h).j ≥ g.board.Y)))
    (hb : nextHead g.snake.move h ∉ g.snake.body.dropLast)
    (hf : nextHead g.snake.move h = g.food.cell)
    (hp : placeFood g.board.X g.board.Y g.food g.snake draws = .spins) :
    moveSnake g draws = .spins := by
  unfold moveSnake
  simp only [hH]
  rw [if_neg hw, if_neg (fun hc => hb ((any_eq_iff_mem _ _).mp hc)), if_pos hf]
  simp only [hp]

/-- A board holds a cell outside any set of fewer cells than it has. -/
theorem exists_free_cell {X Y : Int} (hX : 0 < X) (hY : 0 < Y) (occupied : Finset Cell)
    (hcard : (occupied.card : Int) < X * Y) :
    ∃ c : Cell, (0 ≤ c.i ∧ c.i < X ∧ 0 ≤ c.j ∧ c.j < Y) ∧ c ∉ occupied := by
  by_contra hno
  have hall : ∀ c : Cell, (0 ≤ c.i ∧ c.i < X ∧ 0 ≤ c.j ∧ c.j < Y) → c ∈ occupied := by
    intro c hc
    by_contra hc'
    exact hno ⟨c, hc, hc'⟩
  have hinj : Function.Injective
      (fun p : Nat × Nat => ({ i := (p.1 : Int), j := (p.2 : Int) } : Cell)) := by
    rintro ⟨a, b⟩ ⟨a', b'⟩ heq
    simp only [Cell.mk.injEq, Nat.cast_inj] at heq
    rw [heq.1, heq.2]
  have hsub : (Finset.range X.toNat ×ˢ Finset.range Y.toNat).image
      (fun p : Nat × Nat => ({ i := (p.1 : Int), j := (p.2 : Int) } : Cell)) ⊆ occupied := by
    intro c hc
    obtain ⟨p, hp, rfl⟩ := Finset.mem_image.1 hc
    rw [Finset.mem_product, Finset.mem_range, Finset.mem_range] at hp
    apply hall
    simp only
    omega
  have hle := Finset.card_le_card hsub
  rw [Finset.card_image_of_injective _ hinj, Finset.card_product, Finset.card_range,
    Finset.card_range] at hle
  have hXY : ((X.toNat * Y.toNat : Nat) : Int) = X * Y := by
    rw [Nat.cast_mul, Int.toNat_of_nonneg (le_of_lt hX), Int.toNat_of_nonneg (le_of_lt hY)]
  have hle' : ((X.toNat * Y.toNat : Nat) : Int) ≤ (occupied.card : Int) := by
    exact_mod_cast hle
  rw [hXY] at hle'
  omega

/-- Counterexample to C13: on a 2x2 board the snake `[(0,0),(0,1),(1,1)]`, heading Up, is
about to eat the food at `(1,0)`: the candidate head is inside the board, is the food cell and
is on no body cell, and the body occupies 3 cells, fewer than the 4 of the board. Yet every
cell of the board is the food cell or on the body, and the placement loop of `moveSnake` stops
on no sequence of draws. -/
theorem no_room_below_full :
    Snake.Head { move := EventMoveUp, body := [⟨0, 0⟩, ⟨0, 1⟩, ⟨1, 1⟩] } = .done ⟨1, 1⟩ ∧
    nextHead EventMoveUp ⟨1, 1⟩ = ⟨1, 0⟩ ∧
    (boardOf 2 2).inside ⟨1, 0⟩ ∧
    (⟨1, 0⟩ : Cell) ∉ [(⟨0, 0⟩ : Cell), ⟨0, 1⟩, ⟨1, 1⟩] ∧
    (([(⟨0, 0⟩ : Cell), ⟨0, 1⟩, ⟨1, 1⟩].toFinset.card : Int)
      < (boardOf 2 2).X * (boardOf 2 2).Y) ∧
    (∀ c : Cell, (boardOf 2 2).inside c →
      c = ⟨1, 0⟩ ∨ c ∈ [(⟨0, 0⟩ : Cell), ⟨0, 1⟩, ⟨1, 1⟩]) ∧
    (∀ draws : List (Nat × Nat),
      moveSnake (gameOf 2 2 EventMoveUp [⟨0, 0⟩, ⟨0, 1⟩, ⟨1, 1⟩] ⟨1, 0⟩) draws = .spins) := by
  have hfull : ∀ c : Cell, (boardOf 2 2).inside c →
      c = ⟨1, 0⟩ ∨ c ∈ [(⟨0, 0⟩ : Cell), ⟨0, 1⟩, ⟨1, 1⟩] := by
    rintro ⟨i, j⟩ ⟨h1, h2, h3, h4⟩
    simp only [boardOf] at h1 h2 h3 h4
    have hi : i = 0 ∨ i = 1 := by omega
    have hj : j = 0 ∨ j = 1 := by omega
    rcases hi with rfl | rfl <;> rcases hj with rfl | rfl <;> simp
  refine ⟨by simp [Snake.Head], ?_, ?_, by simp, by decide, hfull, ?_⟩
  · simp [nextHead, EventMoveUp, EventMoveRight, EventMoveLeft]
  · simp [Board.inside, boardOf]
  · intro draws
    have hsp := @placeFood_spins 2 2 { cell := ⟨1, 0⟩ }
      { move := EventMoveUp, body := [⟨0, 0⟩, ⟨0, 1⟩, ⟨1, 1⟩] }
      (by decide) (by decide) hfull draws
    refine moveSnake_spins (h := ⟨1, 1⟩) ?_ ?_ ?_ ?_ hsp
    · simp [gameOf, Snake.Head]
    · simp [gameOf, boardOf, nextHead, EventMoveUp, EventMoveRight, EventMoveLeft]
    · simp [gameOf, nextHead, EventMoveUp, EventMoveRight, EventMoveLeft]
    · simp [gameOf, nextHead, EventMoveUp, EventMoveRight, EventMoveLeft]

/-- C13, amended. For every state about to feed (the candidate head is inside the board, is
the food cell and is on no body cell) in which the snake body occupies fewer than
`width*height - 1` cells, so that body and food cell together occupy fewer cells than the
board has, some cell of the board is neither the previous food cell nor on the body; the
placement loop stops on the draw of that cell, and `moveSnake` succeeds with the food there. -/
theorem placeFood_has_room (g : Game) (h : Cell)
    (hH : g.snake.Head = .done h)
    (hin : g.board.inside (nextHead g.snake.move h))
    (hfeed : nextHead g.snake.move h = g.food.cell)
    (hoff : nextHead g.snake.move h ∉ g.snake.body)
    (hroom : (g.snake.body.toFinset.card : Int) + 1 < g.board.X * g.board.Y) :
    ∃ c : Cell, g.board.inside c ∧ c ≠ g.food.cell ∧ c ∉ g.snake.body ∧
      ∃ (draws : List (Nat × Nat)) (g' : Game),
        placeFood g.board.X g.board.Y g.food g.snake draws = .done c ∧
        moveSnake g draws = .done (none, g') ∧ g'.food.cell = c := by
  obtain ⟨h1, h2, h3, h4⟩ := hin
  have hX : 0 < g.board.X := by omega
  have hY : 0 < g.board.Y := by omega
  have hcard : ((insert g.food.cell g.snake.body.toFinset).card : Int)
      < g.board.X * g.board.Y := by
    have := Finset.card_insert_le g.food.cell g.snake.body.toFinset
    have : ((insert g.food.cell g.snake.body.toFinset).card : Int)
        ≤ (g.snake.body.toFinset.card : Int) + 1 := by exact_mod_cast this
    omega
  obtain ⟨c, hc, hnot⟩ := exists_free_cell hX hY _ hcard
  rw [Finset.mem_insert, List.mem_toFinset, not_or] at hnot
  have hp := @placeFood_hit g.board.X g.board.Y g.food g.snake c hc hnot.1 hnot.2 []
  refine ⟨c, hc, hnot.1, hnot.2, _, _, hp, moveSnake_feed hH ?_ ?_ hfeed hp, rfl⟩
  · omega
  · exact fun hmem => hoff (List.mem_of_mem_dropLast hmem)

/-- Witness of C13, amended: on a 26x14 board the initial snake, 4 cells, with the food one
step ahead of its head at `(5,3)`. -/
theorem placeFood_has_room_witness :
    ∃ c : Cell, (boardOf 26 14).inside c ∧ c ≠ ⟨5, 3⟩ ∧
      c ∉ [(⟨1, 3⟩ : Cell), ⟨2, 3⟩, ⟨3, 3⟩, ⟨4, 3⟩] ∧
      ∃ (draws : List (Nat × Nat)) (g' : Game),
        placeFood 26 14 { cell := ⟨5, 3⟩ }
          { move := EventMoveRight, body := [⟨1, 3⟩, ⟨2, 3⟩, ⟨3, 3⟩, ⟨4, 3⟩] } draws
          = .done c ∧
        moveSnake (gameOf 26 14 EventMoveRight [⟨1, 3⟩, ⟨2, 3⟩, ⟨3, 3⟩, ⟨4, 3⟩] ⟨5, 3⟩) draws
          = .done (none, g') ∧ g'.food.cell = c :=
  placeFood_has_room (gameOf 26 14 EventMoveRight [⟨1, 3⟩, ⟨2, 3⟩, ⟨3, 3⟩, ⟨4, 3⟩] ⟨5, 3⟩)
    ⟨4, 3⟩ (by simp [gameOf, Snake.Head])
    (by simp [Board.inside, gameOf, boardOf, nextHead])
    (by simp [gameOf, nextHead])
    (by simp [gameOf, nextHead])
    (by simp only [gameOf, boardOf]; decide)

/-! ## C15: the snake invariant -/

/-- A call of `moveSnake` that returns keeps the heading. -/
theorem moveSnake_move {g g' : Game} {draws : List (Nat × Nat)} {r : Option Err}
    (hrun : moveSnake g draws = .done (r, g')) : g'.snake.move = g.snake.move := by
  cases r with
  | some e =>
    obtain ⟨rfl, -⟩ := moveSnake_err_inv hrun
    rfl
  | none =>
    obtain ⟨h, -, -, -, -, hcase⟩ := moveSnake_ok_inv hrun
    rcases hcase with ⟨-, f, -, rfl⟩ | ⟨-, rfl⟩ <;> rfl

/-- An event keeps the snake, turns its heading to one of the four directions, or, for a
restart, replaces it by the initial snake. -/
theorem eventHandler_snake {g g' : Game} {ev : Event}
    (h : eventHandler g ev = .done g') :
    g'.snake = g.snake ∨
    (g'.snake.body = g.snake.body ∧
      (g'.snake.move = EventMoveUp ∨ g'.snake.move = EventMoveDown ∨
        g'.snake.move = EventMoveLeft ∨ g'.snake.move = EventMoveRight)) ∨
    g'.snake = NewSnake := by
  have hkeep : ∀ g1 : Game, Run.done g1 = Run.done g' →
      (g1.snake = g.snake ∨
        (g1.snake.body = g.snake.body ∧
          (g1.snake.move = EventMoveUp ∨ g1.snake.move = EventMoveDown ∨
            g1.snake.move = EventMoveLeft ∨ g1.snake.move = EventMoveRight)) ∨
        g1.snake = NewSnake) →
      (g'.snake = g.snake ∨
        (g'.snake.body = g.snake.body ∧
          (g'.snake.move = EventMoveUp ∨ g'.snake.move = EventMoveDown ∨
            g'.snake.move = EventMoveLeft ∨ g'.snake.move = EventMoveRight)) ∨
        g'.snake = NewSnake) := by
    intro g1 heq hg1
    rw [← Run.done.inj heq]
    exact hg1
  unfold eventHandler at h
  by_cases h1 : ev = EventQuit
  · rw [if_pos h1] at h
    exact hkeep _ h (Or.inl rfl)
  rw [if_neg h1] at h
  by_cases h2 : ev = EventRestart
  · rw [if_pos h2] at h
    right; right
    unfold restart at h
    simp only at h
    cases hb : NewBoard g.board.X g.board.Y NewSnake NewFood g.speed with
    | panics => simp [hb] at h
    | spins => simp [hb] at h
    | done board =>
      simp only [hb, Run.done.injEq] at h
      rw [← h]
  rw [if_neg h2] at h
  by_cases h3 : ev = EventPause
  · rw [if_pos h3] at h
    exact hkeep _ h (Or.inl rfl)
  rw [if_neg h3] at h
  by_cases h4 : ev = EventStart
  · rw [if_pos h4] at h
    exact hkeep _ h (Or.inl rfl)
  rw [if_neg h4] at h
  by_cases h5 : ev = EventMoveRight
  · rw [if_pos h5] at h
    split_ifs at h
    · exact hkeep _ h (Or.inr (Or.inl ⟨rfl, Or.inr (Or.inr (Or.inr rfl))⟩))
    · exact hkeep _ h (Or.inl rfl)
  rw [if_neg h5] at h
  by_cases h6 : ev = EventMoveLeft
  · rw [if_pos h6] at h
    split_ifs at h
    · exact hkeep _ h (Or.inr (Or.inl ⟨rfl, Or.inr (Or.inr (Or.inl rfl))⟩))
    · exact hkeep _ h (Or.inl rfl)
  rw [if_neg h6] at h
  by_cases h7 : ev = EventMoveUp
  · rw [if_pos h7] at h
    split_ifs at h
    · exact hkeep _ h (Or.inr (Or.inl ⟨rfl, Or.inl rfl⟩))
    · exact hkeep _ h (Or.inl rfl)
  rw [if_neg h7] at h
  by_cases h8 : ev = EventMoveDown
  · rw [if_pos h8] at h
    split_ifs at h
    · exact hkeep _ h (Or.inr (Or.inl ⟨rfl, Or.inr (Or.inl rfl)⟩))
    · exact hkeep _ h (Or.inl rfl)
  rw [if_neg h8] at h
  exact hkeep _ h (Or.inl rfl)

/-- In every reached game the heading is one of the four directions and the body is non-empty
and contiguous. -/
theorem Reached_snake {g : Game} (hg : Reached g) :
    (g.snake.move = EventMoveUp ∨ g.snake.move = EventMoveDown ∨
      g.snake.move = EventMoveLeft ∨ g.snake.move = EventMoveRight) ∧
    g.snake.body ≠ [] ∧ contiguous g.snake.body := by
  have hnew : (NewSnake.move = EventMoveUp ∨ NewSnake.move = EventMoveDown ∨
      NewSnake.move = EventMoveLeft ∨ NewSnake.move = EventMoveRight) ∧
      NewSnake.body ≠ [] ∧ contiguous NewSnake.body :=
    ⟨Or.inr (Or.inr (Or.inr rfl)), by simp [NewSnake_body], NewSnake_contiguous⟩
  induction hg with
  | start w h speed g hnew' =>
    unfold NewGame at hnew'
    simp only at hnew'
    cases hb : NewBoard w h NewSnake NewFood speed with
    | panics => simp [hb] at hnew'
    | spins => simp [hb] at hnew'
    | done board =>
      simp only [hb, Run.done.injEq] at hnew'
      rw [← hnew']
      exact hnew
  | event g g' ev _ hev ih =>
    rcases eventHandler_snake hev with hs | ⟨hb, hm⟩ | hs
    · rw [hs]; exact ih
    · rw [hb]; exact ⟨hm, ih.2⟩
    · rw [hs]; exact hnew
  | step g g' draws r _ hrun ih =>
    obtain ⟨h1, -, h3⟩ := moveSnake_keeps_contiguous ih.1 ih.2.1 ih.2.2 hrun
    exact ⟨by rw [moveSnake_move hrun]; exact ih.1, h1, h3⟩
  | painted g r b' _ _ ih => exact ih

/-- C15. `moveSnake` preserves the snake invariant. In every game reached from a start by
events, steps and paints the heading is one of the four directions (the only values the code
ever gives it), and there, as in any game with such a heading: if the body is non-empty and
every two consecutive body cells are one unit step apart, then after any call of `moveSnake`
that returns, failed or successful, feeding or not, the body is again non-empty, `Head()` is its
last element, and every two consecutive cells are one unit step apart. The body built by
`NewSnake` satisfies the invariant, and so does the body of every reached game. -/
theorem moveSnake_contiguous :
    (∀ g : Game, Reached g →
      (g.snake.move = EventMoveUp ∨ g.snake.move = EventMoveDown ∨
        g.snake.move = EventMoveLeft ∨ g.snake.move = EventMoveRight)) ∧
    (∀ (g g' : Game) (draws : List (Nat × Nat)) (r : Option Err),
      Reached g →
      g.snake.body ≠ [] → contiguous g.snake.body →
      moveSnake g draws = .done (r, g') →
      g'.snake.body ≠ [] ∧
      (∃ last, g'.snake.Head = .done last ∧ g'.snake.body.getLast? = some last) ∧
      contiguous g'.snake.body) ∧
    (∀ (g g' : Game) (draws : List (Nat × Nat)) (r : Option Err),
      (g.snake.move = EventMoveUp ∨ g.snake.move = EventMoveDown ∨
        g.snake.move = EventMoveLeft ∨ g.snake.move = EventMoveRight) →
      g.snake.body ≠ [] → contiguous g.snake.body →
      moveSnake g draws = .done (r, g') →
      g'.snake.body ≠ [] ∧
      (∃ last, g'.snake.Head = .done last ∧ g'.snake.body.getLast? = some last) ∧
      contiguous g'.snake.body) ∧
    (NewSnake.body ≠ [] ∧ NewSnake.Head = .done ⟨4, 3⟩ ∧
      NewSnake.body.getLast? = some ⟨4, 3⟩ ∧ contiguous NewSnake.body) ∧
    (∀ g : Game, Reached g →
      g.snake.body ≠ [] ∧
      (∃ last, g.snake.Head = .done last ∧ g.snake.body.getLast? = some last) ∧
      contiguous g.snake.body) := by
  refine ⟨fun g hg => (Reached_snake hg).1, ?_, ?_, ?_, ?_⟩
  · intro g g' draws r hg hne hc hrun
    exact moveSnake_keeps_contiguous (Reached_snake hg).1 hne hc hrun
  · intro g g' draws r hmove hne hc hrun
    exact moveSnake_keeps_contiguous hmove hne hc hrun
  · exact ⟨by simp [NewSnake_body], NewSnake_Head, by simp [NewSnake_body],
      NewSnake_contiguous⟩
  · intro g hg
    obtain ⟨-, hne, hc⟩ := Reached_snake hg
    refine ⟨hne, ?_, hc⟩
    have hl := List.getLast?_eq_getLast _ hne
    exact ⟨_, (Head_eq_done _ _).2 hl, hl⟩

/-- Witness of C15: a fresh 26x14 game is reached, its body is non-empty and contiguous, and
its first step, to `[(2,3),(3,3),(4,3),(5,3)]`, leaves a body that is non-empty, ends in its
head and is contiguous. -/
theorem moveSnake_contiguous_witness :
    ∃ g0 g1 : Game, NewGame 26 14 Fast = .done g0 ∧ Reached g0 ∧
      g0.snake.body ≠ [] ∧ contiguous g0.snake.body ∧
      moveSnake g0 [] = .done (none, g1) ∧
      g1.snake.body = [⟨2, 3⟩, ⟨3, 3⟩, ⟨4, 3⟩, ⟨5, 3⟩] ∧
      g1.snake.body ≠ [] ∧
      (∃ last, g1.snake.Head = .done last ∧ g1.snake.body.getLast? = some last) ∧
      contiguous g1.snake.body := by
  have h0 := NewGame_eq (w := 26) (h := 14) (by decide) (by decide) Fast
  have hr := Reached.start 26 14 Fast _ h0
  have hne : NewSnake.body ≠ [] := by simp [NewSnake_body]
  have hok := moveSnake_plain (g :=
    { board :=
        { X := 26, Y := 14, Score := 0, Round := 0, Speed := Fast, Head := ⟨4, 3⟩, Length := 4,
          Food := ⟨0, 0⟩, IsPaused := true, Errors := "",
          Grid := List.replicate (26 : Int).toNat (List.replicate (14 : Int).toNat 0) },
      food := NewFood, snake := NewSnake, speed := Fast, paused := true }) []
    (h := ⟨4, 3⟩) NewSnake_Head (by simp [nextHead, NewSnake])
    (by simp [nextHead, NewSnake, NewSnake.loop]) (by simp [nextHead, NewSnake, NewFood])
  have key := moveSnake_contiguous.2.1 _ _ _ _ hr hne NewSnake_contiguous hok
  refine ⟨_, _, h0, hr, hne, NewSnake_contiguous, hok, ?_, key.1, key.2.1, key.2.2⟩
  simp [nextHead, NewSnake, NewSnake.loop]

/-! ## C7: restart and the channel `hold` -/

theorem eventHandlerHold_restart_blocked (g : Game) (tokens : Nat) (h : 1 ≤ tokens) :
    eventHandlerHold g tokens EventRestart
      = .done (.blocked { g with paused := false } tokens) := by
  unfold eventHandlerHold
  rw [if_neg (by decide), if_pos rfl]
  have hs : sendHold tokens = none := by
    unfold sendHold
    rw [if_neg (by omega)]
  simp only [hs]

theorem eventHandlerHold_restart_free (g : Game) :
    eventHandlerHold g 0 EventRestart =
      match eventHandler g EventRestart with
      | .done g1 => .done (.finished g1 1)
      | .panics => .panics
      | .spins => .spins := by
  rw [eventHandler_restart_eq]
  unfold eventHandlerHold
  rw [if_neg (by decide), if_pos rfl]
  rfl

/-- The handler with the channel, in terms of the handling that runs to its end: an event
with a send (Quit, Restart, Start) is blocked when `hold` holds a token, after `paused` is
cleared and before anything else; every other handling ends as `eventHandler` says. -/
theorem eventHandlerHold_eq (g : Game) (tokens : Nat) (ev : Event) :
    eventHandlerHold g tokens ev =
      if ev = EventQuit ∨ ev = EventRestart ∨ ev = EventStart then
        match sendHold tokens with
        | some t =>
          match eventHandler g ev with
          | .done g1 => .done (.finished g1 t)
          | .panics => .panics
          | .spins => .spins
        | none => .done (.blocked { g with paused := false } tokens)
      else
        match eventHandler g ev with
        | .done g1 => .done (.finished g1 tokens)
        | .panics => .panics
        | .spins => .spins := by
  by_cases h1 : ev = EventQuit
  · subst h1
    rw [if_pos (Or.inl rfl)]
    unfold eventHandlerHold eventHandler
    rw [if_pos rfl, if_pos rfl]
  by_cases h2 : ev = EventRestart
  · subst h2
    rw [if_pos (Or.inr (Or.inl rfl)), eventHandler_restart_eq]
    unfold eventHandlerHold
    rw [if_neg (by decide), if_pos rfl]
  by_cases h3 : ev = EventPause
  · subst h3
    rw [if_neg (by decide), eventHandler_pause]
    unfold eventHandlerHold
    rw [if_neg (by decide), if_neg (by decide), if_pos rfl]
  by_cases h4 : ev = EventStart
  · subst h4
    rw [if_pos (Or.inr (Or.inr rfl)), eventHandler_start]
    unfold eventHandlerHold
    rw [if_neg (by decide), if_neg (by decide), if_neg (by decide), if_pos rfl]
  rw [if_neg (by simp [h1, h2, h4])]
  unfold eventHandlerHold eventHandler
  rw [if_neg h1, if_neg h2, if_neg h3, if_neg h4, if_neg h1, if_neg h2, if_neg h3, if_neg h4]
  by_cases h5 : ev = EventMoveRight
  · rw [if_pos h5, if_pos h5]
    split_ifs <;> rfl
  rw [if_neg h5, if_neg h5]
  by_cases h6 : ev = EventMoveLeft
  · rw [if_pos h6, if_pos h6]
    split_ifs <;> rfl
  rw [if_neg h6, if_neg h6]
  by_cases h7 : ev = EventMoveUp
  · rw [if_pos h7, if_pos h7]
    split_ifs <;> rfl
  rw [if_neg h7, if_neg h7]
  by_cases h8 : ev = EventMoveDown
  · rw [if_pos h8, if_pos h8]
    split_ifs <;> rfl
  rw [if_neg h8, if_neg h8]

/-- A handling that the handler with the channel finishes ends as `eventHandler` says. -/
theorem eventHandlerHold_finished {g g' : Game} {tokens tokens' : Nat} {ev : Event}
    (h : eventHandlerHold g tokens ev = .done (.finished g' tokens')) :
    eventHandler g ev = .done g' := by
  rw [eventHandlerHold_eq] at h
  split_ifs at h
  · cases hs : sendHold tokens with
    | none => simp [hs] at h
    | some t =>
      simp only [hs] at h
      cases he : eventHandler g ev with
      | panics => simp [he] at h
      | spins => simp [he] at h
      | done g1 =>
        simp only [he, Run.done.injEq, Handled.finished.injEq] at h
        rw [h.1]
  · cases he : eventHandler g ev with
    | panics => simp [he] at h
    | spins => simp [he] at h
    | done g1 =>
      simp only [he, Run.done.injEq, Handled.finished.injEq] at h
      rw [h.1]

/-- C7, the code at a failing input. The case Restart of the handler sends on the 1-slot
channel `hold` before it calls `g.restart()`. With a token buffered the send blocks with only
`paused` cleared: the game is not restarted, and with `paused` false the loop of `Run` never
reaches its receive on `hold`. Keys s, r, down, r on a fresh 26x14 game: Start (the waiting loop
takes its token), Restart (its token stays buffered), `MoveDown`, one step of the snake, and
the second Restart is blocked with round 1, heading Down and body `[(2,3),(3,3),(4,3),(4,4)]`.
With no token buffered, Restart does reset the game as claimed. -/
theorem restart_blocked_on_hold :
    (∀ (g : Game) (tokens : Nat), 1 ≤ tokens →
      ∃ g', eventHandlerHold g tokens EventRestart = .done (.blocked g' tokens) ∧
        g'.paused = false ∧ g'.snake = g.snake ∧ g'.food = g.food ∧ g'.board = g.board ∧
        recvHold tokens ≠ none) ∧
    (∃ g0 g1 g2 g3 g4 g5 : Game, NewGame 26 14 Fast = .done g0 ∧
      eventHandlerHold g0 0 EventStart = .done (.finished g1 1) ∧
      recvHold 1 = some 0 ∧
      eventHandlerHold g1 0 EventRestart = .done (.finished g2 1) ∧
      eventHandlerHold g2 1 EventMoveDown = .done (.finished g3 1) ∧
      moveSnake g3 [] = .done (none, g4) ∧
      eventHandlerHold g4 1 EventRestart = .done (.blocked g5 1) ∧
      g5.paused = false ∧ g5.board.Round = 1 ∧ g5.snake.move = EventMoveDown ∧
      g5.snake.body = [⟨2, 3⟩, ⟨3, 3⟩, ⟨4, 3⟩, ⟨4, 4⟩] ∧
      g5.snake ≠ NewSnake ∧ g5.board.Round ≠ 0) ∧
    (∀ g : Game, 0 ≤ g.board.X → 0 ≤ g.board.Y →
      ∃ g', eventHandlerHold g 0 EventRestart = .done (.finished g' 1) ∧
        g'.snake.move = EventMoveRight ∧
        g'.snake.body = [⟨1, 3⟩, ⟨2, 3⟩, ⟨3, 3⟩, ⟨4, 3⟩] ∧
        g'.food = NewFood ∧
        g'.board.Score = 0 ∧ g'.board.Round = 0 ∧ g'.board.Errors = "" ∧
        g'.board.X = g.board.X ∧ g'.board.Y = g.board.Y ∧ g'.speed = g.speed) := by
  refine ⟨?_, ?_, ?_⟩
  · intro g tokens ht
    refine ⟨_, eventHandlerHold_restart_blocked g tokens ht, rfl, rfl, rfl, rfl, ?_⟩
    unfold recvHold
    rw [if_pos (by omega)]
    simp
  · refine ⟨_, _, _, _, _, _, NewGame_eq (by decide) (by decide) Fast, rfl, rfl, rfl, rfl, rfl,
      rfl, rfl, rfl, rfl, rfl, ?_, ?_⟩
    · intro h
      have := congrArg Snake.move h
      exact absurd this (by decide)
    · decide
  · intro g hX hY
    obtain ⟨g', hg', h1, h2, -, h4, h5, h6, h7, h8, h9, h10, -⟩ := eventHandler_restart g hX hY
    refine ⟨g', ?_, h1, h2, h4, h5, h6, h7, h8, h9, h10⟩
    rw [eventHandlerHold_restart_free, hg']

end Snaky
